import Mathlib

/-!
Normal-form game solver: 2x2 equilibria and 3x3 decomposition

A shallow embedding of `game_solver.h`, `main.cpp` and `game_3x3_solver.cpp`.

Conventions of the embedding:

* `double` payoffs and probabilities are exact rationals (`ℚ`); the literals
  `0.01`, `0.05`, `0.5` and `1e-6` are the rationals `1/100`, `1/20`, `1/2`
  and `1/1000000`.
* `-INFINITY` is `none` in an `Option ℚ`.
* `int` indices are `Int`, so out-of-range and negative indices are inputs.
* `vector::push_back` is `· ++ [x]`; a `for` loop over a `double` counter is
  the list of values the counter takes (`loopValues`).
* The `description` string of an `Equilibrium` is display text only and is
  not carried.
-/

/-! ## Data model (`game_solver.h`) -/

/-- A 2x2 game: `payoffs[row][col][player]`, the three vectors having sizes
2, 2 and 2 as built by the constructor. -/
structure Game2x2 where
  payoffs : Fin 2 → Fin 2 → Fin 2 → ℚ

namespace Game2x2

/-- The constructor `Game2x2()`: every entry is `0.0`. -/
def new : Game2x2 := ⟨fun _ _ _ => 0⟩

/-- The guard shared by `setPayoff` and `getPayoff`. -/
def inRange (row col player : Int) : Prop :=
  0 ≤ row ∧ row < 2 ∧ 0 ≤ col ∧ col < 2 ∧ 0 ≤ player ∧ player < 2

instance (row col player : Int) : Decidable (inRange row col player) := by
  unfold inRange; infer_instance

/-- Converts a guarded `int` index to a vector index. -/
def idx (i : Int) (h0 : 0 ≤ i) (h1 : i < 2) : Fin 2 := ⟨i.toNat, by omega⟩

/-- `Game2x2::setPayoff`: writes one entry when all indices are in range. -/
def setPayoff (g : Game2x2) (row col player : Int) (payoff : ℚ) : Game2x2 :=
  if h : inRange row col player then
    ⟨fun r c p =>
      if r = idx row h.1 h.2.1 ∧ c = idx col h.2.2.1 h.2.2.2.1
          ∧ p = idx player h.2.2.2.2.1 h.2.2.2.2.2 then payoff
      else g.payoffs r c p⟩
  else g

/-- `Game2x2::getPayoff`: the stored entry, or `0.0` out of range. -/
def getPayoff (g : Game2x2) (row col player : Int) : ℚ :=
  if h : inRange row col player then
    g.payoffs (idx row h.1 h.2.1) (idx col h.2.2.1 h.2.2.2.1)
      (idx player h.2.2.2.2.1 h.2.2.2.2.2)
  else 0

end Game2x2

/-- A strategy profile; both fields default to `0.5`. -/
structure StrategyProfile where
  p1_strategy1_prob : ℚ := 1 / 2
  p2_strategy1_prob : ℚ := 1 / 2
  deriving DecidableEq

/-- An equilibrium: a profile and the `isPure` flag. -/
structure Equilibrium where
  profile : StrategyProfile
  isPure : Bool := false
  deriving DecidableEq

/-- The values taken by the counter of `for (double p = start; p <= stop; p += step)`,
with `fuel` bounding the number of iterations. -/
def loopFrom (stop step : ℚ) : ℕ → ℚ → List ℚ
  | 0, _ => []
  | fuel + 1, p => if p ≤ stop then p :: loopFrom stop step fuel (p + step) else []

/-- Iteration bound used for the probability loops; every loop below stops on
its own condition long before (see `loopFrom_grid`). -/
def loopFuel : ℕ := 1000

/-- The counter values of `for (double p = 0.0; p <= 1.0; p += step)`. -/
def loopValues (step : ℚ) : List ℚ := loopFrom 1 step loopFuel 0

/-! ## The 2x2 solver (`main.cpp`) -/

namespace NormalFormSolver

/-- `NormalFormSolver::calculateExpectedPayoff`: the double loop over
`i, j ∈ {0,1}` accumulating `joint_prob * getPayoff(i, j, player)`. -/
def calculateExpectedPayoff (game : Game2x2) (player : Int) (profile : StrategyProfile) : ℚ :=
  ([0, 1] : List Int).foldl (fun acc i =>
    ([0, 1] : List Int).foldl (fun acc j =>
      let prob_i := if i = 0 then profile.p1_strategy1_prob else 1 - profile.p1_strategy1_prob
      let prob_j := if j = 0 then profile.p2_strategy1_prob else 1 - profile.p2_strategy1_prob
      let joint_prob := prob_i * prob_j
      acc + joint_prob * game.getPayoff i j player) acc) 0

/-- The test `payoff > best_payoff + tolerance`, with `none` for `-INFINITY`. -/
def exceeds (payoff : ℚ) (best_payoff : Option ℚ) (tolerance : ℚ) : Bool :=
  match best_payoff with
  | none => true
  | some b => decide (payoff > b + tolerance)

/-- The profile tested for a candidate of `findBestResponse`. -/
def testProfile (player : Int) (other_player_prob cand : ℚ) : StrategyProfile :=
  if player = 0 then ⟨cand, other_player_prob⟩ else ⟨other_player_prob, cand⟩

/-- One iteration of either loop of `findBestResponse` on the state
`(best_payoff, best_strategy)`. -/
def bestResponseStep (game : Game2x2) (player : Int) (other_player_prob tolerance : ℚ)
    (st : Option ℚ × ℚ) (cand : ℚ) : Option ℚ × ℚ :=
  let payoff := calculateExpectedPayoff game player (testProfile player other_player_prob cand)
  if exceeds payoff st.1 tolerance then (some payoff, cand) else st

/-- The final state `(best_payoff, best_strategy)` of `findBestResponse`:
the pure strategies `0, 1` first, then the grid with step `0.01`. -/
def bestResponseState (game : Game2x2) (player : Int) (other_player_prob tolerance : ℚ) :
    Option ℚ × ℚ :=
  let st0 : Option ℚ × ℚ := (none, 1 / 2)
  let st1 := ([0, 1] : List ℚ).foldl (bestResponseStep game player other_player_prob tolerance) st0
  (loopValues (1 / 100)).foldl (bestResponseStep game player other_player_prob tolerance) st1

/-- `NormalFormSolver::findBestResponse`. -/
def findBestResponse (game : Game2x2) (player : Int) (other_player_prob : ℚ)
    (tolerance : ℚ := 1 / 1000000) : ℚ :=
  (bestResponseState game player other_player_prob tolerance).2

/-- `NormalFormSolver::isNashEquilibrium`. -/
def isNashEquilibrium (game : Game2x2) (profile : StrategyProfile)
    (tolerance : ℚ := 1 / 1000000) : Bool :=
  let p1_best_response := findBestResponse game 0 profile.p2_strategy1_prob tolerance
  if |profile.p1_strategy1_prob - p1_best_response| > tolerance then false
  else
    let p2_best_response := findBestResponse game 1 profile.p1_strategy1_prob tolerance
    if |profile.p2_strategy1_prob - p2_best_response| > tolerance then false
    else true

/-- The value of `p1_best_response` after the loop `for k` of
`findPureNashEquilibria` (with its `break`) over the remaining `k`. -/
def p1BestResponse (game : Game2x2) (i j : Int) : List Int → Bool
  | [] => true
  | k :: ks =>
    if k ≠ i then
      if game.getPayoff k j 0 > game.getPayoff i j 0 then false
      else p1BestResponse game i j ks
    else p1BestResponse game i j ks

/-- The value of `p2_best_response` after the second loop `for k`. -/
def p2BestResponse (game : Game2x2) (i j : Int) : List Int → Bool
  | [] => true
  | k :: ks =>
    if k ≠ j then
      if game.getPayoff i k 1 > game.getPayoff i j 1 then false
      else p2BestResponse game i j ks
    else p2BestResponse game i j ks

/-- `NormalFormSolver::findPureNashEquilibria`. -/
def findPureNashEquilibria (game : Game2x2) : List Equilibrium :=
  ([0, 1] : List Int).foldl (fun equilibria (i : Int) =>
    ([0, 1] : List Int).foldl (fun equilibria (j : Int) =>
      let profile : StrategyProfile := ⟨(i : ℚ), (j : ℚ)⟩
      if p1BestResponse game i j [0, 1] && p2BestResponse game i j [0, 1] then
        equilibria ++ [⟨profile, true⟩]
      else equilibria) equilibria) []

/-- `NormalFormSolver::findMixedNashEquilibria`. -/
def findMixedNashEquilibria (game : Game2x2) : List Equilibrium :=
  (loopValues (1 / 100)).foldl (fun equilibria p1 =>
    let p2_strategy1_payoff := p1 * game.getPayoff 0 0 1 + (1 - p1) * game.getPayoff 1 0 1
    let p2_strategy2_payoff := p1 * game.getPayoff 0 1 1 + (1 - p1) * game.getPayoff 1 1 1
    if |p2_strategy1_payoff - p2_strategy2_payoff| < 1 / 100 then
      let p2 : ℚ := 1 / 2
      let profile : StrategyProfile := ⟨p1, p2⟩
      if isNashEquilibrium game profile then equilibria ++ [⟨profile, false⟩]
      else equilibria
    else equilibria) []

/-- `NormalFormSolver::findAllNashEquilibria`. -/
def findAllNashEquilibria (game : Game2x2) : List Equilibrium :=
  let all_equilibria : List Equilibrium := []
  let pure_equilibria := findPureNashEquilibria game
  let all_equilibria := all_equilibria ++ pure_equilibria
  let mixed_equilibria := findMixedNashEquilibria game
  all_equilibria ++ mixed_equilibria

/-- The value of `is_non_myopic` after player 1's deviation loop of
`findNonMyopicEquilibria` (with its `break`) over the remaining `new_p1`. -/
def p1DeviationLoop (game : Game2x2) (p1 p1_anticipated_payoff : ℚ) : List ℚ → Bool
  | [] => true
  | new_p1 :: rest =>
    if |new_p1 - p1| > 1 / 1000000 then
      let new_p2_best_response := findBestResponse game 1 new_p1
      let new_p1_anticipated_payoff :=
        calculateExpectedPayoff game 0 ⟨new_p1, new_p2_best_response⟩
      if new_p1_anticipated_payoff > p1_anticipated_payoff + 1 / 1000000 then false
      else p1DeviationLoop game p1 p1_anticipated_payoff rest
    else p1DeviationLoop game p1 p1_anticipated_payoff rest

/-- The value of `is_non_myopic` after player 2's deviation loop. -/
def p2DeviationLoop (game : Game2x2) (p2 p2_anticipated_payoff : ℚ) : List ℚ → Bool
  | [] => true
  | new_p2 :: rest =>
    if |new_p2 - p2| > 1 / 1000000 then
      let new_p1_best_response := findBestResponse game 0 new_p2
      let new_p2_anticipated_payoff :=
        calculateExpectedPayoff game 1 ⟨new_p1_best_response, new_p2⟩
      if new_p2_anticipated_payoff > p2_anticipated_payoff + 1 / 1000000 then false
      else p2DeviationLoop game p2 p2_anticipated_payoff rest
    else p2DeviationLoop game p2 p2_anticipated_payoff rest

/-- The body of the inner loop of `findNonMyopicEquilibria`: the final value
of `is_non_myopic` for the profile `(p1, p2)`. -/
def isNonMyopic (game : Game2x2) (p1 p2 : ℚ) : Bool :=
  let p2_best_response := findBestResponse game 1 p1
  let p1_anticipated_payoff := calculateExpectedPayoff game 0 ⟨p1, p2_best_response⟩
  let is_non_myopic := p1DeviationLoop game p1 p1_anticipated_payoff (loopValues (1 / 20))
  if is_non_myopic then
    let p1_best_response := findBestResponse game 0 p2
    let p2_anticipated_payoff := calculateExpectedPayoff game 1 ⟨p1_best_response, p2⟩
    p2DeviationLoop game p2 p2_anticipated_payoff (loopValues (1 / 20))
  else false

/-- `NormalFormSolver::findNonMyopicEquilibria`. -/
def findNonMyopicEquilibria (game : Game2x2) : List Equilibrium :=
  (loopValues (1 / 20)).foldl (fun non_myopic_equilibria p1 =>
    (loopValues (1 / 20)).foldl (fun non_myopic_equilibria p2 =>
      let profile : StrategyProfile := ⟨p1, p2⟩
      if isNonMyopic game p1 p2 then non_myopic_equilibria ++ [⟨profile, false⟩]
      else non_myopic_equilibria) non_myopic_equilibria) []

end NormalFormSolver

/-! ## The 3x3 game and its decomposition (`game_3x3_solver.cpp`) -/

/-- A 3x3 game: `payoffs[row][col][player]` with sizes 3, 3 and 2. -/
structure Game3x3 where
  payoffs : Fin 3 → Fin 3 → Fin 2 → ℚ

namespace Game3x3

/-- The constructor `Game3x3()`: every entry is `0.0`. -/
def new : Game3x3 := ⟨fun _ _ _ => 0⟩

/-- The guard shared by `setPayoff` and `getPayoff`. -/
def inRange (row col player : Int) : Prop :=
  0 ≤ row ∧ row < 3 ∧ 0 ≤ col ∧ col < 3 ∧ 0 ≤ player ∧ player < 2

instance (row col player : Int) : Decidable (inRange row col player) := by
  unfold inRange; infer_instance

/-- Converts a guarded `int` row or column to a vector index. -/
def idx (i : Int) (h0 : 0 ≤ i) (h1 : i < 3) : Fin 3 := ⟨i.toNat, by omega⟩

/-- `Game3x3::setPayoff`: writes one entry when all indices are in range. -/
def setPayoff (g : Game3x3) (row col player : Int) (payoff : ℚ) : Game3x3 :=
  if h : inRange row col player then
    ⟨fun r c p =>
      if r = idx row h.1 h.2.1 ∧ c = idx col h.2.2.1 h.2.2.2.1
          ∧ p = Game2x2.idx player h.2.2.2.2.1 h.2.2.2.2.2 then payoff
      else g.payoffs r c p⟩
  else g

/-- `Game3x3::getPayoff`: the stored entry, or `0.0` out of range. -/
def getPayoff (g : Game3x3) (row col player : Int) : ℚ :=
  if h : inRange row col player then
    g.payoffs (idx row h.1 h.2.1) (idx col h.2.2.1 h.2.2.2.1)
      (Game2x2.idx player h.2.2.2.2.1 h.2.2.2.2.2)
  else 0

end Game3x3

/-- A 2x2 submatrix with its source positions in the 3x3 matrix. -/
structure Submatrix2x2 where
  game : Game2x2
  positions : List (Int × Int)

/-- The constructor `Submatrix2x2()`: a zero game and `positions.resize(4)`. -/
def Submatrix2x2.new : Submatrix2x2 := ⟨Game2x2.new, List.replicate 4 (0, 0)⟩

/-- The values of `for (int i = lo; i <= hi; i++)`. -/
def intRange (lo hi : Int) : List Int :=
  (List.range (hi + 1 - lo).toNat).map (fun t : ℕ => lo + (t : Int))

namespace Game3x3Solver

/-- The recursive lambda `generateCombinationsHelper(start, depth)` acting on
the captured state `(combination, combinations)`; `fuel` bounds the recursion
depth. -/
def generateCombinationsHelper (n k : Int) :
    ℕ → Int → Int → List Int × List (List Int) → List Int × List (List Int)
  | 0, _, _, st => st
  | fuel + 1, start, depth, st =>
    if depth = k then (st.1, st.2 ++ [st.1])
    else
      (intRange start (n - k + depth)).foldl (fun st i =>
        generateCombinationsHelper n k fuel (i + 1) (depth + 1)
          (st.1.set depth.toNat i, st.2)) st

/-- `Game3x3Solver::generateCombinations`: the recursion descends from depth
`0` to depth `k`, so `k + 1` nested calls. -/
def generateCombinations (n k : Int) : List (List Int) :=
  (generateCombinationsHelper n k (k.toNat + 1) 0 0 (List.replicate k.toNat 0, [])).2

/-- The loop collecting the distinct rows and columns of a positions list, in
order of first occurrence. -/
def collectRowsCols (positions : List (Int × Int)) : List Int × List Int :=
  positions.foldl (fun rc pos =>
    (if pos.1 ∈ rc.1 then rc.1 else rc.1 ++ [pos.1],
     if pos.2 ∈ rc.2 then rc.2 else rc.2 ++ [pos.2])) ([], [])

/-- The loop filling the 2x2 game of a submatrix from its positions. -/
def fillGame (game3x3 : Game3x3) (positions : List (Int × Int)) (game : Game2x2) : Game2x2 :=
  ([0, 1] : List Int).foldl (fun game i =>
    ([0, 1] : List Int).foldl (fun game j =>
      let pos_idx := i * 2 + j
      let orig_row := (positions.getD pos_idx.toNat (0, 0)).1
      let orig_col := (positions.getD pos_idx.toNat (0, 0)).2
      (game.setPayoff i j 0 (game3x3.getPayoff orig_row orig_col 0)).setPayoff i j 1
        (game3x3.getPayoff orig_row orig_col 1)) game) game

/-- The body of the loop over combinations in `extractAll2x2Submatrices`. -/
def extractStep (game3x3 : Game3x3) (submatrices : List Submatrix2x2) (combo : List Int) :
    List Submatrix2x2 :=
  let submatrix := Submatrix2x2.new
  let positions := ([0, 1, 2, 3] : List ℕ).foldl (fun positions i =>
    let row := Int.tdiv (combo.getD i 0) 3
    let col := Int.tmod (combo.getD i 0) 3
    positions.set i (row, col)) submatrix.positions
  let rc := collectRowsCols positions
  if rc.1.length ≠ 2 ∨ rc.2.length ≠ 2 then submatrices
  else
    let rows := rc.1.insertionSort (· ≤ ·)
    let cols := rc.2.insertionSort (· ≤ ·)
    let positions := positions.set 0 (rows.getD 0 0, cols.getD 0 0)
    let positions := positions.set 1 (rows.getD 0 0, cols.getD 1 0)
    let positions := positions.set 2 (rows.getD 1 0, cols.getD 0 0)
    let positions := positions.set 3 (rows.getD 1 0, cols.getD 1 0)
    submatrices ++ [⟨fillGame game3x3 positions submatrix.game, positions⟩]

/-- `Game3x3Solver::extractAll2x2Submatrices`. -/
def extractAll2x2Submatrices (game3x3 : Game3x3) : List Submatrix2x2 :=
  (generateCombinations 9 4).foldl (extractStep game3x3) []

end Game3x3Solver

/-- A `std::map` as its entries in increasing key order; `mapUpdate lt dflt f key`
is `m[key] = f(m[key])`, where `operator[]` first inserts `dflt` for a key
that is absent. Keys are compared with `lt` only, as `std::less` does. -/
def mapUpdate {K V : Type} (lt : K → K → Bool) (dflt : V) (f : V → V) (key : K) :
    List (K × V) → List (K × V)
  | [] => [(key, f dflt)]
  | (k, v) :: rest =>
    if lt key k then (key, f dflt) :: (k, v) :: rest
    else if lt k key then (k, v) :: mapUpdate lt dflt f key rest
    else (k, f v) :: rest

/-- The `operator<` of `std::pair<int,int>`: lexicographic. -/
def pairLt (a b : Int × Int) : Bool :=
  decide (a.1 < b.1 ∨ (¬ b.1 < a.1 ∧ a.2 < b.2))

/-- The `operator<` of `int`. -/
def intLt (a b : Int) : Bool := decide (a < b)

/-- The struct `SubmatrixAnalysis`. -/
structure SubmatrixAnalysis where
  submatrix : Submatrix2x2
  nash_equilibria : List Equilibrium
  non_myopic_equilibria : List Equilibrium
  submatrix_id : Int

/-- A line of the report `PREDICTED 3x3 NON-MYOPIC EQUILIBRIA`: the outcome,
its two payoffs, its votes and the number of subgames. -/
structure Prediction where
  row : Int
  col : Int
  payoff1 : ℚ
  payoff2 : ℚ
  votes : Int
  subgames : ℕ
  deriving DecidableEq

/-- What `calculate3x3NMEFromSubgames` computes and prints. -/
structure Aggregation where
  strategy_votes : List ((Int × Int) × Int)
  strategy_supporters : List ((Int × Int) × List Int)
  max_votes : Int
  predictions : List Prediction
  found_prediction : Bool
  row_preferences : List (Int × Int)
  col_preferences : List (Int × Int)

namespace Game3x3Solver

/-- `Game3x3Solver::analyzeAll2x2SubmatricesDetailed`: every extracted
submatrix is solved and numbered from 1 in extraction order. -/
def analyzeAll2x2SubmatricesDetailed (game3x3 : Game3x3) : List SubmatrixAnalysis :=
  let submatrices := extractAll2x2Submatrices game3x3
  (submatrices.foldl (fun (st : List SubmatrixAnalysis × Int) submatrix =>
    let solver := submatrix.game
    (st.1 ++ [⟨submatrix, NormalFormSolver.findAllNashEquilibria solver,
        NormalFormSolver.findNonMyopicEquilibria solver, st.2⟩], st.2 + 1)) ([], 1)).1

/-- The 3x3 outcome `(actual_row, actual_col)` that one non-myopic equilibrium
of a submatrix votes for, as computed in the body of the vote loop. -/
def votedOutcome (positions : List (Int × Int)) (nme : Equilibrium) : Int × Int :=
  let p1_strategy : ℕ := if nme.profile.p1_strategy1_prob > 1 / 2 then 0 else 1
  let p2_strategy : ℕ := if nme.profile.p2_strategy1_prob > 1 / 2 then 0 else 1
  let rc := collectRowsCols positions
  let rows := rc.1.insertionSort (· ≤ ·)
  let cols := rc.2.insertionSort (· ≤ ·)
  let actual_row := rows.getD p1_strategy 0
  let actual_col := cols.getD p2_strategy 0
  (actual_row, actual_col)

/-- The vote loop of `calculate3x3NMEFromSubgames`: the final
`(strategy_votes, strategy_supporters)`. -/
def tallyVotes (analyses : List SubmatrixAnalysis) :
    List ((Int × Int) × Int) × List ((Int × Int) × List Int) :=
  analyses.foldl (fun st analysis =>
    analysis.non_myopic_equilibria.foldl (fun st nme =>
      let strategy_pair := votedOutcome analysis.submatrix.positions nme
      (mapUpdate pairLt 0 (· + 1) strategy_pair st.1,
       mapUpdate pairLt [] (· ++ [analysis.submatrix_id]) strategy_pair st.2)) st) ([], [])

/-- The loop computing `max_votes`. -/
def maxVotes (strategy_votes : List ((Int × Int) × Int)) : Int :=
  strategy_votes.foldl (fun max_votes vote => max max_votes vote.2) 0

/-- The loop reporting the most supported outcomes. -/
def reportPredictions (game3x3 : Game3x3) (strategy_votes : List ((Int × Int) × Int))
    (max_votes : Int) (subgames : ℕ) : List Prediction × Bool :=
  strategy_votes.foldl (fun (st : List Prediction × Bool) vote =>
    if vote.2 = max_votes then
      let row := vote.1.1
      let col := vote.1.2
      let payoff1 := game3x3.getPayoff row col 0
      let payoff2 := game3x3.getPayoff row col 1
      (st.1 ++ [⟨row, col, payoff1, payoff2, vote.2, subgames⟩], true)
    else st) ([], false)

/-- The loop of the dominance analysis: `(row_preferences, col_preferences)`. -/
def dominanceTallies (strategy_votes : List ((Int × Int) × Int)) :
    List (Int × Int) × List (Int × Int) :=
  strategy_votes.foldl (fun st vote =>
    (mapUpdate intLt 0 (· + vote.2) vote.1.1 st.1,
     mapUpdate intLt 0 (· + vote.2) vote.1.2 st.2)) ([], [])

/-- `Game3x3Solver::calculate3x3NMEFromSubgames`, returning what it prints. -/
def calculate3x3NMEFromSubgames (game3x3 : Game3x3) : Aggregation :=
  let analyses := analyzeAll2x2SubmatricesDetailed game3x3
  let tally := tallyVotes analyses
  let max_votes := maxVotes tally.1
  let report := reportPredictions game3x3 tally.1 max_votes analyses.length
  let dominance := dominanceTallies tally.1
  ⟨tally.1, tally.2, max_votes, report.1, report.2, dominance.1, dominance.2⟩

end Game3x3Solver

/-! ## Example games (`main.cpp`, `test_games.cpp`) -/

/-- The Prisoner's Dilemma built in `main` of `main.cpp`. -/
def prisonersDilemma : Game2x2 :=
  ((((((((Game2x2.new.setPayoff 0 0 0 3).setPayoff 0 0 1 3).setPayoff 0 1 0 0).setPayoff 0 1 1 5
    ).setPayoff 1 0 0 5).setPayoff 1 0 1 0).setPayoff 1 1 0 1).setPayoff 1 1 1 1)

/-- The game `matching_pennies` of `test_games.cpp`. -/
def matchingPennies : Game2x2 :=
  ((((((((Game2x2.new.setPayoff 0 0 0 1).setPayoff 0 0 1 (-1)).setPayoff 0 1 0 (-1)
    ).setPayoff 0 1 1 1).setPayoff 1 0 0 (-1)).setPayoff 1 0 1 1).setPayoff 1 1 0 1
    ).setPayoff 1 1 1 (-1))

/-- The game `battle_of_sexes` of `test_games.cpp`. -/
def battle_of_sexes : Game2x2 :=
  ((((((((Game2x2.new.setPayoff 0 0 0 3).setPayoff 0 0 1 2).setPayoff 0 1 0 0).setPayoff 0 1 1 0
    ).setPayoff 1 0 0 0).setPayoff 1 0 1 0).setPayoff 1 1 0 2).setPayoff 1 1 1 3)

/-- The game `coordination` of `test_games.cpp`. -/
def coordination : Game2x2 :=
  ((((((((Game2x2.new.setPayoff 0 0 0 2).setPayoff 0 0 1 2).setPayoff 0 1 0 0).setPayoff 0 1 1 0
    ).setPayoff 1 0 0 0).setPayoff 1 0 1 0).setPayoff 1 1 0 1).setPayoff 1 1 1 1)

/-- The Extended Coordination Game of `getExample3x3Game`. -/
def getExample3x3Game : Game3x3 :=
  ((((((((((((((((((Game3x3.new.setPayoff 0 0 0 3).setPayoff 0 0 1 3).setPayoff 0 1 0 0
    ).setPayoff 0 1 1 5).setPayoff 0 2 0 2).setPayoff 0 2 1 1).setPayoff 1 0 0 5
    ).setPayoff 1 0 1 0).setPayoff 1 1 0 1).setPayoff 1 1 1 1).setPayoff 1 2 0 4
    ).setPayoff 1 2 1 2).setPayoff 2 0 0 1).setPayoff 2 0 1 2).setPayoff 2 1 0 2
    ).setPayoff 2 1 1 4).setPayoff 2 2 0 6).setPayoff 2 2 1 6)

/-! ## Closed forms used in the proofs

These are not functions of the source. Each one restates a loop of the source
in closed form and is proved equal to it (`findBestResponse_eq_twoPoint`,
`findNonMyopicEquilibria_product`, `tallyVotes_eq_foldl`,
`generateCombinations_eq`) before anything is derived from it. -/

/-- The comparison of the two pure strategies to which the 103-candidate scan
of `findBestResponse` reduces. -/
def twoPointResponse (game : Game2x2) (player : Int) (other_player_prob : ℚ)
    (tolerance : ℚ := 1 / 1000000) : ℚ :=
  if NormalFormSolver.calculateExpectedPayoff game player
        (NormalFormSolver.testProfile player other_player_prob 1)
      > NormalFormSolver.calculateExpectedPayoff game player
          (NormalFormSolver.testProfile player other_player_prob 0) + tolerance
  then 1 else 0

/-- The 21-point grid `k/20`, `k = 0..20`. -/
def grid21 : List ℚ := (List.range 21).map (fun k : ℕ => (k : ℚ) / 20)

/-- Player 1's anticipated payoff at `a`, player 2 replying by the two-point
comparison. -/
def anticipated1 (game : Game2x2) (a : ℚ) : ℚ :=
  NormalFormSolver.calculateExpectedPayoff game 0 ⟨a, twoPointResponse game 1 a⟩

/-- Player 2's anticipated payoff at `b`, player 1 replying by the two-point
comparison. -/
def anticipated2 (game : Game2x2) (b : ℚ) : ℚ :=
  NormalFormSolver.calculateExpectedPayoff game 1 ⟨twoPointResponse game 0 b, b⟩

/-- Player 1's lookahead test at `p1` over the grid. -/
def stable1 (game : Game2x2) (p1 : ℚ) : Bool :=
  decide (∀ a ∈ grid21, |a - p1| > 1 / 1000000 →
    anticipated1 game a ≤ anticipated1 game p1 + 1 / 1000000)

/-- Player 2's lookahead test at `p2` over the grid. -/
def stable2 (game : Game2x2) (p2 : ℚ) : Bool :=
  decide (∀ b ∈ grid21, |b - p2| > 1 / 1000000 →
    anticipated2 game b ≤ anticipated2 game p2 + 1 / 1000000)

/-- The positions lists of the nine axis-aligned 2x2 blocks, in the order in
which `extractAll2x2Submatrices` emits them (`extract_positions`). -/
def blockPositions : List (List (Int × Int)) :=
  [[(0, 0), (0, 1), (1, 0), (1, 1)], [(0, 0), (0, 1), (2, 0), (2, 1)],
   [(0, 0), (0, 2), (1, 0), (1, 2)], [(0, 0), (0, 2), (2, 0), (2, 2)],
   [(0, 1), (0, 2), (1, 1), (1, 2)], [(0, 1), (0, 2), (2, 1), (2, 2)],
   [(1, 0), (1, 1), (2, 0), (2, 1)], [(1, 0), (1, 2), (2, 0), (2, 2)],
   [(1, 1), (1, 2), (2, 1), (2, 2)]]

/-- The votes in the order in which the vote loop casts them: one pair
`(outcome, submatrix number)` per non-myopic equilibrium of each analysis. -/
def votesCast (analyses : List SubmatrixAnalysis) : List ((Int × Int) × Int) :=
  analyses.flatMap (fun a =>
    a.non_myopic_equilibria.map (fun nme =>
      (Game3x3Solver.votedOutcome a.submatrix.positions nme, a.submatrix_id)))

/-- The strictly increasing tuples of `r` integers taken from `start .. n - 1`,
listed in lexicographic order: the first entry `i` leaves room for the `r - 1`
larger entries that follow it. -/
def increasingTuples (n : Int) : ℕ → Int → List (List Int)
  | 0, _ => [[]]
  | r + 1, start =>
    (intRange start (n - ((r : Int) + 1))).flatMap (fun i =>
      (increasingTuples n r (i + 1)).map (fun t => i :: t))

/-! ## Theorems -/

open NormalFormSolver

/-- The two `break` loops of `findPureNashEquilibria` at a cell `(i,j)` of the
matrix amount to the two comparisons with the other row and the other column. -/
theorem pureCellCheck (game : Game2x2) (i j : Int) (hi : i = 0 ∨ i = 1) (hj : j = 0 ∨ j = 1) :
    (p1BestResponse game i j [0, 1] && p2BestResponse game i j [0, 1])
      = decide (game.getPayoff (1 - i) j 0 ≤ game.getPayoff i j 0
          ∧ game.getPayoff i (1 - j) 1 ≤ game.getPayoff i j 1) := by
  rcases hi with rfl | rfl <;> rcases hj with rfl | rfl <;>
    simp only [p1BestResponse, p2BestResponse] <;> norm_num <;>
    simp only [← not_lt, decide_not]

/-- The unrolled loops of `findPureNashEquilibria`: the four cells in row-major
order, each kept when its check succeeds. -/
theorem findPureNashEquilibria_unroll (game : Game2x2) :
    findPureNashEquilibria game
      = (([(0, 0), (0, 1), (1, 0), (1, 1)] : List (Int × Int)).filter (fun c =>
            p1BestResponse game c.1 c.2 [0, 1] && p2BestResponse game c.1 c.2 [0, 1])).map
          (fun c => (⟨⟨(c.1 : ℚ), (c.2 : ℚ)⟩, true⟩ : Equilibrium)) := by
  simp only [findPureNashEquilibria, List.foldl, List.filter_cons, List.filter_nil]
  generalize (p1BestResponse game 0 0 [0, 1] && p2BestResponse game 0 0 [0, 1]) = b00
  generalize (p1BestResponse game 0 1 [0, 1] && p2BestResponse game 0 1 [0, 1]) = b01
  generalize (p1BestResponse game 1 0 [0, 1] && p2BestResponse game 1 0 [0, 1]) = b10
  generalize (p1BestResponse game 1 1 [0, 1] && p2BestResponse game 1 1 [0, 1]) = b11
  cases b00 <;> cases b01 <;> cases b10 <;> cases b11 <;> simp

/-- The result of `findPureNashEquilibria` as a filter of the four cells by
the two comparisons. -/
theorem findPureNashEquilibria_eq_filter (game : Game2x2) :
    findPureNashEquilibria game
      = (([(0, 0), (0, 1), (1, 0), (1, 1)] : List (Int × Int)).filter (fun c =>
            decide (game.getPayoff (1 - c.1) c.2 0 ≤ game.getPayoff c.1 c.2 0
              ∧ game.getPayoff c.1 (1 - c.2) 1 ≤ game.getPayoff c.1 c.2 1))).map
          (fun c => (⟨⟨(c.1 : ℚ), (c.2 : ℚ)⟩, true⟩ : Equilibrium)) := by
  rw [findPureNashEquilibria_unroll]
  congr 1
  apply List.filter_congr
  intro c hc
  apply pureCellCheck <;>
    (simp only [List.mem_cons, Prod.ext_iff, List.mem_nil_iff, or_false] at hc
     rcases hc with h | h | h | h <;> simp [h.1, h.2])

/-- C1: `findPureNashEquilibria` returns, in the order (0,0),(0,1),(1,0),(1,1),
exactly the cells `(i,j)` with `payoff(1-i,j,0) ≤ payoff(i,j,0)` and
`payoff(i,1-j,1) ≤ payoff(i,j,1)`, each once and tagged `isPure = true`; hence
at most 4 results, and all 4 when every payoff is equal. -/
theorem findPureNashEquilibria_cells (game : Game2x2) :
    findPureNashEquilibria game
        = (([(0, 0), (0, 1), (1, 0), (1, 1)] : List (Int × Int)).filter (fun c =>
              decide (game.getPayoff (1 - c.1) c.2 0 ≤ game.getPayoff c.1 c.2 0
                ∧ game.getPayoff c.1 (1 - c.2) 1 ≤ game.getPayoff c.1 c.2 1))).map
            (fun c => (⟨⟨(c.1 : ℚ), (c.2 : ℚ)⟩, true⟩ : Equilibrium))
      ∧ (findPureNashEquilibria game).Nodup
      ∧ (findPureNashEquilibria game).length ≤ 4
      ∧ ((∃ v, ∀ r c p, game.payoffs r c p = v) →
          findPureNashEquilibria game
            = [⟨⟨0, 0⟩, true⟩, ⟨⟨0, 1⟩, true⟩, ⟨⟨1, 0⟩, true⟩, ⟨⟨1, 1⟩, true⟩]) := by
  have key := findPureNashEquilibria_eq_filter game
  refine ⟨key, ?_, ?_, ?_⟩
  · rw [key]
    refine List.Nodup.map_on ?_ (List.Nodup.filter _ (by decide))
    intro a _ b _ h
    simp only [Equilibrium.mk.injEq, StrategyProfile.mk.injEq, Int.cast_inj, and_true] at h
    exact Prod.ext h.1 h.2
  · rw [key, List.length_map]
    exact (List.length_filter_le _ _).trans (by simp)
  · rintro ⟨v, hv⟩
    have hg : ∀ r c p, Game2x2.inRange r c p → game.getPayoff r c p = v := by
      intro r c p h
      simp [Game2x2.getPayoff, h, hv]
    rw [key]
    simp [hg, Game2x2.inRange]

/-- C1 on the all-zero game, where every payoff is equal and all four cells
are returned. -/
theorem findPureNashEquilibria_cells_witness :
    (∃ v, ∀ r c p, Game2x2.new.payoffs r c p = v)
      ∧ findPureNashEquilibria Game2x2.new
          = [⟨⟨0, 0⟩, true⟩, ⟨⟨0, 1⟩, true⟩, ⟨⟨1, 0⟩, true⟩, ⟨⟨1, 1⟩, true⟩] :=
  ⟨⟨0, fun _ _ _ => rfl⟩,
    (findPureNashEquilibria_cells Game2x2.new).2.2.2 ⟨0, fun _ _ _ => rfl⟩⟩

/-- C2: on the Prisoner's Dilemma of `main.cpp`, `findPureNashEquilibria`
returns exactly one equilibrium, the one of cell `(1,1)` (both defect). -/
theorem findPureNashEquilibria_prisonersDilemma :
    findPureNashEquilibria prisonersDilemma = [⟨⟨((1 : Int) : ℚ), ((1 : Int) : ℚ)⟩, true⟩]
      ∧ (findPureNashEquilibria prisonersDilemma).length = 1
      ∧ prisonersDilemma.getPayoff 0 0 0 = 3 ∧ prisonersDilemma.getPayoff 0 0 1 = 3
      ∧ prisonersDilemma.getPayoff 0 1 0 = 0 ∧ prisonersDilemma.getPayoff 0 1 1 = 5
      ∧ prisonersDilemma.getPayoff 1 0 0 = 5 ∧ prisonersDilemma.getPayoff 1 0 1 = 0
      ∧ prisonersDilemma.getPayoff 1 1 0 = 1 ∧ prisonersDilemma.getPayoff 1 1 1 = 1 := by
  decide

/-- C3: `findPureNashEquilibria` is empty on Matching Pennies, and on every
game in which at each cell some player strictly gains by switching to their
other strategy. -/
theorem findPureNashEquilibria_empty :
    findPureNashEquilibria matchingPennies = []
      ∧ ∀ game : Game2x2,
          (∀ i j : Int, (i = 0 ∨ i = 1) → (j = 0 ∨ j = 1) →
            game.getPayoff i j 0 < game.getPayoff (1 - i) j 0
              ∨ game.getPayoff i j 1 < game.getPayoff i (1 - j) 1) →
          findPureNashEquilibria game = [] := by
  refine ⟨by decide, ?_⟩
  intro game h
  rw [findPureNashEquilibria_eq_filter game, List.map_eq_nil_iff, List.filter_eq_nil_iff]
  intro c hc
  simp only [List.mem_cons, Prod.ext_iff, List.mem_nil_iff, or_false] at hc
  have hc1 : c.1 = 0 ∨ c.1 = 1 := by rcases hc with h | h | h | h <;> simp [h.1]
  have hc2 : c.2 = 0 ∨ c.2 = 1 := by rcases hc with h | h | h | h <;> simp [h.2]
  simp only [decide_eq_true_eq, not_and, not_le]
  intro h1
  rcases h c.1 c.2 hc1 hc2 with h0 | h0
  · exact absurd h1 (not_le.mpr h0)
  · exact h0

/-- The hypothesis of C3 holds of Matching Pennies, where the general
statement gives the empty result. -/
theorem findPureNashEquilibria_empty_witness :
    (∀ i j : Int, (i = 0 ∨ i = 1) → (j = 0 ∨ j = 1) →
        matchingPennies.getPayoff i j 0 < matchingPennies.getPayoff (1 - i) j 0
          ∨ matchingPennies.getPayoff i j 1 < matchingPennies.getPayoff i (1 - j) 1)
      ∧ findPureNashEquilibria matchingPennies = [] :=
  have hyp : ∀ i j : Int, (i = 0 ∨ i = 1) → (j = 0 ∨ j = 1) →
      matchingPennies.getPayoff i j 0 < matchingPennies.getPayoff (1 - i) j 0
        ∨ matchingPennies.getPayoff i j 1 < matchingPennies.getPayoff i (1 - j) 1 := by
    intro i j hi hj
    rcases hi with rfl | rfl <;> rcases hj with rfl | rfl <;> decide
  ⟨hyp, findPureNashEquilibria_empty.2 matchingPennies hyp⟩

/-- C5: `calculateExpectedPayoff` is the probability-weighted sum of the four
cell payoffs; at profile `(1,1)` it is the payoff of cell `(0,0)` and at
profile `(0,0)` that of cell `(1,1)`. -/
theorem calculateExpectedPayoff_formula (game : Game2x2) (player : Int) :
    (∀ p1 p2 : ℚ, calculateExpectedPayoff game player ⟨p1, p2⟩
        = p1 * p2 * game.getPayoff 0 0 player + p1 * (1 - p2) * game.getPayoff 0 1 player
          + (1 - p1) * p2 * game.getPayoff 1 0 player
          + (1 - p1) * (1 - p2) * game.getPayoff 1 1 player)
      ∧ calculateExpectedPayoff game player ⟨1, 1⟩ = game.getPayoff 0 0 player
      ∧ calculateExpectedPayoff game player ⟨0, 0⟩ = game.getPayoff 1 1 player := by
  refine ⟨fun p1 p2 => ?_, ?_, ?_⟩ <;> simp [calculateExpectedPayoff]

/-! ### The probability loops -/

/-- A counting loop with positive step that leaves `[p, stop]` after exactly
`cnt` iterations visits `p, p + step, …`, whatever fuel `≥ cnt` it is given. -/
theorem loopFrom_eq_range (stop step : ℚ) :
    ∀ (cnt fuel : ℕ) (p : ℚ), cnt ≤ fuel → stop < p + cnt * step →
      (∀ k : ℕ, k < cnt → p + k * step ≤ stop) →
      loopFrom stop step fuel p = (List.range cnt).map (fun k : ℕ => p + k * step) := by
  intro cnt
  induction cnt with
  | zero =>
    intro fuel p _ hstop _
    cases fuel with
    | zero => rfl
    | succ f =>
      have : ¬ p ≤ stop := by simpa using hstop
      simp [loopFrom, this]
  | succ n ih =>
    intro fuel p hfuel hstop hin
    cases fuel with
    | zero => omega
    | succ f =>
      have hp : p ≤ stop := by simpa using hin 0 (Nat.succ_pos n)
      have hrec := ih f (p + step) (by omega)
        (by push_cast at hstop; linarith)
        (fun k hk => by
          have := hin (k + 1) (by omega)
          push_cast at this; linarith)
      simp only [loopFrom, hp, if_true, hrec, List.range_succ_eq_map, List.map_cons,
        List.map_map]
      refine congrArg₂ _ (by simp) (List.map_congr_left fun k _ => ?_)
      simp only [Function.comp, Nat.cast_succ]
      ring

/-- The loop `for (p = 0.0; p <= 1.0; p += 1/n)` visits `k/n` for `k = 0..n`,
for every fuel above `n`; in particular it stops on its own condition. -/
theorem loopFrom_grid (n : ℕ) (hn : 0 < n) (fuel : ℕ) (hfuel : n + 1 ≤ fuel) :
    loopFrom 1 (1 / (n : ℚ)) fuel 0 = (List.range (n + 1)).map (fun k : ℕ => (k : ℚ) / n) := by
  have hn0 : (n : ℚ) ≠ 0 := Nat.cast_ne_zero.mpr hn.ne'
  have hnpos : (0 : ℚ) < n := Nat.cast_pos.mpr hn
  rw [loopFrom_eq_range 1 (1 / (n : ℚ)) (n + 1) fuel 0 hfuel]
  · refine List.map_congr_left fun k _ => ?_
    ring
  · push_cast
    rw [zero_add, mul_one_div, lt_div_iff₀ hnpos]
    linarith
  · intro k hk
    have hk' : (k : ℚ) ≤ n := by exact_mod_cast Nat.lt_succ_iff.mp hk
    rw [zero_add, mul_one_div, div_le_one hnpos]
    exact hk'

/-- The grid with step `0.01`. -/
theorem loopValues_hundredth :
    loopValues (1 / 100) = (List.range 101).map (fun k : ℕ => (k : ℚ) / 100) := by
  have := loopFrom_grid 100 (by norm_num) loopFuel (by norm_num [loopFuel])
  simpa [loopValues] using this

/-- The grid with step `0.05`. -/
theorem loopValues_twentieth :
    loopValues (1 / 20) = (List.range 21).map (fun k : ℕ => (k : ℚ) / 20) := by
  have := loopFrom_grid 20 (by norm_num) loopFuel (by norm_num [loopFuel])
  simpa [loopValues] using this

/-- Membership in a grid `k/n`, `k = 0..n`. -/
theorem mem_grid_iff (n : ℕ) (x : ℚ) :
    x ∈ (List.range (n + 1)).map (fun k : ℕ => (k : ℚ) / n) ↔ ∃ k : ℕ, k ≤ n ∧ x = (k : ℚ) / n := by
  simp only [List.mem_map, List.mem_range, Nat.lt_succ_iff]
  constructor
  · rintro ⟨k, hk, rfl⟩; exact ⟨k, hk, rfl⟩
  · rintro ⟨k, hk, rfl⟩; exact ⟨k, hk, rfl⟩

/-! ### Best response -/

/-- The candidates of `findBestResponse` in scan order. -/
theorem bestResponseState_eq_foldl (game : Game2x2) (player : Int) (other tol : ℚ) :
    bestResponseState game player other tol
      = ((0 : ℚ) :: 1 :: (List.range 101).map (fun k : ℕ => (k : ℚ) / 100)).foldl
          (bestResponseStep game player other tol) (none, 1 / 2) := by
  unfold bestResponseState
  rw [loopValues_hundredth]
  simp only [List.foldl_cons, List.foldl_nil]

/-- Scan invariant of `findBestResponse`: once a candidate has been selected,
the state holds a scanned candidate together with its payoff, and no scanned
candidate beats it by more than the tolerance. -/
theorem bestResponse_scan (game : Game2x2) (player : Int) (other tol : ℚ) (htol : 0 ≤ tol) :
    ∀ (cs seen : List ℚ) (st : Option ℚ × ℚ),
      st.1 = some (calculateExpectedPayoff game player (testProfile player other st.2)) →
      st.2 ∈ seen →
      (∀ c ∈ seen, calculateExpectedPayoff game player (testProfile player other c)
          ≤ calculateExpectedPayoff game player (testProfile player other st.2) + tol) →
      let fin := cs.foldl (bestResponseStep game player other tol) st
      fin.1 = some (calculateExpectedPayoff game player (testProfile player other fin.2))
        ∧ fin.2 ∈ seen ++ cs
        ∧ ∀ c ∈ seen ++ cs, calculateExpectedPayoff game player (testProfile player other c)
            ≤ calculateExpectedPayoff game player (testProfile player other fin.2) + tol := by
  intro cs
  induction cs with
  | nil =>
    intro seen st h1 h2 h3
    simpa using ⟨h1, h2, h3⟩
  | cons c cs ih =>
    intro seen st h1 h2 h3
    simp only [List.foldl_cons]
    have hstep : ∀ st' : Option ℚ × ℚ, st' = bestResponseStep game player other tol st c →
        st'.1 = some (calculateExpectedPayoff game player (testProfile player other st'.2))
        ∧ st'.2 ∈ seen ++ [c]
        ∧ ∀ d ∈ seen ++ [c], calculateExpectedPayoff game player (testProfile player other d)
            ≤ calculateExpectedPayoff game player (testProfile player other st'.2) + tol := by
      intro st' hst'
      by_cases hex : calculateExpectedPayoff game player (testProfile player other c)
          > calculateExpectedPayoff game player (testProfile player other st.2) + tol
      · have : st' = (some (calculateExpectedPayoff game player (testProfile player other c)), c) := by
          rw [hst']; simp [bestResponseStep, exceeds, h1, hex]
        subst this
        refine ⟨rfl, by simp, ?_⟩
        intro d hd
        rcases List.mem_append.mp hd with hd | hd
        · have := h3 d hd
          simp only
          linarith
        · simp only [List.mem_singleton] at hd
          subst hd
          simp only
          linarith
      · have : st' = st := by
          rw [hst']; simp [bestResponseStep, exceeds, h1, hex]
        subst this
        refine ⟨h1, List.mem_append_left _ h2, ?_⟩
        intro d hd
        rcases List.mem_append.mp hd with hd | hd
        · exact h3 d hd
        · simp only [List.mem_singleton] at hd
          subst hd
          exact not_lt.mp hex
    obtain ⟨a1, a2, a3⟩ := hstep _ rfl
    have := ih (seen ++ [c]) _ a1 a2 a3
    simpa [List.append_assoc] using this

/-- C6: for a tolerance `≥ 0`, `findBestResponse` returns a candidate `r` of
`{0,1} ∪ {k/100 : k = 0..100}` that no candidate beats by more than the
tolerance; `r` was selected by an update (the stored best payoff is the payoff
of `r`, not the initial `-INFINITY` of the placeholder `0.5`). -/
theorem findBestResponse_maximal (game : Game2x2) (player : Int) (other tol : ℚ)
    (htol : 0 ≤ tol) :
    (findBestResponse game player other tol = 0 ∨ findBestResponse game player other tol = 1
        ∨ ∃ k : ℕ, k ≤ 100 ∧ findBestResponse game player other tol = (k : ℚ) / 100)
      ∧ (∀ c : ℚ, (c = 0 ∨ c = 1 ∨ ∃ k : ℕ, k ≤ 100 ∧ c = (k : ℚ) / 100) →
          calculateExpectedPayoff game player (testProfile player other c)
            ≤ calculateExpectedPayoff game player
                (testProfile player other (findBestResponse game player other tol)) + tol)
      ∧ (bestResponseState game player other tol).1
          = some (calculateExpectedPayoff game player
              (testProfile player other (findBestResponse game player other tol))) := by
  have h0 : bestResponseState game player other tol
      = ((1 : ℚ) :: (List.range 101).map (fun k : ℕ => (k : ℚ) / 100)).foldl
          (bestResponseStep game player other tol)
          (some (calculateExpectedPayoff game player (testProfile player other 0)), 0) := by
    rw [bestResponseState_eq_foldl]
    simp [List.foldl_cons, bestResponseStep, exceeds]
  obtain ⟨a1, a2, a3⟩ := bestResponse_scan game player other tol htol
    ((1 : ℚ) :: (List.range 101).map (fun k : ℕ => (k : ℚ) / 100)) [0]
    (some (calculateExpectedPayoff game player (testProfile player other 0)), 0) rfl
    (by simp) (by intro c hc; simp only [List.mem_singleton] at hc; subst hc; simpa using htol)
  rw [← h0] at a1 a2 a3
  have hmem : ∀ c : ℚ, c ∈ [0] ++ ((1 : ℚ) :: (List.range 101).map (fun k : ℕ => (k : ℚ) / 100))
      ↔ (c = 0 ∨ c = 1 ∨ ∃ k : ℕ, k ≤ 100 ∧ c = (k : ℚ) / 100) := by
    intro c
    have hg := mem_grid_iff 100 c
    simp only [Nat.cast_ofNat, Nat.reduceAdd] at hg
    rw [List.singleton_append, List.mem_cons, List.mem_cons, hg]
  refine ⟨(hmem _).mp a2, fun c hc => a3 c ((hmem c).mpr hc), a1⟩

/-- C6 on the Prisoner's Dilemma with the default tolerance. -/
theorem findBestResponse_maximal_witness :
    (0 : ℚ) ≤ 1 / 1000000
      ∧ (findBestResponse prisonersDilemma 0 (1 / 2) (1 / 1000000) = 0
          ∨ findBestResponse prisonersDilemma 0 (1 / 2) (1 / 1000000) = 1
          ∨ ∃ k : ℕ, k ≤ 100
              ∧ findBestResponse prisonersDilemma 0 (1 / 2) (1 / 1000000) = (k : ℚ) / 100) :=
  ⟨by norm_num, (findBestResponse_maximal prisonersDilemma 0 (1 / 2) (1 / 1000000)
    (by norm_num)).1⟩

/-- A scan in which no candidate beats the stored payoff by more than the
tolerance leaves the state unchanged. -/
theorem bestResponse_scan_keep (game : Game2x2) (player : Int) (other tol v s : ℚ) :
    ∀ cs : List ℚ,
      (∀ c ∈ cs, ¬ calculateExpectedPayoff game player (testProfile player other c) > v + tol) →
      cs.foldl (bestResponseStep game player other tol) (some v, s) = (some v, s) := by
  intro cs
  induction cs with
  | nil => intro _; rfl
  | cons c cs ih =>
    intro h
    have hc := h c (List.mem_cons_self _ _)
    have hstep : bestResponseStep game player other tol (some v, s) c = (some v, s) := by
      simp only [bestResponseStep, exceeds]
      simp [hc]
    rw [List.foldl_cons, hstep]
    exact ih fun d hd => h d (List.mem_cons_of_mem _ hd)

/-- C7: the candidates are scanned in the order `0, 1, 0.00, 0.01, …, 1.00`,
and for a tolerance `≥ 0`, if no candidate's expected payoff exceeds that of
candidate `0` by strictly more than the tolerance (in particular when the
payoff is flat in the player's own probability), `findBestResponse` returns
`0`, the first candidate scanned. -/
theorem findBestResponse_first_wins (game : Game2x2) (player : Int) (other tol : ℚ)
    (htol : 0 ≤ tol) :
    bestResponseState game player other tol
        = ((0 : ℚ) :: 1 :: (List.range 101).map (fun k : ℕ => (k : ℚ) / 100)).foldl
            (bestResponseStep game player other tol) (none, 1 / 2)
      ∧ ((∀ c : ℚ, (c = 0 ∨ c = 1 ∨ ∃ k : ℕ, k ≤ 100 ∧ c = (k : ℚ) / 100) →
            ¬ calculateExpectedPayoff game player (testProfile player other c)
                > calculateExpectedPayoff game player (testProfile player other 0) + tol) →
          findBestResponse game player other tol = 0)
      ∧ ((∀ c : ℚ, calculateExpectedPayoff game player (testProfile player other c)
              = calculateExpectedPayoff game player (testProfile player other 0)) →
          findBestResponse game player other tol = 0) := by
  have main : (∀ c : ℚ, (c = 0 ∨ c = 1 ∨ ∃ k : ℕ, k ≤ 100 ∧ c = (k : ℚ) / 100) →
        ¬ calculateExpectedPayoff game player (testProfile player other c)
            > calculateExpectedPayoff game player (testProfile player other 0) + tol) →
      findBestResponse game player other tol = 0 := by
    intro h
    have h0 : bestResponseState game player other tol
        = ((1 : ℚ) :: (List.range 101).map (fun k : ℕ => (k : ℚ) / 100)).foldl
            (bestResponseStep game player other tol)
            (some (calculateExpectedPayoff game player (testProfile player other 0)), 0) := by
      rw [bestResponseState_eq_foldl]
      simp [List.foldl_cons, bestResponseStep, exceeds]
    unfold findBestResponse
    rw [h0, bestResponse_scan_keep]
    intro c hc
    refine h c ?_
    have hg := mem_grid_iff 100 c
    simp only [Nat.cast_ofNat, Nat.reduceAdd] at hg
    rw [List.mem_cons, hg] at hc
    exact Or.inr hc
  refine ⟨bestResponseState_eq_foldl game player other tol, main, fun hflat => main ?_⟩
  intro c _
  rw [hflat c]
  linarith

/-- C7 on the all-zero game, whose payoffs are flat. -/
theorem findBestResponse_first_wins_witness :
    (0 : ℚ) ≤ 1 / 1000000
      ∧ (∀ c : ℚ, calculateExpectedPayoff Game2x2.new 0 (testProfile 0 (1 / 2) c)
            = calculateExpectedPayoff Game2x2.new 0 (testProfile 0 (1 / 2) 0))
      ∧ findBestResponse Game2x2.new 0 (1 / 2) (1 / 1000000) = 0 :=
  have hflat : ∀ c : ℚ, calculateExpectedPayoff Game2x2.new 0 (testProfile 0 (1 / 2) c)
      = calculateExpectedPayoff Game2x2.new 0 (testProfile 0 (1 / 2) 0) := by
    intro c
    simp [calculateExpectedPayoff, Game2x2.getPayoff, Game2x2.new]
  ⟨by norm_num, hflat,
    (findBestResponse_first_wins Game2x2.new 0 (1 / 2) (1 / 1000000) (by norm_num)).2.2 hflat⟩

/-! ### Non-myopic equilibria -/

/-- A loop that conditionally appends one element per iteration is a filter
followed by a map. -/
theorem foldl_cond_append {α β : Type} (p : α → Bool) (f : α → β) :
    ∀ (l : List α) (init : List β),
      l.foldl (fun acc x => if p x then acc ++ [f x] else acc) init
        = init ++ (l.filter p).map f := by
  intro l
  induction l with
  | nil => intro init; simp
  | cons a l ih =>
    intro init
    rw [List.foldl_cons, ih]
    by_cases h : p a <;> simp [h, List.filter_cons]

/-- Two nested loops of that kind enumerate the product in row-major order. -/
theorem foldl_foldl_cond_append {α β γ : Type} (p : α → β → Bool) (f : α → β → γ)
    (l2 : List β) :
    ∀ (l1 : List α) (init : List γ),
      l1.foldl (fun acc a =>
          l2.foldl (fun acc b => if p a b then acc ++ [f a b] else acc) acc) init
        = init ++ ((l1.flatMap fun a => l2.map fun b => (a, b)).filter
            (fun c => p c.1 c.2)).map (fun c => f c.1 c.2) := by
  intro l1
  induction l1 with
  | nil => intro init; simp
  | cons a l1 ih =>
    intro init
    rw [List.foldl_cons, ih, foldl_cond_append (p a) (f a) l2 init]
    simp [List.filter_map, List.append_assoc, Function.comp_def]

/-- Player 1's deviation loop succeeds iff no alternative further than `1e-6`
from `p1` has an anticipated payoff above the given one by more than `1e-6`. -/
theorem p1DeviationLoop_iff (game : Game2x2) (p1 v : ℚ) :
    ∀ l : List ℚ, p1DeviationLoop game p1 v l = true ↔
      ∀ a ∈ l, |a - p1| > 1 / 1000000 →
        calculateExpectedPayoff game 0 ⟨a, findBestResponse game 1 a⟩ ≤ v + 1 / 1000000 := by
  intro l
  induction l with
  | nil => simp [p1DeviationLoop]
  | cons a l ih =>
    simp only [p1DeviationLoop, List.mem_cons, forall_eq_or_imp]
    split_ifs with h1 h2
    · simp only [Bool.false_eq_true, false_iff, not_and]
      intro h
      exact absurd (h h1) (not_le.mpr h2)
    · rw [ih]
      exact ⟨fun h => ⟨fun _ => not_lt.mp h2, h⟩, fun h => h.2⟩
    · rw [ih]
      exact ⟨fun h => ⟨fun hc => absurd hc h1, h⟩, fun h => h.2⟩

/-- Player 2's deviation loop, symmetrically. -/
theorem p2DeviationLoop_iff (game : Game2x2) (p2 v : ℚ) :
    ∀ l : List ℚ, p2DeviationLoop game p2 v l = true ↔
      ∀ b ∈ l, |b - p2| > 1 / 1000000 →
        calculateExpectedPayoff game 1 ⟨findBestResponse game 0 b, b⟩ ≤ v + 1 / 1000000 := by
  intro l
  induction l with
  | nil => simp [p2DeviationLoop]
  | cons a l ih =>
    simp only [p2DeviationLoop, List.mem_cons, forall_eq_or_imp]
    split_ifs with h1 h2
    · simp only [Bool.false_eq_true, false_iff, not_and]
      intro h
      exact absurd (h h1) (not_le.mpr h2)
    · rw [ih]
      exact ⟨fun h => ⟨fun _ => not_lt.mp h2, h⟩, fun h => h.2⟩
    · rw [ih]
      exact ⟨fun h => ⟨fun hc => absurd hc h1, h⟩, fun h => h.2⟩

open Game3x3Solver

/-- The positions recorded by one iteration of the extraction loop do not
depend on the payoffs. -/
theorem extractStep_positions (g g' : Game3x3) (subs subs' : List Submatrix2x2)
    (combo : List Int) (h : subs.map (·.positions) = subs'.map (·.positions)) :
    (extractStep g subs combo).map (·.positions)
      = (extractStep g' subs' combo).map (·.positions) := by
  unfold extractStep
  simp only []
  split_ifs
  · exact h
  · simp only [List.map_append, h, List.map_cons, List.map_nil]

/-- The positions recorded by the whole extraction do not depend on the
payoffs. -/
theorem extract_positions_indep (g g' : Game3x3) :
    ∀ (combos : List (List Int)) (subs subs' : List Submatrix2x2),
      subs.map (·.positions) = subs'.map (·.positions) →
      (combos.foldl (extractStep g) subs).map (·.positions)
        = (combos.foldl (extractStep g') subs').map (·.positions) := by
  intro combos
  induction combos with
  | nil => intro subs subs' h; exact h
  | cons c cs ih =>
    intro subs subs' h
    exact ih _ _ (extractStep_positions g g' subs subs' c h)

set_option maxRecDepth 100000 in
/-- The positions lists of the extracted submatrices, in extraction order. -/
theorem extract_positions (g : Game3x3) :
    (extractAll2x2Submatrices g).map (·.positions)
      = [[(0, 0), (0, 1), (1, 0), (1, 1)], [(0, 0), (0, 1), (2, 0), (2, 1)],
         [(0, 0), (0, 2), (1, 0), (1, 2)], [(0, 0), (0, 2), (2, 0), (2, 2)],
         [(0, 1), (0, 2), (1, 1), (1, 2)], [(0, 1), (0, 2), (2, 1), (2, 2)],
         [(1, 0), (1, 1), (2, 0), (2, 1)], [(1, 0), (1, 2), (2, 0), (2, 2)],
         [(1, 1), (1, 2), (2, 1), (2, 2)]] := by
  have h := extract_positions_indep g Game3x3.new (generateCombinations 9 4) [] [] rfl
  unfold extractAll2x2Submatrices
  rw [h]
  decide

/-- C9: `extractAll2x2Submatrices` returns exactly 9 submatrices; for each
choice of two rows `r0 < r1` and two columns `c0 < c1` of the 3x3 matrix
exactly one returned submatrix has those rows and those columns; and no two
returned submatrices have the same positions list. -/
theorem extractAll2x2Submatrices_nine (g : Game3x3) :
    (extractAll2x2Submatrices g).length = 9
      ∧ (∀ r0 r1 c0 c1 : Int, 0 ≤ r0 → r0 < r1 → r1 ≤ 2 → 0 ≤ c0 → c0 < c1 → c1 ≤ 2 →
          ((extractAll2x2Submatrices g).filter (fun s =>
              decide ((∀ p ∈ s.positions, (p.1 = r0 ∨ p.1 = r1) ∧ (p.2 = c0 ∨ p.2 = c1))
                ∧ r0 ∈ s.positions.map Prod.fst ∧ r1 ∈ s.positions.map Prod.fst
                ∧ c0 ∈ s.positions.map Prod.snd ∧ c1 ∈ s.positions.map Prod.snd))).length = 1)
      ∧ ((extractAll2x2Submatrices g).map (·.positions)).Nodup := by
  have hpos := extract_positions g
  refine ⟨?_, ?_, ?_⟩
  · have := congrArg List.length hpos
    simpa using this
  · intro r0 r1 c0 c1 h1 h2 h3 h4 h5 h6
    have hcount : ((extractAll2x2Submatrices g).filter (fun s =>
        decide ((∀ p ∈ s.positions, (p.1 = r0 ∨ p.1 = r1) ∧ (p.2 = c0 ∨ p.2 = c1))
          ∧ r0 ∈ s.positions.map Prod.fst ∧ r1 ∈ s.positions.map Prod.fst
          ∧ c0 ∈ s.positions.map Prod.snd ∧ c1 ∈ s.positions.map Prod.snd))).length
        = (((extractAll2x2Submatrices g).map (·.positions)).filter (fun ps =>
        decide ((∀ p ∈ ps, (p.1 = r0 ∨ p.1 = r1) ∧ (p.2 = c0 ∨ p.2 = c1))
          ∧ r0 ∈ ps.map Prod.fst ∧ r1 ∈ ps.map Prod.fst
          ∧ c0 ∈ ps.map Prod.snd ∧ c1 ∈ ps.map Prod.snd))).length := by
      rw [List.filter_map, List.length_map]
      rfl
    rw [hcount, hpos]
    have hr : (r0 = 0 ∧ r1 = 1) ∨ (r0 = 0 ∧ r1 = 2) ∨ (r0 = 1 ∧ r1 = 2) := by omega
    have hc : (c0 = 0 ∧ c1 = 1) ∨ (c0 = 0 ∧ c1 = 2) ∨ (c0 = 1 ∧ c1 = 2) := by omega
    rcases hr with ⟨rfl, rfl⟩ | ⟨rfl, rfl⟩ | ⟨rfl, rfl⟩ <;>
      rcases hc with ⟨rfl, rfl⟩ | ⟨rfl, rfl⟩ | ⟨rfl, rfl⟩ <;> decide
  · rw [hpos]
    decide

/-- C9 at the example game, rows `0, 1` and columns `0, 1`. -/
theorem extractAll2x2Submatrices_nine_witness :
    ((extractAll2x2Submatrices getExample3x3Game).filter (fun s =>
        decide ((∀ p ∈ s.positions, (p.1 = 0 ∨ p.1 = 1) ∧ (p.2 = 0 ∨ p.2 = 1))
          ∧ (0 : Int) ∈ s.positions.map Prod.fst ∧ (1 : Int) ∈ s.positions.map Prod.fst
          ∧ (0 : Int) ∈ s.positions.map Prod.snd
          ∧ (1 : Int) ∈ s.positions.map Prod.snd))).length = 1 :=
  (extractAll2x2Submatrices_nine getExample3x3Game).2.1 0 1 0 1
    (by decide) (by decide) (by decide) (by decide) (by decide) (by decide)

/-- C10: the positions list of every returned submatrix is
`[(r0,c0),(r0,c1),(r1,c0),(r1,c1)]` with `0 ≤ r0 < r1 ≤ 2` and
`0 ≤ c0 < c1 ≤ 2`: four entries in the order top-left, top-right,
bottom-left, bottom-right. -/
theorem extractAll2x2Submatrices_canonical (g : Game3x3) (ps : List (Int × Int))
    (hps : ps ∈ (extractAll2x2Submatrices g).map (·.positions)) :
    ps.length = 4
      ∧ ∃ r0 r1 c0 c1 : Int,
          ps = [(r0, c0), (r0, c1), (r1, c0), (r1, c1)]
            ∧ 0 ≤ r0 ∧ r0 < r1 ∧ r1 ≤ 2 ∧ 0 ≤ c0 ∧ c0 < c1 ∧ c1 ≤ 2 := by
  rw [extract_positions] at hps
  simp only [List.mem_cons, List.mem_nil_iff, or_false] at hps
  rcases hps with h | h | h | h | h | h | h | h | h <;> rw [h] <;> refine ⟨rfl, ?_⟩
  · exact ⟨0, 1, 0, 1, rfl, by decide⟩
  · exact ⟨0, 2, 0, 1, rfl, by decide⟩
  · exact ⟨0, 1, 0, 2, rfl, by decide⟩
  · exact ⟨0, 2, 0, 2, rfl, by decide⟩
  · exact ⟨0, 1, 1, 2, rfl, by decide⟩
  · exact ⟨0, 2, 1, 2, rfl, by decide⟩
  · exact ⟨1, 2, 0, 1, rfl, by decide⟩
  · exact ⟨1, 2, 0, 2, rfl, by decide⟩
  · exact ⟨1, 2, 1, 2, rfl, by decide⟩

/-- C10 at the example game: the fourth submatrix returned, on rows `0, 2` and
columns `0, 2`. -/
theorem extractAll2x2Submatrices_canonical_witness :
    ([(0, 0), (0, 2), (2, 0), (2, 2)] : List (Int × Int))
        ∈ (extractAll2x2Submatrices getExample3x3Game).map (·.positions)
      ∧ ([(0, 0), (0, 2), (2, 0), (2, 2)] : List (Int × Int)).length = 4
      ∧ ∃ r0 r1 c0 c1 : Int,
          ([(0, 0), (0, 2), (2, 0), (2, 2)] : List (Int × Int))
              = [(r0, c0), (r0, c1), (r1, c0), (r1, c1)]
            ∧ 0 ≤ r0 ∧ r0 < r1 ∧ r1 ≤ 2 ∧ 0 ≤ c0 ∧ c0 < c1 ∧ c1 ≤ 2 :=
  have hmem : ([(0, 0), (0, 2), (2, 0), (2, 2)] : List (Int × Int))
      ∈ (extractAll2x2Submatrices getExample3x3Game).map (·.positions) := by
    rw [extract_positions]
    decide
  ⟨hmem, extractAll2x2Submatrices_canonical getExample3x3Game _ hmem⟩

/-! ### Payoff matrices -/

/-- C15: for both matrix types and every stored state, `getPayoff` is `0.0`
as soon as one index is out of range; on a freshly constructed matrix it is
`0.0` at every index triple. -/
theorem getPayoff_out_of_range :
    (∀ (g : Game2x2) (row col player : Int),
        (row < 0 ∨ 2 ≤ row ∨ col < 0 ∨ 2 ≤ col ∨ player < 0 ∨ 2 ≤ player) →
        g.getPayoff row col player = 0)
      ∧ (∀ (g : Game3x3) (row col player : Int),
        (row < 0 ∨ 3 ≤ row ∨ col < 0 ∨ 3 ≤ col ∨ player < 0 ∨ 2 ≤ player) →
        g.getPayoff row col player = 0)
      ∧ (∀ row col player : Int, Game2x2.new.getPayoff row col player = 0)
      ∧ (∀ row col player : Int, Game3x3.new.getPayoff row col player = 0) := by
  refine ⟨?_, ?_, ?_, ?_⟩
  · intro g row col player h
    have : ¬ Game2x2.inRange row col player := by
      unfold Game2x2.inRange; omega
    simp [Game2x2.getPayoff, this]
  · intro g row col player h
    have : ¬ Game3x3.inRange row col player := by
      unfold Game3x3.inRange; omega
    simp [Game3x3.getPayoff, this]
  · intro row col player
    simp [Game2x2.getPayoff, Game2x2.new]
  · intro row col player
    simp [Game3x3.getPayoff, Game3x3.new]

/-- C15 on the two example games: row `-1` of the Prisoner's Dilemma and
row `3` of the Extended Coordination Game. -/
theorem getPayoff_out_of_range_witness :
    prisonersDilemma.getPayoff (-1) 0 0 = 0 ∧ getExample3x3Game.getPayoff 3 0 0 = 0 :=
  ⟨getPayoff_out_of_range.1 prisonersDilemma (-1) 0 0 (Or.inl (by decide)),
    getPayoff_out_of_range.2.1 getExample3x3Game 3 0 0 (Or.inr (Or.inl (by decide)))⟩

/-- Reading a 2x2 matrix after a write. -/
theorem game2x2_getPayoff_setPayoff (g : Game2x2) (r c p : Int) (v : ℚ) (r' c' p' : Int) :
    (g.setPayoff r c p v).getPayoff r' c' p'
      = if Game2x2.inRange r c p ∧ r' = r ∧ c' = c ∧ p' = p then v
        else g.getPayoff r' c' p' := by
  by_cases h : Game2x2.inRange r c p
  · by_cases h' : Game2x2.inRange r' c' p'
    · have e : ∀ (a b : Int) (ha0 : 0 ≤ a) (ha1 : a < 2) (hb0 : 0 ≤ b) (hb1 : b < 2),
          Game2x2.idx a ha0 ha1 = Game2x2.idx b hb0 hb1 ↔ a = b := by
        intro a b ha0 ha1 hb0 hb1
        simp only [Game2x2.idx, Fin.mk.injEq]
        omega
      simp only [Game2x2.setPayoff, Game2x2.getPayoff, h, h', dif_pos, e, true_and]
    · have hne : ¬ (r' = r ∧ c' = c ∧ p' = p) := by
        rintro ⟨rfl, rfl, rfl⟩
        exact h' h
      simp [Game2x2.getPayoff, h', hne]
  · simp [Game2x2.setPayoff, h]

/-- Reading a 3x3 matrix after a write. -/
theorem game3x3_getPayoff_setPayoff (g : Game3x3) (r c p : Int) (v : ℚ) (r' c' p' : Int) :
    (g.setPayoff r c p v).getPayoff r' c' p'
      = if Game3x3.inRange r c p ∧ r' = r ∧ c' = c ∧ p' = p then v
        else g.getPayoff r' c' p' := by
  by_cases h : Game3x3.inRange r c p
  · by_cases h' : Game3x3.inRange r' c' p'
    · have e : ∀ (a b : Int) (ha0 : 0 ≤ a) (ha1 : a < 2) (hb0 : 0 ≤ b) (hb1 : b < 2),
          Game2x2.idx a ha0 ha1 = Game2x2.idx b hb0 hb1 ↔ a = b := by
        intro a b ha0 ha1 hb0 hb1
        simp only [Game2x2.idx, Fin.mk.injEq]
        omega
      have e3 : ∀ (a b : Int) (ha0 : 0 ≤ a) (ha1 : a < 3) (hb0 : 0 ≤ b) (hb1 : b < 3),
          Game3x3.idx a ha0 ha1 = Game3x3.idx b hb0 hb1 ↔ a = b := by
        intro a b ha0 ha1 hb0 hb1
        simp only [Game3x3.idx, Fin.mk.injEq]
        omega
      simp only [Game3x3.setPayoff, Game3x3.getPayoff, h, h', dif_pos, e, e3, true_and]
    · have hne : ¬ (r' = r ∧ c' = c ∧ p' = p) := by
        rintro ⟨rfl, rfl, rfl⟩
        exact h' h
      simp [Game3x3.getPayoff, h', hne]
  · simp [Game3x3.setPayoff, h]

/-- C16: for both matrix types, after `setPayoff(r,c,p,v)` a read at
`(r',c',p')` gives `v` when `(r,c,p)` is in range and equals `(r',c',p')`,
and otherwise what it gave before; an out-of-range write leaves the matrix
unchanged. -/
theorem setPayoff_frame :
    (∀ (g : Game2x2) (r c p : Int) (v : ℚ) (r' c' p' : Int),
        (g.setPayoff r c p v).getPayoff r' c' p'
          = if (0 ≤ r ∧ r < 2 ∧ 0 ≤ c ∧ c < 2 ∧ 0 ≤ p ∧ p < 2) ∧ r' = r ∧ c' = c ∧ p' = p
            then v else g.getPayoff r' c' p')
      ∧ (∀ (g : Game2x2) (r c p : Int) (v : ℚ),
          ¬ (0 ≤ r ∧ r < 2 ∧ 0 ≤ c ∧ c < 2 ∧ 0 ≤ p ∧ p < 2) → g.setPayoff r c p v = g)
      ∧ (∀ (g : Game3x3) (r c p : Int) (v : ℚ) (r' c' p' : Int),
          (g.setPayoff r c p v).getPayoff r' c' p'
            = if (0 ≤ r ∧ r < 3 ∧ 0 ≤ c ∧ c < 3 ∧ 0 ≤ p ∧ p < 2) ∧ r' = r ∧ c' = c ∧ p' = p
              then v else g.getPayoff r' c' p')
      ∧ (∀ (g : Game3x3) (r c p : Int) (v : ℚ),
          ¬ (0 ≤ r ∧ r < 3 ∧ 0 ≤ c ∧ c < 3 ∧ 0 ≤ p ∧ p < 2) → g.setPayoff r c p v = g) := by
  refine ⟨?_, ?_, ?_, ?_⟩
  · intro g r c p v r' c' p'
    exact game2x2_getPayoff_setPayoff g r c p v r' c' p'
  · intro g r c p v h
    have : ¬ Game2x2.inRange r c p := h
    simp [Game2x2.setPayoff, this]
  · intro g r c p v r' c' p'
    exact game3x3_getPayoff_setPayoff g r c p v r' c' p'
  · intro g r c p v h
    have : ¬ Game3x3.inRange r c p := h
    simp [Game3x3.setPayoff, this]

/-- C16 on the Prisoner's Dilemma: a write at row `2` changes nothing. -/
theorem setPayoff_frame_witness :
    ¬ ((0 : Int) ≤ 2 ∧ (2 : Int) < 2 ∧ (0 : Int) ≤ 0 ∧ (0 : Int) < 2 ∧ (0 : Int) ≤ 0
        ∧ (0 : Int) < 2)
      ∧ prisonersDilemma.setPayoff 2 0 0 7 = prisonersDilemma :=
  ⟨by decide, setPayoff_frame.2.1 prisonersDilemma 2 0 0 7 (by decide)⟩

/-! ### Expected payoff -/

/-- The closed form of `calculateExpectedPayoff`. -/
theorem expectedPayoff_eq (game : Game2x2) (player : Int) (p1 p2 : ℚ) :
    calculateExpectedPayoff game player ⟨p1, p2⟩
      = p1 * p2 * game.getPayoff 0 0 player + p1 * (1 - p2) * game.getPayoff 0 1 player
        + (1 - p1) * p2 * game.getPayoff 1 0 player
        + (1 - p1) * (1 - p2) * game.getPayoff 1 1 player := by
  simp [calculateExpectedPayoff]

/-- C17: `calculateExpectedPayoff` is affine in each probability separately. -/
theorem calculateExpectedPayoff_affine (game : Game2x2) (player : Int) :
    (∀ p2 a b t : ℚ,
        calculateExpectedPayoff game player ⟨t * a + (1 - t) * b, p2⟩
          = t * calculateExpectedPayoff game player ⟨a, p2⟩
            + (1 - t) * calculateExpectedPayoff game player ⟨b, p2⟩)
      ∧ (∀ p1 a b t : ℚ,
        calculateExpectedPayoff game player ⟨p1, t * a + (1 - t) * b⟩
          = t * calculateExpectedPayoff game player ⟨p1, a⟩
            + (1 - t) * calculateExpectedPayoff game player ⟨p1, b⟩) := by
  constructor <;> intro p a b t <;> simp only [expectedPayoff_eq] <;> ring

/-! ### Mixed equilibria -/

/-- The loop of `findMixedNashEquilibria` as a filter of the grid `k/100`. -/
theorem findMixedNashEquilibria_eq_filter (game : Game2x2) :
    findMixedNashEquilibria game
      = (((List.range 101).map (fun k : ℕ => (k : ℚ) / 100)).filter (fun p1 =>
            decide (|p1 * game.getPayoff 0 0 1 + (1 - p1) * game.getPayoff 1 0 1
                - (p1 * game.getPayoff 0 1 1 + (1 - p1) * game.getPayoff 1 1 1)| < 1 / 100)
              && isNashEquilibrium game ⟨p1, 1 / 2⟩)).map
          (fun p1 => (⟨⟨p1, 1 / 2⟩, false⟩ : Equilibrium)) := by
  have hbody : (fun (equilibria : List Equilibrium) (p1 : ℚ) =>
        if |p1 * game.getPayoff 0 0 1 + (1 - p1) * game.getPayoff 1 0 1
            - (p1 * game.getPayoff 0 1 1 + (1 - p1) * game.getPayoff 1 1 1)| < 1 / 100 then
          if isNashEquilibrium game ⟨p1, 1 / 2⟩ = true then
            equilibria ++ [(⟨⟨p1, 1 / 2⟩, false⟩ : Equilibrium)]
          else equilibria
        else equilibria)
      = (fun equilibria p1 =>
        if (decide (|p1 * game.getPayoff 0 0 1 + (1 - p1) * game.getPayoff 1 0 1
            - (p1 * game.getPayoff 0 1 1 + (1 - p1) * game.getPayoff 1 1 1)| < 1 / 100)
              && isNashEquilibrium game ⟨p1, 1 / 2⟩) = true then
          equilibria ++ [(⟨⟨p1, 1 / 2⟩, false⟩ : Equilibrium)]
        else equilibria) := by
    funext equilibria p1
    by_cases h1 : |p1 * game.getPayoff 0 0 1 + (1 - p1) * game.getPayoff 1 0 1
        - (p1 * game.getPayoff 0 1 1 + (1 - p1) * game.getPayoff 1 1 1)| < 1 / 100 <;>
      by_cases h2 : isNashEquilibrium game ⟨p1, 1 / 2⟩ = true <;>
      simp only [h1, h2, if_true, if_false, decide_True, decide_False, Bool.and_true,
        Bool.and_false, Bool.true_and, Bool.false_and, Bool.and_self, Bool.false_eq_true]
  unfold findMixedNashEquilibria
  simp only []
  rw [hbody, foldl_cond_append, loopValues_hundredth, List.nil_append]

/-- C18: `findMixedNashEquilibria` returns, in ascending `p1` order, one
equilibrium `(p1, 0.5)` tagged `isPure = false` for each grid value
`p1 = k/100` at which player 2's two pure payoffs differ by less than `0.01`
and `isNashEquilibrium((p1, 0.5))` holds; nothing is deduplicated. -/
theorem findMixedNashEquilibria_filter (game : Game2x2) :
    findMixedNashEquilibria game
      = (((List.range 101).map (fun k : ℕ => (k : ℚ) / 100)).filter (fun p1 =>
            decide (|p1 * game.getPayoff 0 0 1 + (1 - p1) * game.getPayoff 1 0 1
                - (p1 * game.getPayoff 0 1 1 + (1 - p1) * game.getPayoff 1 1 1)| < 1 / 100)
              && isNashEquilibrium game ⟨p1, 1 / 2⟩)).map
          (fun p1 => (⟨⟨p1, 1 / 2⟩, false⟩ : Equilibrium)) :=
  findMixedNashEquilibria_eq_filter game

/-! ### The two-point form of the best response -/

/-- The payoff of a candidate of `findBestResponse` is affine in the candidate. -/
theorem testProfile_payoff_affine (game : Game2x2) (player : Int) (other c : ℚ) :
    calculateExpectedPayoff game player (testProfile player other c)
      = c * calculateExpectedPayoff game player (testProfile player other 1)
        + (1 - c) * calculateExpectedPayoff game player (testProfile player other 0) := by
  unfold testProfile
  by_cases h : player = 0
  · simp only [h, if_true, expectedPayoff_eq]; ring
  · simp only [h, if_false, expectedPayoff_eq]; ring

/-- The scan of `findBestResponse` returns `1` when the payoff at `1` exceeds
the payoff at `0` by more than the tolerance, and `0` otherwise. -/
theorem findBestResponse_eq_twoPoint (game : Game2x2) (player : Int) (other tol : ℚ)
    (htol : 0 ≤ tol) :
    findBestResponse game player other tol = twoPointResponse game player other tol := by
  have hgrid : ∀ c ∈ (List.range 101).map (fun k : ℕ => (k : ℚ) / 100), 0 ≤ c ∧ c ≤ 1 := by
    intro c hc
    obtain ⟨k, hk, rfl⟩ := List.mem_map.mp hc
    have hk' : (k : ℚ) ≤ 100 := by
      have := List.mem_range.mp hk
      exact_mod_cast (by omega : k ≤ 100)
    have hk0 : (0 : ℚ) ≤ k := Nat.cast_nonneg k
    constructor
    · positivity
    · rw [div_le_one (by norm_num)]; exact hk'
  have h0 : bestResponseStep game player other tol (none, 1 / 2) 0
      = (some (calculateExpectedPayoff game player (testProfile player other 0)), 0) := by
    simp [bestResponseStep, exceeds]
  unfold findBestResponse twoPointResponse
  rw [bestResponseState_eq_foldl, List.foldl_cons, List.foldl_cons, h0]
  by_cases h1 : calculateExpectedPayoff game player (testProfile player other 1)
      > calculateExpectedPayoff game player (testProfile player other 0) + tol
  · have hs : bestResponseStep game player other tol
        (some (calculateExpectedPayoff game player (testProfile player other 0)), 0) 1
        = (some (calculateExpectedPayoff game player (testProfile player other 1)), 1) := by
      simp [bestResponseStep, exceeds, h1]
    rw [hs, bestResponse_scan_keep, if_pos h1]
    intro c hc
    obtain ⟨hc0, hc1⟩ := hgrid c hc
    rw [testProfile_payoff_affine game player other c]
    nlinarith
  · have hs : bestResponseStep game player other tol
        (some (calculateExpectedPayoff game player (testProfile player other 0)), 0) 1
        = (some (calculateExpectedPayoff game player (testProfile player other 0)), 0) := by
      simp [bestResponseStep, exceeds, h1]
    rw [hs, bestResponse_scan_keep, if_neg h1]
    intro c hc
    obtain ⟨hc0, hc1⟩ := hgrid c hc
    rw [testProfile_payoff_affine game player other c]
    nlinarith

/-! ### The product form of the non-myopic equilibria -/

/-- Player 1's deviation loop at `p1`, started from the anticipated payoff of
`p1`, is the closed-form test `stable1`. -/
theorem p1DeviationLoop_eq_stable1 (game : Game2x2) (p1 : ℚ) :
    p1DeviationLoop game p1
        (calculateExpectedPayoff game 0 ⟨p1, findBestResponse game 1 p1⟩) (loopValues (1 / 20))
      = stable1 game p1 := by
  rw [Bool.eq_iff_iff, p1DeviationLoop_iff, loopValues_twentieth]
  simp only [stable1, decide_eq_true_eq, anticipated1, grid21]
  have hbr : ∀ a : ℚ, findBestResponse game 1 a = twoPointResponse game 1 a :=
    fun a => findBestResponse_eq_twoPoint game 1 a _ (by norm_num)
  simp only [hbr]

/-- Player 2's deviation loop at `p2` is the closed-form test `stable2`. -/
theorem p2DeviationLoop_eq_stable2 (game : Game2x2) (p2 : ℚ) :
    p2DeviationLoop game p2
        (calculateExpectedPayoff game 1 ⟨findBestResponse game 0 p2, p2⟩) (loopValues (1 / 20))
      = stable2 game p2 := by
  rw [Bool.eq_iff_iff, p2DeviationLoop_iff, loopValues_twentieth]
  simp only [stable2, decide_eq_true_eq, anticipated2, grid21]
  have hbr : ∀ a : ℚ, findBestResponse game 0 a = twoPointResponse game 0 a :=
    fun a => findBestResponse_eq_twoPoint game 0 a _ (by norm_num)
  simp only [hbr]

/-- The body of the inner loop of `findNonMyopicEquilibria` is the conjunction
of the two players' tests, the first depending on `p1` only and the second on
`p2` only. -/
theorem isNonMyopic_eq_stable (game : Game2x2) (p1 p2 : ℚ) :
    isNonMyopic game p1 p2 = (stable1 game p1 && stable2 game p2) := by
  unfold isNonMyopic
  simp only [p1DeviationLoop_eq_stable1, p2DeviationLoop_eq_stable2]
  cases stable1 game p1 <;> simp

/-- Filtering a product by a conjunction of a test on each component is the
product of the filtered factors. -/
theorem filter_product {α β γ : Type} (A : α → Bool) (B : β → Bool) (f : α → β → γ)
    (l2 : List β) :
    ∀ l1 : List α,
      ((l1.flatMap fun a => l2.map fun b => (a, b)).filter (fun c => A c.1 && B c.2)).map
          (fun c => f c.1 c.2)
        = (l1.filter A).flatMap fun a => (l2.filter B).map fun b => f a b := by
  intro l1
  induction l1 with
  | nil => simp
  | cons a l1 ih =>
    rw [List.flatMap_cons, List.filter_append, List.map_append, ih]
    by_cases hA : A a
    · simp [List.filter_cons, hA, List.filter_map, Function.comp_def]
    · simp [List.filter_cons, hA, List.filter_map, Function.comp_def]

/-- The result of `findNonMyopicEquilibria` is the product of the grid values
passing player 1's test with those passing player 2's test, in row-major
order. -/
theorem findNonMyopicEquilibria_product (game : Game2x2) :
    findNonMyopicEquilibria game
      = (grid21.filter (stable1 game)).flatMap fun p1 =>
          (grid21.filter (stable2 game)).map fun p2 => (⟨⟨p1, p2⟩, false⟩ : Equilibrium) := by
  unfold findNonMyopicEquilibria
  rw [foldl_foldl_cond_append (fun p1 p2 => isNonMyopic game p1 p2)
    (fun p1 p2 => (⟨⟨p1, p2⟩, false⟩ : Equilibrium)), loopValues_twentieth, List.nil_append]
  have hp : (fun c : ℚ × ℚ => isNonMyopic game c.1 c.2)
      = (fun c : ℚ × ℚ => stable1 game c.1 && stable2 game c.2) := by
    funext c; exact isNonMyopic_eq_stable game c.1 c.2
  rw [hp]
  exact filter_product (stable1 game) (stable2 game)
    (fun p1 p2 => (⟨⟨p1, p2⟩, false⟩ : Equilibrium)) _ _


/-! ### Non-emptiness and the `isPure` flag -/


/-- Membership in the result of `findNonMyopicEquilibria`. -/
theorem mem_findNonMyopicEquilibria (game : Game2x2) (e : Equilibrium) :
    e ∈ findNonMyopicEquilibria game ↔
      ∃ p1 ∈ grid21, stable1 game p1 = true ∧
        ∃ p2 ∈ grid21, stable2 game p2 = true ∧ e = ⟨⟨p1, p2⟩, false⟩ := by
  rw [findNonMyopicEquilibria_product]
  simp only [List.mem_flatMap, List.mem_filter, List.mem_map]
  constructor
  · rintro ⟨p1, ⟨h1, hs1⟩, p2, ⟨h2, hs2⟩, rfl⟩
    exact ⟨p1, h1, hs1, p2, h2, hs2, rfl⟩
  · rintro ⟨p1, h1, hs1, p2, h2, hs2, rfl⟩
    exact ⟨p1, ⟨h1, hs1⟩, p2, ⟨h2, hs2⟩, rfl⟩

/-- A function on the grid attains its maximum there, and a maximiser passes
the lookahead test. -/
theorem exists_grid_max (f : ℚ → ℚ) :
    ∃ p ∈ grid21, ∀ a ∈ grid21, |a - p| > 1 / 1000000 → f a ≤ f p + 1 / 1000000 := by
  obtain ⟨k, hk, hmax⟩ := Finset.exists_max_image (Finset.range 21)
    (fun k : ℕ => f ((k : ℚ) / 20)) ⟨0, by simp⟩
  refine ⟨(k : ℚ) / 20, List.mem_map.mpr ⟨k, List.mem_range.mpr (Finset.mem_range.mp hk), rfl⟩, ?_⟩
  intro a ha _
  obtain ⟨j, hj, rfl⟩ := List.mem_map.mp ha
  have := hmax j (Finset.mem_range.mpr (List.mem_range.mp hj))
  simp only at this
  linarith

/-- In exact arithmetic `findNonMyopicEquilibria` always returns a profile. -/
theorem findNonMyopicEquilibria_ne_nil (game : Game2x2) :
    findNonMyopicEquilibria game ≠ [] := by
  obtain ⟨p1, h1, hs1⟩ := exists_grid_max (anticipated1 game)
  obtain ⟨p2, h2, hs2⟩ := exists_grid_max (anticipated2 game)
  have hmem : (⟨⟨p1, p2⟩, false⟩ : Equilibrium) ∈ findNonMyopicEquilibria game :=
    (mem_findNonMyopicEquilibria game _).mpr
      ⟨p1, h1, by simpa [stable1] using hs1, p2, h2, by simpa [stable2] using hs2, rfl⟩
  exact List.ne_nil_of_mem hmem

/-- Every equilibrium returned by `findNonMyopicEquilibria` is tagged
`isPure = false`. -/
theorem findNonMyopicEquilibria_isPure (game : Game2x2) (e : Equilibrium)
    (he : e ∈ findNonMyopicEquilibria game) : e.isPure = false := by
  obtain ⟨p1, _, _, p2, _, _, rfl⟩ := (mem_findNonMyopicEquilibria game e).mp he
  rfl

/-- The non-myopic equilibria of the Prisoner's Dilemma of `main.cpp`. -/
theorem findNonMyopicEquilibria_prisonersDilemma :
    findNonMyopicEquilibria prisonersDilemma = [⟨⟨0, 0⟩, false⟩] := by
  rw [findNonMyopicEquilibria_product]
  decide!

/-- C20, as the code has it: for every equilibrium of `findAllNashEquilibria`
the flag `isPure` is true iff both stored probabilities are exactly 0 or 1;
every equilibrium of `findNonMyopicEquilibria` is tagged `isPure = false`,
whatever its probabilities. -/
theorem isPure_flag (game : Game2x2) :
    (∀ e ∈ findAllNashEquilibria game,
        e.isPure = true ↔
          (e.profile.p1_strategy1_prob = 0 ∨ e.profile.p1_strategy1_prob = 1)
            ∧ (e.profile.p2_strategy1_prob = 0 ∨ e.profile.p2_strategy1_prob = 1))
      ∧ (∀ e ∈ findNonMyopicEquilibria game, e.isPure = false) := by
  refine ⟨?_, fun e he => findNonMyopicEquilibria_isPure game e he⟩
  intro e he
  simp only [findAllNashEquilibria, List.nil_append, List.mem_append] at he
  rcases he with he | he
  · rw [findPureNashEquilibria_eq_filter] at he
    obtain ⟨c, hc, rfl⟩ := List.mem_map.mp he
    have hc' := (List.mem_filter.mp hc).1
    simp only [List.mem_cons, Prod.ext_iff, List.mem_nil_iff, or_false] at hc'
    rcases hc' with h | h | h | h <;> simp [h.1, h.2]
  · rw [findMixedNashEquilibria_eq_filter] at he
    obtain ⟨p1, _, rfl⟩ := List.mem_map.mp he
    norm_num

/-- C20 at the Prisoner's Dilemma: the pure equilibrium of cell `(1,1)`. -/
theorem isPure_flag_witness :
    (⟨⟨1, 1⟩, true⟩ : Equilibrium) ∈ findAllNashEquilibria prisonersDilemma
      ∧ ((⟨⟨1, 1⟩, true⟩ : Equilibrium).isPure = true ↔
          ((1 : ℚ) = 0 ∨ (1 : ℚ) = 1) ∧ ((1 : ℚ) = 0 ∨ (1 : ℚ) = 1)) :=
  have hmem : (⟨⟨1, 1⟩, true⟩ : Equilibrium) ∈ findAllNashEquilibria prisonersDilemma := by
    simp only [findAllNashEquilibria, List.nil_append]
    exact List.mem_append_left _ (by decide)
  ⟨hmem, (isPure_flag prisonersDilemma).1 _ hmem⟩

/-- C20 fails as stated: the Prisoner's Dilemma has the non-myopic equilibrium
`(0, 0)`, whose probabilities are both exactly `0`, tagged `isPure = false`. -/
theorem isPure_flag_counterexample :
    ∃ e ∈ findNonMyopicEquilibria prisonersDilemma,
      ¬ (e.isPure = true ↔
          (e.profile.p1_strategy1_prob = 0 ∨ e.profile.p1_strategy1_prob = 1)
            ∧ (e.profile.p2_strategy1_prob = 0 ∨ e.profile.p2_strategy1_prob = 1)) := by
  refine ⟨⟨⟨0, 0⟩, false⟩, ?_, ?_⟩
  · rw [findNonMyopicEquilibria_prisonersDilemma]
    exact List.mem_singleton.mpr rfl
  · simp


/-! ### The extracted submatrices and their payoffs -/

/-- Every submatrix added by one iteration of the extraction loop carries the
game filled from its own positions. -/
theorem extractStep_game (g : Game3x3) (subs : List Submatrix2x2) (combo : List Int)
    (h : ∀ s ∈ subs, s.game = fillGame g s.positions Game2x2.new) :
    ∀ s ∈ extractStep g subs combo, s.game = fillGame g s.positions Game2x2.new := by
  unfold extractStep
  simp only []
  split_ifs
  · exact h
  · intro s hs
    rcases List.mem_append.mp hs with hs | hs
    · exact h s hs
    · rw [List.mem_singleton.mp hs]
      rfl

/-- The same for the whole extraction loop. -/
theorem extract_game (g : Game3x3) :
    ∀ (combos : List (List Int)) (subs : List Submatrix2x2),
      (∀ s ∈ subs, s.game = fillGame g s.positions Game2x2.new) →
      ∀ s ∈ combos.foldl (extractStep g) subs, s.game = fillGame g s.positions Game2x2.new := by
  intro combos
  induction combos with
  | nil => intro subs h; exact h
  | cons c cs ih =>
    intro subs h
    exact ih _ (extractStep_game g subs c h)

/-- The result of `extractAll2x2Submatrices`: the nine blocks in order, each
with the game filled from its positions. -/
theorem extractAll2x2Submatrices_eq (g : Game3x3) :
    extractAll2x2Submatrices g
      = blockPositions.map (fun ps => (⟨fillGame g ps Game2x2.new, ps⟩ : Submatrix2x2)) := by
  have hgame := extract_game g (generateCombinations 9 4) [] (by simp)
  have hpos := extract_positions g
  have h1 : extractAll2x2Submatrices g
      = (extractAll2x2Submatrices g).map
          (fun s => (⟨fillGame g s.positions Game2x2.new, s.positions⟩ : Submatrix2x2)) := by
    conv_lhs => rw [← List.map_id (extractAll2x2Submatrices g)]
    apply List.map_congr_left
    intro s hs
    have := hgame s hs
    cases s with
    | mk game positions =>
      simp only at this
      simp [this]
  have hpos' : (extractAll2x2Submatrices g).map (·.positions) = blockPositions := hpos
  calc extractAll2x2Submatrices g
      = (extractAll2x2Submatrices g).map
          (fun s => (⟨fillGame g s.positions Game2x2.new, s.positions⟩ : Submatrix2x2)) := h1
    _ = ((extractAll2x2Submatrices g).map (·.positions)).map
          (fun ps => (⟨fillGame g ps Game2x2.new, ps⟩ : Submatrix2x2)) := by
        rw [List.map_map]; rfl
    _ = blockPositions.map (fun ps => (⟨fillGame g ps Game2x2.new, ps⟩ : Submatrix2x2)) := by
        rw [hpos']

/-- The game filled from a positions list reads, at `(i,j)`, the 3x3 payoff at
the position of index `2*i+j`. -/
theorem fillGame_getPayoff (g : Game3x3) (ps : List (Int × Int)) (i j player : Int)
    (hi : i = 0 ∨ i = 1) (hj : j = 0 ∨ j = 1) (hp : player = 0 ∨ player = 1) :
    (fillGame g ps Game2x2.new).getPayoff i j player
      = g.getPayoff (ps.getD (2 * i + j).toNat (0, 0)).1 (ps.getD (2 * i + j).toNat (0, 0)).2
          player := by
  rcases hi with rfl | rfl <;> rcases hj with rfl | rfl <;> rcases hp with rfl | rfl <;>
    simp [fillGame, game2x2_getPayoff_setPayoff, Game2x2.inRange]

/-- C11: for every returned submatrix `s`, every `i, j` in `{0,1}` and both
players, `s.game.getPayoff(i,j,player)` is the 3x3 payoff at the position
`s.positions[2*i+j]`. -/
theorem extractAll2x2Submatrices_payoffs (g : Game3x3) (s : Submatrix2x2)
    (hs : s ∈ extractAll2x2Submatrices g) (i j player : Int)
    (hi : i = 0 ∨ i = 1) (hj : j = 0 ∨ j = 1) (hp : player = 0 ∨ player = 1) :
    ∃ r c : Int, s.positions[(2 * i + j).toNat]? = some (r, c)
      ∧ s.game.getPayoff i j player = g.getPayoff r c player := by
  rw [extractAll2x2Submatrices_eq] at hs
  obtain ⟨ps, hps, rfl⟩ := List.mem_map.mp hs
  have hlen : ps.length = 4 := by
    simp only [blockPositions, List.mem_cons, List.mem_nil_iff, or_false] at hps
    rcases hps with h | h | h | h | h | h | h | h | h <;> rw [h] <;> rfl
  have hidx : (2 * i + j).toNat < ps.length := by
    rw [hlen]; rcases hi with rfl | rfl <;> rcases hj with rfl | rfl <;> decide
  refine ⟨(ps.getD (2 * i + j).toNat (0, 0)).1, (ps.getD (2 * i + j).toNat (0, 0)).2, ?_, ?_⟩
  · simp only [List.getD_eq_getElem?_getD, List.getElem?_eq_getElem hidx, Option.getD_some]
  · exact fillGame_getPayoff g ps i j player hi hj hp

/-- C11 at the example game: the fourth submatrix reads its bottom-right
entry from the cell `(2,2)`. -/
theorem extractAll2x2Submatrices_payoffs_witness :
    (⟨fillGame getExample3x3Game [(0, 0), (0, 2), (2, 0), (2, 2)] Game2x2.new,
        [(0, 0), (0, 2), (2, 0), (2, 2)]⟩ : Submatrix2x2)
        ∈ extractAll2x2Submatrices getExample3x3Game
      ∧ ∃ r c : Int,
          ([(0, 0), (0, 2), (2, 0), (2, 2)] : List (Int × Int))[(2 * (1 : Int) + 1).toNat]?
              = some (r, c)
            ∧ (fillGame getExample3x3Game [(0, 0), (0, 2), (2, 0), (2, 2)]
                Game2x2.new).getPayoff 1 1 0 = getExample3x3Game.getPayoff r c 0 :=
  have hmem : (⟨fillGame getExample3x3Game [(0, 0), (0, 2), (2, 0), (2, 2)] Game2x2.new,
      [(0, 0), (0, 2), (2, 0), (2, 2)]⟩ : Submatrix2x2)
      ∈ extractAll2x2Submatrices getExample3x3Game := by
    rw [extractAll2x2Submatrices_eq]
    exact List.mem_map.mpr ⟨_, by decide, rfl⟩
  ⟨hmem, extractAll2x2Submatrices_payoffs getExample3x3Game _ hmem 1 1 0
    (Or.inr rfl) (Or.inr rfl) (Or.inl rfl)⟩


/-! ### The vote of a non-myopic equilibrium -/

/-- The sorted rows and columns recomputed from a canonical positions list. -/
theorem collectRowsCols_canonical (r0 r1 c0 c1 : Int) (hr : r0 < r1) (hc : c0 < c1) :
    (collectRowsCols [(r0, c0), (r0, c1), (r1, c0), (r1, c1)]).1.insertionSort (· ≤ ·) = [r0, r1]
      ∧ (collectRowsCols [(r0, c0), (r0, c1), (r1, c0), (r1, c1)]).2.insertionSort (· ≤ ·)
          = [c0, c1] := by
  have h1 : r1 ≠ r0 := hr.ne'
  have h2 : c1 ≠ c0 := hc.ne'
  have h3 : r0 ≤ r1 := hr.le
  have h4 : c0 ≤ c1 := hc.le
  simp [collectRowsCols, h1, h2, h3, h4, List.insertionSort, List.orderedInsert]

/-- An invariant of the step function is an invariant of the loop. -/
theorem foldl_invariant {σ α : Type} (I : σ → Prop) (step : σ → α → σ)
    (hstep : ∀ s a, I s → I (step s a)) : ∀ (l : List α) (s : σ), I s → I (l.foldl step s) := by
  intro l
  induction l with
  | nil => intro s hs; exact hs
  | cons a l ih => intro s hs; exact ih _ (hstep s a hs)

/-- An update never leaves the map empty. -/
theorem mapUpdate_ne_nil {K V : Type} (lt : K → K → Bool) (dflt : V) (f : V → V) (key : K)
    (l : List (K × V)) : mapUpdate lt dflt f key l ≠ [] := by
  cases l with
  | nil => simp [mapUpdate]
  | cons e rest =>
    obtain ⟨k, v⟩ := e
    simp only [mapUpdate]
    split_ifs <;> simp

/-- The keys after an update are the old keys and the updated key. -/
theorem mapUpdate_keys {K V : Type} (lt : K → K → Bool) (dflt : V) (f : V → V) (key : K) :
    ∀ (l : List (K × V)) (e : K × V), e ∈ mapUpdate lt dflt f key l →
      e.1 = key ∨ e.1 ∈ l.map Prod.fst := by
  intro l
  induction l with
  | nil =>
    intro e he
    simp only [mapUpdate, List.mem_singleton] at he
    exact Or.inl (by rw [he])
  | cons x rest ih =>
    obtain ⟨k, v⟩ := x
    intro e he
    simp only [mapUpdate] at he
    split_ifs at he
    · rcases List.mem_cons.mp he with h | h
      · exact Or.inl (by rw [h])
      · exact Or.inr (List.mem_map.mpr ⟨e, h, rfl⟩)
    · rcases List.mem_cons.mp he with h | h
      · exact Or.inr (by rw [h]; simp)
      · rcases ih e h with h' | h'
        · exact Or.inl h'
        · exact Or.inr (by simp only [List.map_cons, List.mem_cons]; exact Or.inr h')
    · rcases List.mem_cons.mp he with h | h
      · exact Or.inr (by rw [h]; simp)
      · exact Or.inr (by
          simp only [List.map_cons, List.mem_cons]
          exact Or.inr (List.mem_map.mpr ⟨e, h, rfl⟩))

/-- An update keeps the keys in strictly increasing order. -/
theorem mapUpdate_sorted {K V : Type} (lt : K → K → Bool)
    (htrans : ∀ a b c, lt a b = true → lt b c = true → lt a c = true)
    (dflt : V) (f : V → V) (key : K) :
    ∀ l : List (K × V), l.Pairwise (fun a b => lt a.1 b.1 = true) →
      (mapUpdate lt dflt f key l).Pairwise (fun a b => lt a.1 b.1 = true) := by
  intro l
  induction l with
  | nil => intro _; simp [mapUpdate]
  | cons x rest ih =>
    obtain ⟨k, v⟩ := x
    intro h
    rw [List.pairwise_cons] at h
    simp only [mapUpdate]
    split_ifs with h1 h2
    · rw [List.pairwise_cons]
      refine ⟨?_, List.pairwise_cons.mpr h⟩
      intro e he
      rcases List.mem_cons.mp he with he | he
      · rw [he]; exact h1
      · exact htrans _ _ _ h1 (h.1 e he)
    · rw [List.pairwise_cons]
      refine ⟨?_, ih h.2⟩
      intro e he
      rcases mapUpdate_keys lt dflt f key rest e he with hk | hk
      · rw [hk]; exact h2
      · obtain ⟨e', he', hee⟩ := List.mem_map.mp hk
        rw [← hee]
        exact h.1 e' he'
    · rw [List.pairwise_cons]
      exact ⟨fun e he => h.1 e he, h.2⟩

/-- An update keeps a property of the stored values that the update function
establishes from the default and preserves. -/
theorem mapUpdate_values {K V : Type} (lt : K → K → Bool) (dflt : V) (f : V → V) (key : K)
    (Q : V → Prop) (hd : Q (f dflt)) (hf : ∀ v, Q v → Q (f v)) :
    ∀ l : List (K × V), (∀ e ∈ l, Q e.2) → ∀ e ∈ mapUpdate lt dflt f key l, Q e.2 := by
  intro l
  induction l with
  | nil =>
    intro _ e he
    simp only [mapUpdate, List.mem_singleton] at he
    rw [he]; exact hd
  | cons x rest ih =>
    obtain ⟨k, v⟩ := x
    intro h e he
    simp only [mapUpdate] at he
    split_ifs at he
    · rcases List.mem_cons.mp he with h' | h'
      · rw [h']; exact hd
      · exact h e h'
    · rcases List.mem_cons.mp he with h' | h'
      · rw [h']; exact h (k, v) (List.mem_cons_self _ _)
      · exact ih (fun e he => h e (List.mem_cons_of_mem _ he)) e h'
    · rcases List.mem_cons.mp he with h' | h'
      · rw [h']; exact hf v (h (k, v) (List.mem_cons_self _ _))
      · exact h e (List.mem_cons_of_mem _ h')

/-- The order of `std::pair<int,int>` is transitive. -/
theorem pairLt_trans (a b c : Int × Int) (h1 : pairLt a b = true) (h2 : pairLt b c = true) :
    pairLt a c = true := by
  simp only [pairLt, decide_eq_true_eq] at *
  omega

/-- The order of `std::pair<int,int>` is irreflexive. -/
theorem pairLt_irrefl (a : Int × Int) : ¬ pairLt a a = true := by
  simp only [pairLt, decide_eq_true_eq]
  omega

/-- The vote tally has its outcomes in strictly increasing order and every
count at least 1. -/
theorem tallyVotes_invariant (analyses : List SubmatrixAnalysis) :
    (tallyVotes analyses).1.Pairwise (fun a b => pairLt a.1 b.1 = true)
      ∧ ∀ e ∈ (tallyVotes analyses).1, 1 ≤ e.2 := by
  unfold tallyVotes
  refine foldl_invariant
    (fun st : List ((Int × Int) × Int) × List ((Int × Int) × List Int) =>
      st.1.Pairwise (fun a b => pairLt a.1 b.1 = true) ∧ ∀ e ∈ st.1, 1 ≤ e.2) _ ?_ _ _ ?_
  swap
  · exact ⟨List.Pairwise.nil, fun e he => absurd he (List.not_mem_nil e)⟩
  intro st analysis hst
  refine foldl_invariant
    (fun st : List ((Int × Int) × Int) × List ((Int × Int) × List Int) =>
      st.1.Pairwise (fun a b => pairLt a.1 b.1 = true) ∧ ∀ e ∈ st.1, 1 ≤ e.2) _ ?_ _ _ hst
  intro st nme hst
  exact ⟨mapUpdate_sorted pairLt pairLt_trans _ _ _ _ hst.1,
    mapUpdate_values pairLt 0 (· + 1) _ (fun v => 1 ≤ v) (by norm_num)
      (fun v hv => by
        have hv' : 1 ≤ v := hv
        show 1 ≤ v + 1
        omega) _ hst.2⟩

/-- No outcome occurs twice in the vote tally. -/
theorem tallyVotes_nodup (analyses : List SubmatrixAnalysis) :
    ((tallyVotes analyses).1.map Prod.fst).Nodup := by
  have h := (tallyVotes_invariant analyses).1
  rw [List.Nodup, List.pairwise_map]
  refine h.imp ?_
  intro a b hab heq
  rw [heq] at hab
  exact pairLt_irrefl _ hab

/-- Once a vote has been cast the tally stays non-empty. -/
theorem tallyVotes_ne_nil (analyses : List SubmatrixAnalysis) (hne : analyses ≠ [])
    (hnme : ∀ a ∈ analyses, a.non_myopic_equilibria ≠ []) :
    (tallyVotes analyses).1 ≠ [] := by
  cases analyses with
  | nil => exact absurd rfl hne
  | cons a rest =>
    have ha := hnme a (List.mem_cons_self _ _)
    cases hn : a.non_myopic_equilibria with
    | nil => exact absurd hn ha
    | cons e es =>
      unfold tallyVotes
      rw [List.foldl_cons, hn, List.foldl_cons]
      refine foldl_invariant
        (fun st : List ((Int × Int) × Int) × List ((Int × Int) × List Int) => st.1 ≠ []) _ ?_ _ _ ?_
      · intro st analysis hst
        refine foldl_invariant
          (fun st : List ((Int × Int) × Int) × List ((Int × Int) × List Int) => st.1 ≠ [])
          _ ?_ _ _ hst
        intro st nme _
        exact mapUpdate_ne_nil _ _ _ _ _
      · refine foldl_invariant
          (fun st : List ((Int × Int) × Int) × List ((Int × Int) × List Int) => st.1 ≠ [])
          _ ?_ _ _ (mapUpdate_ne_nil _ _ _ _ _)
        intro st nme _
        exact mapUpdate_ne_nil _ _ _ _ _


/-! ### The aggregate prediction -/

/-- The analyses of `analyzeAll2x2SubmatricesDetailed`: the nine blocks in
extraction order, numbered from 1, each with the equilibria of its game. -/
theorem analyzeAll2x2SubmatricesDetailed_eq (g : Game3x3) :
    analyzeAll2x2SubmatricesDetailed g
      = (blockPositions.zip ([1, 2, 3, 4, 5, 6, 7, 8, 9] : List Int)).map (fun x =>
          (⟨⟨fillGame g x.1 Game2x2.new, x.1⟩,
            findAllNashEquilibria (fillGame g x.1 Game2x2.new),
            findNonMyopicEquilibria (fillGame g x.1 Game2x2.new), x.2⟩ : SubmatrixAnalysis)) := by
  unfold analyzeAll2x2SubmatricesDetailed
  rw [extractAll2x2Submatrices_eq]
  rfl

/-- There are nine analyses and each holds at least one non-myopic
equilibrium. -/
theorem analyses_nonempty (g : Game3x3) :
    (analyzeAll2x2SubmatricesDetailed g).length = 9
      ∧ ∀ a ∈ analyzeAll2x2SubmatricesDetailed g, a.non_myopic_equilibria ≠ [] := by
  rw [analyzeAll2x2SubmatricesDetailed_eq]
  refine ⟨rfl, ?_⟩
  intro a ha
  obtain ⟨x, _, rfl⟩ := List.mem_map.mp ha
  exact findNonMyopicEquilibria_ne_nil _

/-- The loop computing `max_votes` returns an upper bound of its start value
and of every count. -/
theorem foldl_max_ge (l : List ((Int × Int) × Int)) :
    ∀ m : Int, m ≤ l.foldl (fun max_votes vote => max max_votes vote.2) m
      ∧ ∀ e ∈ l, e.2 ≤ l.foldl (fun max_votes vote => max max_votes vote.2) m := by
  induction l with
  | nil => intro m; simp
  | cons x rest ih =>
    intro m
    rw [List.foldl_cons]
    obtain ⟨h1, h2⟩ := ih (max m x.2)
    refine ⟨le_trans (le_max_left _ _) h1, ?_⟩
    intro e he
    rcases List.mem_cons.mp he with h | h
    · rw [h]; exact le_trans (le_max_right _ _) h1
    · exact h2 e h

/-- The loop computing `max_votes` returns its start value or one of the
counts. -/
theorem foldl_max_mem (l : List ((Int × Int) × Int)) :
    ∀ m : Int, l.foldl (fun max_votes vote => max max_votes vote.2) m = m
      ∨ ∃ e ∈ l, e.2 = l.foldl (fun max_votes vote => max max_votes vote.2) m := by
  induction l with
  | nil => intro m; exact Or.inl rfl
  | cons x rest ih =>
    intro m
    rw [List.foldl_cons]
    rcases ih (max m x.2) with h | ⟨e, he, h⟩
    · rcases max_choice m x.2 with hm | hm
      · left; rw [h, hm]
      · right; exact ⟨x, List.mem_cons_self _ _, by rw [h, hm]⟩
    · right; exact ⟨e, List.mem_cons_of_mem _ he, h⟩

/-- On a non-empty tally whose counts are at least 1, `max_votes` is the
largest count and some outcome attains it. -/
theorem maxVotes_spec (votes : List ((Int × Int) × Int)) (hne : votes ≠ [])
    (hpos : ∀ e ∈ votes, 1 ≤ e.2) :
    (∀ e ∈ votes, e.2 ≤ maxVotes votes) ∧ ∃ e ∈ votes, e.2 = maxVotes votes := by
  unfold maxVotes
  refine ⟨(foldl_max_ge votes 0).2, ?_⟩
  rcases foldl_max_mem votes 0 with h | h
  · obtain ⟨e, he⟩ := List.exists_mem_of_ne_nil votes hne
    have h1 := (foldl_max_ge votes 0).2 e he
    have h2 := hpos e he
    rw [h] at h1
    omega
  · exact h

/-- The reporting loop lists the outcomes whose count is `max_votes`, in key
order, and sets `found_prediction` when there is one. -/
theorem reportPredictions_eq (g : Game3x3) (max_votes : Int) (n : ℕ) :
    ∀ (votes : List ((Int × Int) × Int)) (init : List Prediction × Bool),
      votes.foldl (fun (st : List Prediction × Bool) vote =>
          if vote.2 = max_votes then
            (st.1 ++ [(⟨vote.1.1, vote.1.2, g.getPayoff vote.1.1 vote.1.2 0,
              g.getPayoff vote.1.1 vote.1.2 1, vote.2, n⟩ : Prediction)], true)
          else st) init
        = (init.1 ++ (votes.filter (fun vote => decide (vote.2 = max_votes))).map (fun vote =>
              (⟨vote.1.1, vote.1.2, g.getPayoff vote.1.1 vote.1.2 0,
                g.getPayoff vote.1.1 vote.1.2 1, vote.2, n⟩ : Prediction)),
           init.2 || votes.any (fun vote => decide (vote.2 = max_votes))) := by
  intro votes
  induction votes with
  | nil => intro init; simp
  | cons v rest ih =>
    intro init
    rw [List.foldl_cons, ih]
    by_cases h : v.2 = max_votes
    · simp [h, List.filter_cons]
    · simp [h, List.filter_cons]

/-- The fields of the aggregation in terms of the loops that compute them. -/
theorem calculate3x3NMEFromSubgames_fields (g : Game3x3) :
    (calculate3x3NMEFromSubgames g).strategy_votes
        = (tallyVotes (analyzeAll2x2SubmatricesDetailed g)).1
      ∧ (calculate3x3NMEFromSubgames g).max_votes
        = maxVotes (tallyVotes (analyzeAll2x2SubmatricesDetailed g)).1
      ∧ (calculate3x3NMEFromSubgames g).predictions
        = ((tallyVotes (analyzeAll2x2SubmatricesDetailed g)).1.filter (fun vote =>
              decide (vote.2 = maxVotes (tallyVotes (analyzeAll2x2SubmatricesDetailed g)).1))).map
            (fun vote => (⟨vote.1.1, vote.1.2, g.getPayoff vote.1.1 vote.1.2 0,
              g.getPayoff vote.1.1 vote.1.2 1, vote.2, 9⟩ : Prediction))
      ∧ (calculate3x3NMEFromSubgames g).found_prediction
        = (tallyVotes (analyzeAll2x2SubmatricesDetailed g)).1.any (fun vote =>
            decide (vote.2 = maxVotes (tallyVotes (analyzeAll2x2SubmatricesDetailed g)).1)) := by
  have hlen := (analyses_nonempty g).1
  refine ⟨?_, ?_, ?_, ?_⟩
  · simp only [calculate3x3NMEFromSubgames]
  · simp only [calculate3x3NMEFromSubgames]
  · simp only [calculate3x3NMEFromSubgames, reportPredictions, reportPredictions_eq, hlen,
      List.nil_append]
  · simp only [calculate3x3NMEFromSubgames, reportPredictions, reportPredictions_eq,
      Bool.false_or]

/-- C13: the outcomes reported by `calculate3x3NMEFromSubgames` are exactly
the outcomes of the vote tally whose count is the maximum count of the tally,
in key order; each outcome occurs once in the tally; each reported outcome
carries the two payoffs of its cell in the 3x3 matrix, and none has fewer
votes than the maximum. -/
theorem predictions_max_votes (g : Game3x3) :
    (calculate3x3NMEFromSubgames g).predictions
        = ((calculate3x3NMEFromSubgames g).strategy_votes.filter (fun vote =>
              decide (vote.2 = (calculate3x3NMEFromSubgames g).max_votes))).map (fun vote =>
            (⟨vote.1.1, vote.1.2, g.getPayoff vote.1.1 vote.1.2 0,
              g.getPayoff vote.1.1 vote.1.2 1, vote.2, 9⟩ : Prediction))
      ∧ (∀ row col : Int,
          (∃ p ∈ (calculate3x3NMEFromSubgames g).predictions, p.row = row ∧ p.col = col)
            ↔ ((row, col), (calculate3x3NMEFromSubgames g).max_votes)
                ∈ (calculate3x3NMEFromSubgames g).strategy_votes)
      ∧ ((calculate3x3NMEFromSubgames g).strategy_votes.map Prod.fst).Nodup
      ∧ (∀ e ∈ (calculate3x3NMEFromSubgames g).strategy_votes,
          e.2 ≤ (calculate3x3NMEFromSubgames g).max_votes)
      ∧ (∃ e ∈ (calculate3x3NMEFromSubgames g).strategy_votes,
          e.2 = (calculate3x3NMEFromSubgames g).max_votes)
      ∧ (∀ p ∈ (calculate3x3NMEFromSubgames g).predictions,
          p.payoff1 = g.getPayoff p.row p.col 0 ∧ p.payoff2 = g.getPayoff p.row p.col 1
            ∧ p.votes = (calculate3x3NMEFromSubgames g).max_votes
            ∧ ((p.row, p.col), p.votes) ∈ (calculate3x3NMEFromSubgames g).strategy_votes) := by
  obtain ⟨hlen, hnme⟩ := analyses_nonempty g
  have hne : analyzeAll2x2SubmatricesDetailed g ≠ [] := by
    intro h; rw [h] at hlen; exact absurd hlen (by decide)
  have hinv := tallyVotes_invariant (analyzeAll2x2SubmatricesDetailed g)
  have htne := tallyVotes_ne_nil (analyzeAll2x2SubmatricesDetailed g) hne hnme
  obtain ⟨hle, hatt⟩ := maxVotes_spec _ htne hinv.2
  have hnodup := tallyVotes_nodup (analyzeAll2x2SubmatricesDetailed g)
  obtain ⟨hv, hm, hp, _⟩ := calculate3x3NMEFromSubgames_fields g
  rw [hp, hv, hm]
  generalize (tallyVotes (analyzeAll2x2SubmatricesDetailed g)).1 = T at hle hatt hnodup
  generalize maxVotes T = M at hle hatt
  refine ⟨rfl, ?_, hnodup, hle, hatt, ?_⟩
  · intro row col
    simp only [List.mem_map, List.mem_filter, decide_eq_true_eq]
    constructor
    · rintro ⟨p, ⟨vote, ⟨hvote, hmax⟩, rfl⟩, h1, h2⟩
      simp only at h1 h2
      rw [← h1, ← h2, ← hmax]
      exact hvote
    · intro h
      exact ⟨⟨row, col, g.getPayoff row col 0, g.getPayoff row col 1, M, 9⟩,
        ⟨((row, col), M), ⟨h, rfl⟩, rfl⟩, rfl, rfl⟩
  · intro p hp'
    simp only [List.mem_map, List.mem_filter, decide_eq_true_eq] at hp'
    obtain ⟨vote, ⟨hvote, hmax⟩, rfl⟩ := hp'
    exact ⟨rfl, rfl, hmax, hvote⟩

/-- The non-myopic equilibria of the nine submatrices of the example game:
each has the single profile `(0, 0)`. -/
theorem example_submatrix_equilibria :
    ∀ ps ∈ blockPositions,
      findNonMyopicEquilibria (fillGame getExample3x3Game ps Game2x2.new)
        = [⟨⟨0, 0⟩, false⟩] := by
  have h : ∀ ps ∈ blockPositions,
      ((grid21.filter (stable1 (fillGame getExample3x3Game ps Game2x2.new))).flatMap fun p1 =>
        (grid21.filter (stable2 (fillGame getExample3x3Game ps Game2x2.new))).map fun p2 =>
          (⟨⟨p1, p2⟩, false⟩ : Equilibrium)) = [⟨⟨0, 0⟩, false⟩] := by
    decide!
  intro ps hps
  rw [findNonMyopicEquilibria_product]
  exact h ps hps

/-- The aggregation of the example game: the tally, the maximum and the
report. -/
theorem example_aggregation :
    (calculate3x3NMEFromSubgames getExample3x3Game).strategy_votes
        = [((1, 1), 1), ((1, 2), 2), ((2, 1), 2), ((2, 2), 4)]
      ∧ (calculate3x3NMEFromSubgames getExample3x3Game).max_votes = 4
      ∧ (calculate3x3NMEFromSubgames getExample3x3Game).predictions = [⟨2, 2, 6, 6, 4, 9⟩] := by
  have h : analyzeAll2x2SubmatricesDetailed getExample3x3Game
      = (blockPositions.zip ([1, 2, 3, 4, 5, 6, 7, 8, 9] : List Int)).map (fun x =>
          (⟨⟨fillGame getExample3x3Game x.1 Game2x2.new, x.1⟩,
            findAllNashEquilibria (fillGame getExample3x3Game x.1 Game2x2.new),
            [⟨⟨0, 0⟩, false⟩], x.2⟩ : SubmatrixAnalysis)) := by
    rw [analyzeAll2x2SubmatricesDetailed_eq]
    apply List.map_congr_left
    intro x hx
    rw [example_submatrix_equilibria x.1 (List.of_mem_zip hx).1]
  unfold calculate3x3NMEFromSubgames
  rw [h]
  decide!

/-- C14: on the Extended Coordination Game the outcome `(2,2)`, with payoff
`(6,6)`, has 4 votes, which is the maximum vote count of the tally, and is
among the reported predictions. -/
theorem example_predicts_2_2 :
    getExample3x3Game.getPayoff 2 2 0 = 6 ∧ getExample3x3Game.getPayoff 2 2 1 = 6
      ∧ ((2, 2), (4 : Int)) ∈ (calculate3x3NMEFromSubgames getExample3x3Game).strategy_votes
      ∧ (calculate3x3NMEFromSubgames getExample3x3Game).max_votes = 4
      ∧ (∀ e ∈ (calculate3x3NMEFromSubgames getExample3x3Game).strategy_votes, e.2 ≤ 4)
      ∧ (⟨2, 2, 6, 6, 4, 9⟩ : Prediction)
          ∈ (calculate3x3NMEFromSubgames getExample3x3Game).predictions := by
  obtain ⟨hv, hm, hp⟩ := example_aggregation
  rw [hv, hm, hp]
  decide

/-- C13 at the example game: the reported outcome `(2,2)`. -/
theorem predictions_max_votes_witness :
    (⟨2, 2, 6, 6, 4, 9⟩ : Prediction) ∈ (calculate3x3NMEFromSubgames getExample3x3Game).predictions
      ∧ (6 : ℚ) = getExample3x3Game.getPayoff 2 2 0 ∧ (6 : ℚ) = getExample3x3Game.getPayoff 2 2 1
      ∧ (4 : Int) = (calculate3x3NMEFromSubgames getExample3x3Game).max_votes
      ∧ ((2, 2), (4 : Int)) ∈ (calculate3x3NMEFromSubgames getExample3x3Game).strategy_votes :=
  have hmem : (⟨2, 2, 6, 6, 4, 9⟩ : Prediction)
      ∈ (calculate3x3NMEFromSubgames getExample3x3Game).predictions := by
    rw [example_aggregation.2.2]
    exact List.mem_singleton.mpr rfl
  ⟨hmem, (predictions_max_votes getExample3x3Game).2.2.2.2.2 _ hmem⟩

/-- C19, as the code has it: in exact arithmetic `findNonMyopicEquilibria`
returns at least one profile for every 2x2 matrix, and for every 3x3 matrix
the vote tally is non-empty and at least one prediction is reported, so the
branch `No clear consensus` is never taken. -/
theorem nonMyopic_never_empty :
    (∀ game : Game2x2, findNonMyopicEquilibria game ≠ [])
      ∧ (∀ g : Game3x3, (calculate3x3NMEFromSubgames g).strategy_votes ≠ []
          ∧ (calculate3x3NMEFromSubgames g).predictions ≠ []
          ∧ (calculate3x3NMEFromSubgames g).found_prediction = true) := by
  refine ⟨findNonMyopicEquilibria_ne_nil, ?_⟩
  intro g
  obtain ⟨hlen, hnme⟩ := analyses_nonempty g
  have hne : analyzeAll2x2SubmatricesDetailed g ≠ [] := by
    intro h; rw [h] at hlen; exact absurd hlen (by decide)
  have hinv := tallyVotes_invariant (analyzeAll2x2SubmatricesDetailed g)
  have htne := tallyVotes_ne_nil (analyzeAll2x2SubmatricesDetailed g) hne hnme
  obtain ⟨_, e, he, hatt⟩ := maxVotes_spec _ htne hinv.2
  obtain ⟨hv, _, hp, hf⟩ := calculate3x3NMEFromSubgames_fields g
  rw [hv, hp, hf]
  generalize (tallyVotes (analyzeAll2x2SubmatricesDetailed g)).1 = T at htne he hatt
  generalize maxVotes T = M at hatt
  refine ⟨htne, ?_, ?_⟩
  · intro h
    rw [List.map_eq_nil_iff, List.filter_eq_nil_iff] at h
    exact h e he (by simpa using hatt)
  · rw [List.any_eq_true]
    exact ⟨e, he, by simpa using hatt⟩

/-- C19 fails as stated: no 2x2 matrix has an empty non-myopic equilibrium
set, and no 3x3 matrix has an empty vote tally. -/
theorem empty_result_counterexample :
    ¬ ((∃ game : Game2x2, findNonMyopicEquilibria game = [])
        ∧ (∃ g : Game3x3, (calculate3x3NMEFromSubgames g).strategy_votes = []
            ∧ (calculate3x3NMEFromSubgames g).predictions = [])) := by
  rintro ⟨⟨game, h⟩, _⟩
  exact findNonMyopicEquilibria_ne_nil game h

/-! ### Maps built by repeated updates -/

/-- An update leaves the entries of the other keys as they are. -/
theorem mapUpdate_other {K V : Type} (lt : K → K → Bool)
    (htri : ∀ a b, lt a b = false → lt b a = false → a = b)
    (dflt : V) (f : V → V) (key : K) (k' : K) (v' : V) (hne : k' ≠ key) :
    ∀ l : List (K × V), (k', v') ∈ mapUpdate lt dflt f key l ↔ (k', v') ∈ l := by
  intro l
  induction l with
  | nil =>
    simp only [mapUpdate, List.mem_singleton, Prod.mk.injEq, List.not_mem_nil, iff_false,
      not_and]
    intro h
    exact absurd h hne
  | cons x rest ih =>
    obtain ⟨k, v⟩ := x
    simp only [mapUpdate]
    by_cases h1 : lt key k = true
    · rw [if_pos h1]
      simp only [List.mem_cons, Prod.mk.injEq]
      constructor
      · rintro (h | h)
        · exact absurd h.1 hne
        · exact h
      · intro h
        exact Or.inr h
    · by_cases h2 : lt k key = true
      · rw [if_neg h1, if_pos h2]
        simp only [List.mem_cons, ih]
      · have hk : key = k := htri _ _ (by simpa using h1) (by simpa using h2)
        rw [if_neg h1, if_neg h2]
        simp only [List.mem_cons, Prod.mk.injEq]
        constructor
        · rintro (h | h)
          · exact absurd (h.1.trans hk.symm) hne
          · exact Or.inr h
        · rintro (h | h)
          · exact absurd (h.1.trans hk.symm) hne
          · exact Or.inr h

/-- In a key-sorted map, a key below the first key is absent. -/
theorem sorted_absent_of_lt {K V : Type} (lt : K → K → Bool) (hirr : ∀ a, lt a a = false)
    (htrans : ∀ a b c, lt a b = true → lt b c = true → lt a c = true)
    (key k : K) (v : V) (rest : List (K × V))
    (hs : ((k, v) :: rest).Pairwise (fun a b => lt a.1 b.1 = true)) (h1 : lt key k = true) :
    ∀ w, (key, w) ∉ (k, v) :: rest := by
  intro w hw
  have hs' := List.pairwise_cons.mp hs
  rcases List.mem_cons.mp hw with h | h
  · have hk : key = k := (Prod.mk.inj h).1
    rw [hk, hirr] at h1
    exact absurd h1 (by decide)
  · have h2 := htrans _ _ _ h1 (hs'.1 _ h)
    simp only at h2
    rw [hirr] at h2
    exact absurd h2 (by decide)

/-- In a key-sorted map, the first key does not occur again. -/
theorem sorted_absent_in_rest {K V : Type} (lt : K → K → Bool) (hirr : ∀ a, lt a a = false)
    (k : K) (v : V) (rest : List (K × V))
    (hs : ((k, v) :: rest).Pairwise (fun a b => lt a.1 b.1 = true)) :
    ∀ w, (k, w) ∉ rest := by
  intro w hw
  have h := (List.pairwise_cons.mp hs).1 _ hw
  simp only at h
  rw [hirr] at h
  exact absurd h (by decide)

/-- An update of a key absent from a key-sorted map enters `f` of the
default. -/
theorem mapUpdate_absent {K V : Type} (lt : K → K → Bool)
    (htri : ∀ a b, lt a b = false → lt b a = false → a = b)
    (dflt : V) (f : V → V) (key : K) (v' : V) :
    ∀ l : List (K × V), (∀ w, (key, w) ∉ l) →
      ((key, v') ∈ mapUpdate lt dflt f key l ↔ v' = f dflt) := by
  intro l
  induction l with
  | nil =>
    intro _
    simp only [mapUpdate, List.mem_singleton, Prod.mk.injEq, true_and]
  | cons x rest ih =>
    obtain ⟨k, v⟩ := x
    intro habs
    have habs' : ∀ w, (key, w) ∉ rest := fun w hw => habs w (List.mem_cons_of_mem _ hw)
    have hkv : ∀ w, ¬ (key = k ∧ w = v) := by
      rintro w ⟨rfl, rfl⟩
      exact habs w (List.mem_cons_self _ _)
    simp only [mapUpdate]
    by_cases h1 : lt key k = true
    · rw [if_pos h1]
      simp only [List.mem_cons, Prod.mk.injEq, true_and]
      constructor
      · rintro (h | h | h)
        · exact h
        · exact absurd h (hkv v')
        · exact absurd h (habs' v')
      · intro h
        exact Or.inl h
    · by_cases h2 : lt k key = true
      · rw [if_neg h1, if_pos h2]
        simp only [List.mem_cons, Prod.mk.injEq, ih habs']
        constructor
        · rintro (h | h)
          · exact absurd h (hkv v')
          · exact h
        · intro h
          exact Or.inr h
      · have hk : key = k := htri _ _ (by simpa using h1) (by simpa using h2)
        exact absurd ⟨hk, rfl⟩ (hkv v)

/-- An update of a key present in a key-sorted map replaces its value `v` by
`f v`. -/
theorem mapUpdate_present {K V : Type} (lt : K → K → Bool) (hirr : ∀ a, lt a a = false)
    (htrans : ∀ a b c, lt a b = true → lt b c = true → lt a c = true)
    (dflt : V) (f : V → V) (key : K) (v v' : V) :
    ∀ l : List (K × V), l.Pairwise (fun a b => lt a.1 b.1 = true) → (key, v) ∈ l →
      ((key, v') ∈ mapUpdate lt dflt f key l ↔ v' = f v) := by
  intro l
  induction l with
  | nil => intro _ h; exact absurd h (List.not_mem_nil _)
  | cons x rest ih =>
    obtain ⟨k, w⟩ := x
    intro hs hmem
    have hs' := List.pairwise_cons.mp hs
    simp only [mapUpdate]
    by_cases h1 : lt key k = true
    · exact absurd hmem (sorted_absent_of_lt lt hirr htrans key k w rest hs h1 v)
    · by_cases h2 : lt k key = true
      · have hne : ¬ (key = k) := by
          rintro rfl
          rw [hirr] at h2
          exact absurd h2 (by decide)
        have hmem' : (key, v) ∈ rest := by
          rcases List.mem_cons.mp hmem with h | h
          · exact absurd (Prod.mk.inj h).1 hne
          · exact h
        rw [if_neg h1, if_pos h2]
        simp only [List.mem_cons, Prod.mk.injEq, ih hs'.2 hmem']
        constructor
        · rintro (h | h)
          · exact absurd h.1 hne
          · exact h
        · intro h
          exact Or.inr h
      · rw [if_neg h1, if_neg h2]
        simp only [List.mem_cons, Prod.mk.injEq]
        rcases List.mem_cons.mp hmem with h | h
        · obtain ⟨rfl, rfl⟩ := Prod.mk.inj h
          constructor
          · rintro (h' | h')
            · exact h'.2
            · exact absurd h' (sorted_absent_in_rest lt hirr key v rest hs v')
          · intro h'
            exact Or.inl ⟨rfl, h'⟩
        · have hlt := hs'.1 _ h
          simp only at hlt
          exact absurd hlt h2

/-- The map built from the empty map by one update per event `(key, x)`,
the update of an event being `upd x`: the keys are those of the events, in
increasing order, and the value of a key is the default updated in turn by the
events of that key. -/
theorem foldl_mapUpdate_mem {K V X : Type} [DecidableEq K] (lt : K → K → Bool)
    (hirr : ∀ a, lt a a = false)
    (htrans : ∀ a b c, lt a b = true → lt b c = true → lt a c = true)
    (htri : ∀ a b, lt a b = false → lt b a = false → a = b)
    (dflt : V) (upd : X → V → V) :
    ∀ evs : List (K × X),
      (evs.foldl (fun m ev => mapUpdate lt dflt (upd ev.2) ev.1 m) []).Pairwise
          (fun a b => lt a.1 b.1 = true)
        ∧ ∀ k v, (k, v) ∈ evs.foldl (fun m ev => mapUpdate lt dflt (upd ev.2) ev.1 m) [] ↔
            (∃ ev ∈ evs, ev.1 = k)
              ∧ v = (evs.filter (fun ev => decide (ev.1 = k))).foldl
                  (fun v ev => upd ev.2 v) dflt := by
  intro evs
  induction evs using List.reverseRecOn with
  | nil =>
    refine ⟨List.Pairwise.nil, ?_⟩
    intro k v
    simp
  | append_singleton evs ev ih =>
    obtain ⟨hs, hmem⟩ := ih
    rw [List.foldl_append, List.foldl_cons, List.foldl_nil]
    refine ⟨mapUpdate_sorted lt htrans _ _ _ _ hs, ?_⟩
    intro k v
    by_cases hk : k = ev.1
    · subst hk
      have hfil : (evs ++ [ev]).filter (fun e => decide (e.1 = ev.1))
          = evs.filter (fun e => decide (e.1 = ev.1)) ++ [ev] := by
        simp [List.filter_append, List.filter_cons]
      have hex : ∃ e ∈ evs ++ [ev], e.1 = ev.1 := ⟨ev, by simp, rfl⟩
      rw [hfil, List.foldl_append, List.foldl_cons, List.foldl_nil]
      by_cases hpres : ∃ w, (ev.1, w) ∈ evs.foldl
          (fun m ev => mapUpdate lt dflt (upd ev.2) ev.1 m) []
      · obtain ⟨w, hw⟩ := hpres
        rw [mapUpdate_present lt hirr htrans dflt _ ev.1 w v _ hs hw]
        have := ((hmem ev.1 w).mp hw).2
        rw [← this]
        exact ⟨fun h => ⟨hex, h⟩, fun h => h.2⟩
      · have habs : ∀ w, (ev.1, w) ∉ evs.foldl
            (fun m ev => mapUpdate lt dflt (upd ev.2) ev.1 m) [] :=
          fun w hw => hpres ⟨w, hw⟩
        have hnone : evs.filter (fun e => decide (e.1 = ev.1)) = [] := by
          rw [List.filter_eq_nil_iff]
          intro e he hdec
          exact habs _ ((hmem ev.1 _).mpr ⟨⟨e, he, by simpa using hdec⟩, rfl⟩)
        rw [mapUpdate_absent lt htri dflt _ ev.1 v _ habs, hnone, List.foldl_nil]
        exact ⟨fun h => ⟨hex, h⟩, fun h => h.2⟩
    · have hne : ¬ ev.1 = k := fun h => hk h.symm
      have hfil : (evs ++ [ev]).filter (fun e => decide (e.1 = k))
          = evs.filter (fun e => decide (e.1 = k)) := by
        simp [List.filter_append, List.filter_cons, hne]
      rw [mapUpdate_other lt htri dflt _ ev.1 k v hk, hmem, hfil]
      constructor
      · rintro ⟨⟨e, he, hek⟩, hv⟩
        exact ⟨⟨e, List.mem_append_left _ he, hek⟩, hv⟩
      · rintro ⟨⟨e, he, hek⟩, hv⟩
        refine ⟨⟨e, ?_, hek⟩, hv⟩
        rcases List.mem_append.mp he with h | h
        · exact h
        · rw [List.mem_singleton.mp h] at hek
          exact absurd hek hne

/-- In a key-sorted map no key occurs with two values. -/
theorem sorted_value_unique {K V : Type} (lt : K → K → Bool) (hirr : ∀ a, lt a a = false) :
    ∀ l : List (K × V), l.Pairwise (fun a b => lt a.1 b.1 = true) →
      ∀ k v v', (k, v) ∈ l → (k, v') ∈ l → v = v' := by
  intro l
  induction l with
  | nil => intro _ k v v' h; exact absurd h (List.not_mem_nil _)
  | cons x rest ih =>
    obtain ⟨k0, v0⟩ := x
    intro hs k v v' h h'
    rcases List.mem_cons.mp h with h1 | h1 <;> rcases List.mem_cons.mp h' with h2 | h2
    · exact ((Prod.mk.inj h1).2).trans ((Prod.mk.inj h2).2).symm
    · rw [(Prod.mk.inj h1).1] at h2
      exact absurd h2 (sorted_absent_in_rest lt hirr k0 v0 rest hs v')
    · rw [(Prod.mk.inj h2).1] at h1
      exact absurd h1 (sorted_absent_in_rest lt hirr k0 v0 rest hs v)
    · exact ih (List.pairwise_cons.mp hs).2 k v v' h1 h2

/-! ### The tally as a function of the votes cast -/

/-- The order of `std::pair<int,int>` is irreflexive. -/
theorem pairLt_self (a : Int × Int) : pairLt a a = false := by
  simp only [pairLt, decide_eq_false_iff_not]
  omega

/-- Two pairs that are not ordered either way are equal. -/
theorem pairLt_tri (a b : Int × Int) (h1 : pairLt a b = false) (h2 : pairLt b a = false) :
    a = b := by
  simp only [pairLt, decide_eq_false_iff_not] at h1 h2
  apply Prod.ext <;> omega

/-- The order of `int` is irreflexive. -/
theorem intLt_self (a : Int) : intLt a a = false := by
  simp [intLt]

/-- The order of `int` is transitive. -/
theorem intLt_trans (a b c : Int) (h1 : intLt a b = true) (h2 : intLt b c = true) :
    intLt a c = true := by
  simp only [intLt, decide_eq_true_eq] at *
  omega

/-- Two `int` that are not ordered either way are equal. -/
theorem intLt_tri (a b : Int) (h1 : intLt a b = false) (h2 : intLt b a = false) : a = b := by
  simp only [intLt, decide_eq_false_iff_not] at h1 h2
  omega

/-- A loop over a pair of independent accumulators is a pair of loops. -/
theorem foldl_pair {α σ τ : Type} (F : σ → α → σ) (G : τ → α → τ) :
    ∀ (l : List α) (a : σ) (b : τ),
      l.foldl (fun (st : σ × τ) x => (F st.1 x, G st.2 x)) (a, b) = (l.foldl F a, l.foldl G b) := by
  intro l
  induction l with
  | nil => intro a b; rfl
  | cons x l ih => intro a b; rw [List.foldl_cons, ih]; rfl

/-- The vote loop is one pair of map updates per vote cast. -/
theorem tallyVotes_eq_foldl (analyses : List SubmatrixAnalysis) :
    tallyVotes analyses
      = ((votesCast analyses).foldl (fun m ev => mapUpdate pairLt 0 (fun v => v + 1) ev.1 m) [],
         (votesCast analyses).foldl
            (fun m ev => mapUpdate pairLt [] (fun v => v ++ [ev.2]) ev.1 m) []) := by
  have h : ∀ (as : List SubmatrixAnalysis)
      (init : List ((Int × Int) × Int) × List ((Int × Int) × List Int)),
      as.foldl (fun st analysis =>
        analysis.non_myopic_equilibria.foldl (fun st nme =>
          (mapUpdate pairLt 0 (· + 1) (votedOutcome analysis.submatrix.positions nme) st.1,
           mapUpdate pairLt [] (· ++ [analysis.submatrix_id])
            (votedOutcome analysis.submatrix.positions nme) st.2)) st) init
        = (votesCast as).foldl (fun st ev =>
            (mapUpdate pairLt 0 (fun v => v + 1) ev.1 st.1,
             mapUpdate pairLt [] (fun v => v ++ [ev.2]) ev.1 st.2)) init := by
    intro as
    induction as with
    | nil => intro init; rfl
    | cons a as ih =>
      intro init
      rw [List.foldl_cons, ih]
      simp only [votesCast, List.flatMap_cons, List.foldl_append, List.foldl_map]
  unfold tallyVotes
  rw [h analyses ([], [])]
  exact foldl_pair (fun m (ev : (Int × Int) × Int) => mapUpdate pairLt 0 (fun v => v + 1) ev.1 m)
    (fun m (ev : (Int × Int) × Int) => mapUpdate pairLt [] (fun v => v ++ [ev.2]) ev.1 m) _ _ _

/-- Counting by repeated increment gives the length. -/
theorem foldl_succ_length {α : Type} (l : List α) :
    ∀ n : Int, l.foldl (fun v _ => v + 1) n = n + l.length := by
  induction l with
  | nil => intro n; simp
  | cons x l ih => intro n; rw [List.foldl_cons, ih]; simp; ring

/-- Collecting by repeated append gives the list of what was appended. -/
theorem foldl_append_singleton {α β : Type} (g : α → β) (l : List α) :
    ∀ init : List β, l.foldl (fun v x => v ++ [g x]) init = init ++ l.map g := by
  induction l with
  | nil => intro init; simp
  | cons x l ih => intro init; rw [List.foldl_cons, ih]; simp

/-- Accumulating by repeated addition gives the sum. -/
theorem foldl_add_sum {α : Type} (g : α → Int) (l : List α) :
    ∀ n : Int, l.foldl (fun v x => v + g x) n = n + (l.map g).sum := by
  induction l with
  | nil => intro n; simp
  | cons x l ih => intro n; rw [List.foldl_cons, ih]; simp; ring

/-- The vote count of an outcome is the number of votes cast for it; outcomes
without a vote are absent. -/
theorem mem_votes_iff (analyses : List SubmatrixAnalysis) (k : Int × Int) (n : Int) :
    (k, n) ∈ (tallyVotes analyses).1 ↔
      (∃ ev ∈ votesCast analyses, ev.1 = k)
        ∧ n = ((votesCast analyses).filter (fun ev => decide (ev.1 = k))).length := by
  rw [tallyVotes_eq_foldl]
  have h := (foldl_mapUpdate_mem pairLt pairLt_self pairLt_trans pairLt_tri (0 : Int)
    (fun (_ : Int) v => v + 1) (votesCast analyses)).2 k n
  simp only [] at h ⊢
  rw [h, foldl_succ_length, zero_add]

/-- The supporters of an outcome are the submatrix numbers of the votes cast
for it, in casting order. -/
theorem mem_supporters_iff (analyses : List SubmatrixAnalysis) (k : Int × Int)
    (ids : List Int) :
    (k, ids) ∈ (tallyVotes analyses).2 ↔
      (∃ ev ∈ votesCast analyses, ev.1 = k)
        ∧ ids = ((votesCast analyses).filter (fun ev => decide (ev.1 = k))).map Prod.snd := by
  rw [tallyVotes_eq_foldl]
  have h := (foldl_mapUpdate_mem pairLt pairLt_self pairLt_trans pairLt_tri ([] : List Int)
    (fun (x : Int) v => v ++ [x]) (votesCast analyses)).2 k ids
  simp only [] at h ⊢
  rw [h, foldl_append_singleton, List.nil_append]

/-- An update by addition of `c` adds `c` to the sum of the values. -/
theorem mapUpdate_sum {K : Type} (lt : K → K → Bool) (c : Int) (key : K) :
    ∀ l : List (K × Int),
      ((mapUpdate lt 0 (fun v => v + c) key l).map Prod.snd).sum = (l.map Prod.snd).sum + c := by
  intro l
  induction l with
  | nil => simp [mapUpdate]
  | cons x rest ih =>
    obtain ⟨k, v⟩ := x
    simp only [mapUpdate]
    split_ifs
    · simp only [List.map_cons, List.sum_cons]; ring
    · simp only [List.map_cons, List.sum_cons, ih]; ring
    · simp only [List.map_cons, List.sum_cons]; ring

/-- The sum of the values of a map built by additive updates is the sum of
the amounts added. -/
theorem foldl_mapUpdate_sum {K α : Type} (lt : K → K → Bool) (key : α → K) (amt : α → Int) :
    ∀ (l : List α) (init : List (K × Int)),
      ((l.foldl (fun m x => mapUpdate lt 0 (fun v => v + amt x) (key x) m) init).map
          Prod.snd).sum = (init.map Prod.snd).sum + (l.map amt).sum := by
  intro l
  induction l with
  | nil => intro init; simp
  | cons x l ih =>
    intro init
    rw [List.foldl_cons, ih, mapUpdate_sum]
    simp only [List.map_cons, List.sum_cons]
    ring

/-- Updating the images under a map of the values is the image of the
update, when the map commutes with the update functions. -/
theorem mapUpdate_map {K V W : Type} (lt : K → K → Bool) (h : V → W) (d1 : W) (f1 : W → W)
    (d2 : V) (f2 : V → V) (hd : h (f2 d2) = f1 d1) (hf : ∀ v, h (f2 v) = f1 (h v)) (key : K) :
    ∀ l : List (K × V),
      mapUpdate lt d1 f1 key (l.map (fun e => (e.1, h e.2)))
        = (mapUpdate lt d2 f2 key l).map (fun e => (e.1, h e.2)) := by
  intro l
  induction l with
  | nil => simp [mapUpdate, hd]
  | cons x rest ih =>
    obtain ⟨k, v⟩ := x
    simp only [mapUpdate, List.map_cons]
    split_ifs
    · simp only [List.map_cons, hd]
    · simp only [List.map_cons, ih]
    · simp only [List.map_cons, hf]

/-- The vote counts are the lengths of the supporters lists, outcome by
outcome and in the same order. -/
theorem tallyVotes_counts_eq_lengths (analyses : List SubmatrixAnalysis) :
    (tallyVotes analyses).1
      = (tallyVotes analyses).2.map (fun e => (e.1, (e.2.length : Int))) := by
  rw [tallyVotes_eq_foldl]
  simp only []
  have h : ∀ (evs : List ((Int × Int) × Int)) (m : List ((Int × Int) × List Int)),
      evs.foldl (fun m ev => mapUpdate pairLt 0 (fun v => v + 1) ev.1 m)
          (m.map (fun e => (e.1, (e.2.length : Int))))
        = (evs.foldl (fun m ev => mapUpdate pairLt [] (fun v => v ++ [ev.2]) ev.1 m) m).map
            (fun e => (e.1, (e.2.length : Int))) := by
    intro evs
    induction evs with
    | nil => intro m; rfl
    | cons ev evs ih =>
      intro m
      rw [List.foldl_cons, List.foldl_cons, ← ih]
      congr 1
      exact mapUpdate_map pairLt (fun ids : List Int => (ids.length : Int)) 0 (fun v => v + 1)
        [] (fun v => v ++ [ev.2]) (by simp) (by intro v; simp) ev.1 m
  exact h (votesCast analyses) []

/-- The number of votes cast is the total number of non-myopic equilibria. -/
theorem votesCast_length (analyses : List SubmatrixAnalysis) :
    ((votesCast analyses).length : Int)
      = (analyses.map (fun a => (a.non_myopic_equilibria.length : Int))).sum := by
  induction analyses with
  | nil => rfl
  | cons a as ih =>
    have : votesCast (a :: as)
        = a.non_myopic_equilibria.map (fun nme =>
            (votedOutcome a.submatrix.positions nme, a.submatrix_id)) ++ votesCast as := rfl
    rw [this, List.length_append, List.length_map, List.map_cons, List.sum_cons, ← ih]
    push_cast
    ring

/-- The vote counts add up to the number of votes cast. -/
theorem tallyVotes_sum (analyses : List SubmatrixAnalysis) :
    ((tallyVotes analyses).1.map Prod.snd).sum
      = ((analyses.map (fun a => (a.non_myopic_equilibria.length : Int))).sum) := by
  rw [tallyVotes_eq_foldl]
  simp only []
  have h := foldl_mapUpdate_sum pairLt (fun ev : (Int × Int) × Int => ev.1) (fun _ => 1)
    (votesCast analyses) []
  simp only [List.map_nil, List.sum_nil, zero_add] at h
  have hone : ∀ l : List ((Int × Int) × Int), (l.map (fun _ => (1 : Int))).sum = l.length := by
    intro l
    induction l with
    | nil => rfl
    | cons x l ih => rw [List.map_cons, List.sum_cons, ih, List.length_cons]; push_cast; ring
  rw [h, hone, votesCast_length]

/-- The supporters of an outcome, analysis by analysis: the number of each
analysis once per non-myopic equilibrium of it that votes for the outcome. -/
theorem supporters_by_analysis (analyses : List SubmatrixAnalysis) (k : Int × Int) :
    ((votesCast analyses).filter (fun ev => decide (ev.1 = k))).map Prod.snd
      = analyses.flatMap (fun a =>
          (a.non_myopic_equilibria.filter (fun nme =>
            decide (votedOutcome a.submatrix.positions nme = k))).map
              (fun _ => a.submatrix_id)) := by
  unfold votesCast
  induction analyses with
  | nil => rfl
  | cons a as ih =>
    simp only [List.flatMap_cons, List.filter_append, List.map_append, ih]
    congr 1
    simp only [List.filter_map, List.map_map, Function.comp_def]

/-- The map fields of the aggregation in terms of the loops that compute
them. -/
theorem calculate3x3NMEFromSubgames_maps (g : Game3x3) :
    (calculate3x3NMEFromSubgames g).strategy_supporters
        = (tallyVotes (analyzeAll2x2SubmatricesDetailed g)).2
      ∧ (calculate3x3NMEFromSubgames g).row_preferences
        = (dominanceTallies (tallyVotes (analyzeAll2x2SubmatricesDetailed g)).1).1
      ∧ (calculate3x3NMEFromSubgames g).col_preferences
        = (dominanceTallies (tallyVotes (analyzeAll2x2SubmatricesDetailed g)).1).2 := by
  refine ⟨?_, ?_, ?_⟩ <;> simp only [calculate3x3NMEFromSubgames]

/-- A tally built by adding the count of each vote entry under the key
`key entry`: a key is present iff some entry has it, and its value is the sum
of the counts of the entries with that key. -/
theorem mem_additive_tally (key : (Int × Int) × Int → Int) (T : List ((Int × Int) × Int))
    (r R : Int) :
    (r, R) ∈ T.foldl (fun m vote => mapUpdate intLt 0 (fun v => v + vote.2) (key vote) m) [] ↔
      (∃ e ∈ T, key e = r)
        ∧ R = ((T.filter (fun e => decide (key e = r))).map Prod.snd).sum := by
  have h := (foldl_mapUpdate_mem intLt intLt_self intLt_trans intLt_tri (0 : Int)
    (fun (x : Int) v => v + x) (T.map (fun e => (key e, e.2)))).2 r R
  rw [List.foldl_map] at h
  simp only [] at h
  rw [h, List.filter_map, List.foldl_map, foldl_add_sum, zero_add]
  simp only [List.mem_map, Function.comp_def]
  constructor
  · rintro ⟨⟨ev, ⟨e, he, rfl⟩, hk⟩, hR⟩
    exact ⟨⟨e, he, hk⟩, hR⟩
  · rintro ⟨⟨e, he, hk⟩, hR⟩
    exact ⟨⟨_, ⟨e, he, rfl⟩, hk⟩, hR⟩

/-- The keys of such a tally are in strictly increasing order. -/
theorem additive_tally_sorted (key : (Int × Int) × Int → Int) (T : List ((Int × Int) × Int)) :
    (T.foldl (fun m vote => mapUpdate intLt 0 (fun v => v + vote.2) (key vote) m) []).Pairwise
      (fun a b => intLt a.1 b.1 = true) := by
  have h := (foldl_mapUpdate_mem intLt intLt_self intLt_trans intLt_tri (0 : Int)
    (fun (x : Int) v => v + x) (T.map (fun e => (key e, e.2)))).1
  rw [List.foldl_map] at h
  exact h

/-- The dominance loop is a pair of additive tallies, by row and by column. -/
theorem dominanceTallies_eq (T : List ((Int × Int) × Int)) :
    dominanceTallies T
      = (T.foldl (fun m vote => mapUpdate intLt 0 (fun v => v + vote.2) vote.1.1 m) [],
         T.foldl (fun m vote => mapUpdate intLt 0 (fun v => v + vote.2) vote.1.2 m) []) := by
  unfold dominanceTallies
  exact foldl_pair
    (fun m (vote : (Int × Int) × Int) => mapUpdate intLt 0 (fun v => v + vote.2) vote.1.1 m)
    (fun m (vote : (Int × Int) × Int) => mapUpdate intLt 0 (fun v => v + vote.2) vote.1.2 m) _ _ _

/-- C23: `row_preferences[r]` is the sum over the tally entries of row `r` of
their vote counts, `col_preferences[c]` the sum over the entries of column
`c`; a row or column is present iff some outcome of the tally has it; each
occurs once; and the row tallies and the column tallies both add up to the
total number of votes. -/
theorem dominance_tallies_are_sums (g : Game3x3) :
    (∀ r R : Int, (r, R) ∈ (calculate3x3NMEFromSubgames g).row_preferences ↔
        (∃ e ∈ (calculate3x3NMEFromSubgames g).strategy_votes, e.1.1 = r)
          ∧ R = (((calculate3x3NMEFromSubgames g).strategy_votes.filter
                  (fun e => decide (e.1.1 = r))).map Prod.snd).sum)
      ∧ (∀ c C : Int, (c, C) ∈ (calculate3x3NMEFromSubgames g).col_preferences ↔
        (∃ e ∈ (calculate3x3NMEFromSubgames g).strategy_votes, e.1.2 = c)
          ∧ C = (((calculate3x3NMEFromSubgames g).strategy_votes.filter
                  (fun e => decide (e.1.2 = c))).map Prod.snd).sum)
      ∧ ((calculate3x3NMEFromSubgames g).row_preferences.map Prod.fst).Nodup
      ∧ ((calculate3x3NMEFromSubgames g).col_preferences.map Prod.fst).Nodup
      ∧ ((calculate3x3NMEFromSubgames g).row_preferences.map Prod.snd).sum
          = ((calculate3x3NMEFromSubgames g).strategy_votes.map Prod.snd).sum
      ∧ ((calculate3x3NMEFromSubgames g).col_preferences.map Prod.snd).sum
          = ((calculate3x3NMEFromSubgames g).strategy_votes.map Prod.snd).sum := by
  obtain ⟨_, hr, hc⟩ := calculate3x3NMEFromSubgames_maps g
  obtain ⟨hv, _⟩ := calculate3x3NMEFromSubgames_fields g
  rw [hr, hc, hv, dominanceTallies_eq]
  generalize (tallyVotes (analyzeAll2x2SubmatricesDetailed g)).1 = T
  have hnodup : ∀ key : (Int × Int) × Int → Int,
      ((T.foldl (fun m vote => mapUpdate intLt 0 (fun v => v + vote.2) (key vote) m) []).map
        Prod.fst).Nodup := by
    intro key
    rw [List.Nodup, List.pairwise_map]
    refine (additive_tally_sorted key T).imp ?_
    intro a b hab heq
    rw [heq, intLt_self] at hab
    exact absurd hab (by decide)
  have hsum : ∀ key : (Int × Int) × Int → Int,
      ((T.foldl (fun m vote => mapUpdate intLt 0 (fun v => v + vote.2) (key vote) m) []).map
        Prod.snd).sum = (T.map Prod.snd).sum := by
    intro key
    have := foldl_mapUpdate_sum intLt key (fun e : (Int × Int) × Int => e.2) T []
    simpa using this
  exact ⟨mem_additive_tally (fun e => e.1.1) T, mem_additive_tally (fun e => e.1.2) T,
    hnodup (fun e => e.1.1), hnodup (fun e => e.1.2), hsum (fun e => e.1.1),
    hsum (fun e => e.1.2)⟩

/-- C29: the vote count of every outcome is the length of its supporters
list, the two maps having the same outcomes in the same order, and the vote
counts add up to the total number of non-myopic equilibria of the nine
extracted submatrices. -/
theorem votes_are_supporter_counts (g : Game3x3) :
    (calculate3x3NMEFromSubgames g).strategy_votes
        = (calculate3x3NMEFromSubgames g).strategy_supporters.map
            (fun e => (e.1, (e.2.length : Int)))
      ∧ (∀ (outcome : Int × Int) (K : Int) (ids : List Int),
          (outcome, K) ∈ (calculate3x3NMEFromSubgames g).strategy_votes →
          (outcome, ids) ∈ (calculate3x3NMEFromSubgames g).strategy_supporters →
          K = ids.length)
      ∧ ((calculate3x3NMEFromSubgames g).strategy_votes.map Prod.snd).sum
          = (((extractAll2x2Submatrices g).map
              (fun s => ((findNonMyopicEquilibria s.game).length : Int))).sum)
      ∧ (extractAll2x2Submatrices g).length = 9 := by
  obtain ⟨hs, _, _⟩ := calculate3x3NMEFromSubgames_maps g
  obtain ⟨hv, _⟩ := calculate3x3NMEFromSubgames_fields g
  have heq := tallyVotes_counts_eq_lengths (analyzeAll2x2SubmatricesDetailed g)
  have hsorted := (tallyVotes_invariant (analyzeAll2x2SubmatricesDetailed g)).1
  have hsum := tallyVotes_sum (analyzeAll2x2SubmatricesDetailed g)
  have hlens : (analyzeAll2x2SubmatricesDetailed g).map
        (fun a => (a.non_myopic_equilibria.length : Int))
      = (extractAll2x2Submatrices g).map
          (fun s => ((findNonMyopicEquilibria s.game).length : Int)) := by
    rw [analyzeAll2x2SubmatricesDetailed_eq, extractAll2x2Submatrices_eq]
    rfl
  have hlen9 : (extractAll2x2Submatrices g).length = 9 := by
    rw [extractAll2x2Submatrices_eq]; rfl
  rw [hv, hs, ← hlens, hsum]
  refine ⟨heq, ?_, rfl, hlen9⟩
  intro outcome K ids hK hids
  have hK' : (outcome, (ids.length : Int)) ∈ (tallyVotes (analyzeAll2x2SubmatricesDetailed g)).1 := by
    rw [heq]
    exact List.mem_map.mpr ⟨(outcome, ids), hids, rfl⟩
  exact sorted_value_unique pairLt pairLt_self _ hsorted outcome K _ hK hK'

/-- The analyses with the non-myopic equilibria in product form. -/
theorem analyzeAll2x2SubmatricesDetailed_product (g : Game3x3) :
    analyzeAll2x2SubmatricesDetailed g
      = (blockPositions.zip ([1, 2, 3, 4, 5, 6, 7, 8, 9] : List Int)).map (fun x =>
          (⟨⟨fillGame g x.1 Game2x2.new, x.1⟩,
            findAllNashEquilibria (fillGame g x.1 Game2x2.new),
            (grid21.filter (stable1 (fillGame g x.1 Game2x2.new))).flatMap (fun p1 =>
              (grid21.filter (stable2 (fillGame g x.1 Game2x2.new))).map fun p2 =>
                (⟨⟨p1, p2⟩, false⟩ : Equilibrium)), x.2⟩ : SubmatrixAnalysis)) := by
  rw [analyzeAll2x2SubmatricesDetailed_eq]
  apply List.map_congr_left
  intro x _
  rw [findNonMyopicEquilibria_product]

/-- The supporters map of the example game. -/
theorem example_supporters :
    (calculate3x3NMEFromSubgames getExample3x3Game).strategy_supporters
      = [((1, 1), [1]), ((1, 2), [3, 5]), ((2, 1), [2, 7]), ((2, 2), [4, 6, 8, 9])] := by
  have h : analyzeAll2x2SubmatricesDetailed getExample3x3Game
      = (blockPositions.zip ([1, 2, 3, 4, 5, 6, 7, 8, 9] : List Int)).map (fun x =>
          (⟨⟨fillGame getExample3x3Game x.1 Game2x2.new, x.1⟩,
            findAllNashEquilibria (fillGame getExample3x3Game x.1 Game2x2.new),
            [⟨⟨0, 0⟩, false⟩], x.2⟩ : SubmatrixAnalysis)) := by
    rw [analyzeAll2x2SubmatricesDetailed_eq]
    apply List.map_congr_left
    intro x hx
    rw [example_submatrix_equilibria x.1 (List.of_mem_zip hx).1]
  rw [(calculate3x3NMEFromSubgames_maps getExample3x3Game).1, h]
  decide!

/-- C29 at the example game: the outcome `(2,2)` has 4 votes and the 4
supporters `4, 6, 8, 9`. -/
theorem votes_are_supporter_counts_witness :
    ((2, 2), (4 : Int)) ∈ (calculate3x3NMEFromSubgames getExample3x3Game).strategy_votes
      ∧ ((2, 2), ([4, 6, 8, 9] : List Int))
          ∈ (calculate3x3NMEFromSubgames getExample3x3Game).strategy_supporters
      ∧ (4 : Int) = (([4, 6, 8, 9] : List Int).length : Int) :=
  have hv : ((2, 2), (4 : Int))
      ∈ (calculate3x3NMEFromSubgames getExample3x3Game).strategy_votes := by
    rw [example_aggregation.1]; decide
  have hs : ((2, 2), ([4, 6, 8, 9] : List Int))
      ∈ (calculate3x3NMEFromSubgames getExample3x3Game).strategy_supporters := by
    rw [example_supporters]; decide
  ⟨hv, hs, (votes_are_supporter_counts getExample3x3Game).2.1 _ _ _ hv hs⟩

/-- The submatrix numbers are `1..9`. -/
theorem analyses_ids (g : Game3x3) :
    ∀ a ∈ analyzeAll2x2SubmatricesDetailed g, 1 ≤ a.submatrix_id ∧ a.submatrix_id ≤ 9 := by
  rw [analyzeAll2x2SubmatricesDetailed_eq]
  intro a ha
  obtain ⟨x, hx, rfl⟩ := List.mem_map.mp ha
  have h2 := (List.of_mem_zip hx).2
  simp only [List.mem_cons, List.mem_nil_iff, or_false] at h2
  simp only
  omega

/-- C22, as the code has it: the contributor collection of an outcome is a
list holding the number of each submatrix once per non-myopic equilibrium of
that submatrix that votes for the outcome, in processing order; every entry is
a submatrix number in `1..9`, and the vote count of the outcome is the length
of the list. -/
theorem supporters_one_entry_per_vote (g : Game3x3) (outcome : Int × Int) (ids : List Int)
    (h : (outcome, ids) ∈ (calculate3x3NMEFromSubgames g).strategy_supporters) :
    ids = (analyzeAll2x2SubmatricesDetailed g).flatMap (fun a =>
            (a.non_myopic_equilibria.filter (fun nme =>
              decide (votedOutcome a.submatrix.positions nme = outcome))).map
                (fun _ => a.submatrix_id))
      ∧ (∀ id ∈ ids, 1 ≤ id ∧ id ≤ 9)
      ∧ (outcome, (ids.length : Int)) ∈ (calculate3x3NMEFromSubgames g).strategy_votes := by
  rw [(calculate3x3NMEFromSubgames_maps g).1] at h
  have hids := ((mem_supporters_iff _ outcome ids).mp h).2
  rw [supporters_by_analysis] at hids
  refine ⟨hids, ?_, ?_⟩
  · intro id hid
    rw [hids] at hid
    obtain ⟨a, ha, hmem⟩ := List.mem_flatMap.mp hid
    obtain ⟨_, _, rfl⟩ := List.mem_map.mp hmem
    exact analyses_ids g a ha
  · rw [(calculate3x3NMEFromSubgames_fields g).1, tallyVotes_counts_eq_lengths]
    exact List.mem_map.mpr ⟨(outcome, ids), h, rfl⟩

/-- C22 at the example game and the outcome `(2,2)`. -/
theorem supporters_one_entry_per_vote_witness :
    ((2, 2), ([4, 6, 8, 9] : List Int))
        ∈ (calculate3x3NMEFromSubgames getExample3x3Game).strategy_supporters
      ∧ ∀ id ∈ ([4, 6, 8, 9] : List Int), 1 ≤ id ∧ id ≤ 9 :=
  have hs : ((2, 2), ([4, 6, 8, 9] : List Int))
      ∈ (calculate3x3NMEFromSubgames getExample3x3Game).strategy_supporters := by
    rw [example_supporters]; decide
  ⟨hs, (supporters_one_entry_per_vote getExample3x3Game _ _ hs).2.1⟩

/-- In the all-zero game 484 votes are cast for the outcome `(2,2)`. -/
theorem zero_game_votes_2_2 :
    ((votesCast (analyzeAll2x2SubmatricesDetailed Game3x3.new)).filter
      (fun ev => decide (ev.1 = (2, 2)))).length = 484 := by
  rw [analyzeAll2x2SubmatricesDetailed_product]
  decide!

/-- In the all-zero game 121 of the votes for `(2,2)` come from submatrix 4. -/
theorem zero_game_supporters_2_2 :
    (((votesCast (analyzeAll2x2SubmatricesDetailed Game3x3.new)).filter
      (fun ev => decide (ev.1 = (2, 2)))).map Prod.snd).count 4 = 121 := by
  rw [analyzeAll2x2SubmatricesDetailed_product]
  decide!

/-- C22 fails as stated: in the all-zero 3x3 game every grid profile of every
submatrix is a non-myopic equilibrium; the outcome `(2,2)` has 484 votes with
9 subgames, and submatrix 4 occurs 121 times in its contributor list. -/
theorem supporters_repeat_counterexample :
    (analyzeAll2x2SubmatricesDetailed Game3x3.new).length = 9
      ∧ ((2, 2), (484 : Int)) ∈ (calculate3x3NMEFromSubgames Game3x3.new).strategy_votes
      ∧ ∃ ids : List Int,
          ((2, 2), ids) ∈ (calculate3x3NMEFromSubgames Game3x3.new).strategy_supporters
            ∧ ids.count 4 = 121 ∧ ¬ ids.Nodup := by
  have hlen := zero_game_votes_2_2
  have hcount := zero_game_supporters_2_2
  have key : ∀ V : List ((Int × Int) × Int),
      (V.filter (fun ev => decide (ev.1 = (2, 2)))).length = 484 →
      ((V.filter (fun ev => decide (ev.1 = (2, 2)))).map Prod.snd).count 4 = 121 →
      (∃ ev ∈ V, ev.1 = (2, 2))
        ∧ ((484 : Int) = ((V.filter (fun ev => decide (ev.1 = (2, 2)))).length : Int))
        ∧ ¬ ((V.filter (fun ev => decide (ev.1 = (2, 2)))).map Prod.snd).Nodup := by
    intro V h1 h2
    refine ⟨?_, by rw [h1]; rfl, ?_⟩
    · have hne : V.filter (fun ev => decide (ev.1 = (2, 2))) ≠ [] := by
        intro h
        rw [h] at h1
        exact absurd h1 (by decide)
      obtain ⟨ev, hev⟩ := List.exists_mem_of_ne_nil _ hne
      exact ⟨ev, (List.mem_filter.mp hev).1, by simpa using (List.mem_filter.mp hev).2⟩
    · intro hnd
      have := List.nodup_iff_count_le_one.mp hnd 4
      rw [h2] at this
      exact absurd this (by decide)
  obtain ⟨hex, hK, hnd⟩ := key _ hlen hcount
  refine ⟨(analyses_nonempty _).1, ?_, _, ?_, hcount, hnd⟩
  · rw [(calculate3x3NMEFromSubgames_fields _).1, mem_votes_iff]
    exact ⟨hex, hK⟩
  · rw [(calculate3x3NMEFromSubgames_maps _).1, mem_supporters_iff]
    exact ⟨hex, rfl⟩

/-! ### Pure equilibria: stored profiles and coordination games -/

/-- C24: when both diagonal cells are strict mutual best replies,
`findPureNashEquilibria` returns exactly two equilibria, for the cells `(0,0)`
and `(1,1)` in that order. -/
theorem findPureNashEquilibria_diagonal (game : Game2x2)
    (h00 : game.getPayoff 0 0 0 > game.getPayoff 1 0 0)
    (h01 : game.getPayoff 0 0 1 > game.getPayoff 0 1 1)
    (h10 : game.getPayoff 1 1 0 > game.getPayoff 0 1 0)
    (h11 : game.getPayoff 1 1 1 > game.getPayoff 1 0 1) :
    findPureNashEquilibria game
        = [⟨⟨((0 : Int) : ℚ), ((0 : Int) : ℚ)⟩, true⟩, ⟨⟨((1 : Int) : ℚ), ((1 : Int) : ℚ)⟩, true⟩]
      ∧ (findPureNashEquilibria game).length = 2 := by
  have key : findPureNashEquilibria game
      = [⟨⟨((0 : Int) : ℚ), ((0 : Int) : ℚ)⟩, true⟩,
         ⟨⟨((1 : Int) : ℚ), ((1 : Int) : ℚ)⟩, true⟩] := by
    rw [findPureNashEquilibria_eq_filter]
    have a1 : game.getPayoff 1 0 0 ≤ game.getPayoff 0 0 0 := le_of_lt h00
    have a2 : game.getPayoff 0 1 1 ≤ game.getPayoff 0 0 1 := le_of_lt h01
    have a3 : game.getPayoff 0 1 0 ≤ game.getPayoff 1 1 0 := le_of_lt h10
    have a4 : game.getPayoff 1 0 1 ≤ game.getPayoff 1 1 1 := le_of_lt h11
    have b1 : ¬ game.getPayoff 1 1 0 ≤ game.getPayoff 0 1 0 := not_le.mpr h10
    have b2 : ¬ game.getPayoff 0 0 0 ≤ game.getPayoff 1 0 0 := not_le.mpr h00
    simp [List.filter_cons, a1, a2, a3, a4, b1, b2]
  exact ⟨key, by rw [key]; rfl⟩

/-- C24 on the Coordination and Battle-of-the-Sexes games of
`test_games.cpp`. -/
theorem findPureNashEquilibria_diagonal_witness :
    findPureNashEquilibria coordination
        = [⟨⟨((0 : Int) : ℚ), ((0 : Int) : ℚ)⟩, true⟩, ⟨⟨((1 : Int) : ℚ), ((1 : Int) : ℚ)⟩, true⟩]
      ∧ findPureNashEquilibria battle_of_sexes
        = [⟨⟨((0 : Int) : ℚ), ((0 : Int) : ℚ)⟩, true⟩,
           ⟨⟨((1 : Int) : ℚ), ((1 : Int) : ℚ)⟩, true⟩] :=
  ⟨(findPureNashEquilibria_diagonal coordination (by decide) (by decide) (by decide)
      (by decide)).1,
    (findPureNashEquilibria_diagonal battle_of_sexes (by decide) (by decide) (by decide)
      (by decide)).1⟩

/-- C21 fails on the code: the profile stored for the pure equilibrium of cell
`(i,j)` is `(i,j)`, which `calculateExpectedPayoff` reads as the opposite cell
`(1-i,1-j)`. On the Prisoner's Dilemma of `main.cpp` the only pure equilibrium
is cell `(1,1)`; its stored profile `(1,1)` has expected payoff
`payoff(0,0,0) = 3`, not `payoff(1,1,0) = 1`, and `isNashEquilibrium` rejects
it. -/
theorem pure_profile_denotes_opposite_cell :
    findPureNashEquilibria prisonersDilemma
        = [⟨⟨((1 : Int) : ℚ), ((1 : Int) : ℚ)⟩, true⟩]
      ∧ calculateExpectedPayoff prisonersDilemma 0 ⟨((1 : Int) : ℚ), ((1 : Int) : ℚ)⟩ = 3
      ∧ prisonersDilemma.getPayoff 1 1 0 = 1
      ∧ prisonersDilemma.getPayoff 0 0 0 = 3
      ∧ isNashEquilibrium prisonersDilemma ⟨((1 : Int) : ℚ), ((1 : Int) : ℚ)⟩ = false
      ∧ ∀ (game : Game2x2) (player : Int),
          calculateExpectedPayoff game player ⟨((0 : Int) : ℚ), ((0 : Int) : ℚ)⟩
              = game.getPayoff 1 1 player
            ∧ calculateExpectedPayoff game player ⟨((0 : Int) : ℚ), ((1 : Int) : ℚ)⟩
              = game.getPayoff 1 0 player
            ∧ calculateExpectedPayoff game player ⟨((1 : Int) : ℚ), ((0 : Int) : ℚ)⟩
              = game.getPayoff 0 1 player
            ∧ calculateExpectedPayoff game player ⟨((1 : Int) : ℚ), ((1 : Int) : ℚ)⟩
              = game.getPayoff 0 0 player := by
  refine ⟨by decide, by decide!, by decide, by decide, ?_, ?_⟩
  · unfold isNashEquilibrium
    rw [findBestResponse_eq_twoPoint _ _ _ _ (by norm_num),
      findBestResponse_eq_twoPoint _ _ _ _ (by norm_num)]
    decide!
  · intro game player
    simp only [expectedPayoff_eq]
    refine ⟨?_, ?_, ?_, ?_⟩ <;> simp

/-! ### The best response as a two-point comparison -/

/-- C26: for a tolerance `≥ 0` the 103-candidate search of `findBestResponse`
is the two-point comparison: it returns `1` when the expected payoff at own
probability `1` exceeds that at own probability `0` by strictly more than the
tolerance, and `0` otherwise; it never returns a value strictly between `0`
and `1`. -/
theorem findBestResponse_two_point (game : Game2x2) (player : Int) (other tol : ℚ)
    (htol : 0 ≤ tol) :
    findBestResponse game player other tol = twoPointResponse game player other tol
      ∧ findBestResponse game player other tol
        = (if calculateExpectedPayoff game player (testProfile player other 1)
              > calculateExpectedPayoff game player (testProfile player other 0) + tol
           then 1 else 0)
      ∧ (findBestResponse game player other tol = 0
          ∨ findBestResponse game player other tol = 1)
      ∧ ¬ (0 < findBestResponse game player other tol
            ∧ findBestResponse game player other tol < 1) := by
  have h := findBestResponse_eq_twoPoint game player other tol htol
  have h' : findBestResponse game player other tol
      = (if calculateExpectedPayoff game player (testProfile player other 1)
            > calculateExpectedPayoff game player (testProfile player other 0) + tol
         then 1 else 0) := by
    rw [h]; rfl
  refine ⟨h, h', ?_, ?_⟩
  · rw [h']; split_ifs
    · exact Or.inr rfl
    · exact Or.inl rfl
  · rw [h']; split_ifs <;> norm_num

/-- C26 on the Prisoner's Dilemma with the default tolerance. -/
theorem findBestResponse_two_point_witness :
    (0 : ℚ) ≤ 1 / 1000000
      ∧ (findBestResponse prisonersDilemma 0 (1 / 2) (1 / 1000000) = 0
          ∨ findBestResponse prisonersDilemma 0 (1 / 2) (1 / 1000000) = 1) :=
  ⟨by norm_num,
    (findBestResponse_two_point prisonersDilemma 0 (1 / 2) (1 / 1000000) (by norm_num)).2.2.1⟩

/-! ### Mixed equilibria are never found -/

/-- With the default tolerance the best response is `0` or `1`. -/
theorem findBestResponse_default_pure (game : Game2x2) (player : Int) (other : ℚ) :
    findBestResponse game player other = 0 ∨ findBestResponse game player other = 1 := by
  rw [findBestResponse_eq_twoPoint game player other _ (by norm_num)]
  unfold twoPointResponse
  split_ifs
  · exact Or.inr rfl
  · exact Or.inl rfl

/-- The test `isNashEquilibrium` fails at every profile whose `p2` is `0.5`. -/
theorem isNashEquilibrium_half (game : Game2x2) (p1 : ℚ) :
    isNashEquilibrium game ⟨p1, 1 / 2⟩ = false := by
  unfold isNashEquilibrium
  simp only []
  split_ifs with h1 h2
  · rfl
  · rfl
  · exfalso
    apply h2
    rcases findBestResponse_default_pure game 1 p1 with h | h <;> rw [h, gt_iff_lt, lt_abs] <;>
      norm_num

/-- The result of `findMixedNashEquilibria` is always empty. -/
theorem findMixedNashEquilibria_nil (game : Game2x2) : findMixedNashEquilibria game = [] := by
  rw [findMixedNashEquilibria_eq_filter, List.map_eq_nil_iff, List.filter_eq_nil_iff]
  intro p1 _
  rw [isNashEquilibrium_half]
  simp

/-- C27: with the default tolerance `isNashEquilibrium` is false at every
profile whose `p2` is `0.5`; hence `findMixedNashEquilibria` is empty and
`findAllNashEquilibria` equals `findPureNashEquilibria`. On Matching Pennies
nothing is returned, although `(0.5, 0.5)` is an equilibrium of that game in
expected payoffs and the only one among the profiles of `[0,1] x [0,1]`. -/
theorem mixed_equilibria_never_found :
    (∀ (game : Game2x2) (p1 : ℚ), isNashEquilibrium game ⟨p1, 1 / 2⟩ = false)
      ∧ (∀ game : Game2x2, findMixedNashEquilibria game = [])
      ∧ (∀ game : Game2x2, findAllNashEquilibria game = findPureNashEquilibria game)
      ∧ findAllNashEquilibria matchingPennies = []
      ∧ (∀ q : ℚ, 0 ≤ q → q ≤ 1 →
          calculateExpectedPayoff matchingPennies 0 ⟨q, 1 / 2⟩
              ≤ calculateExpectedPayoff matchingPennies 0 ⟨1 / 2, 1 / 2⟩
            ∧ calculateExpectedPayoff matchingPennies 1 ⟨1 / 2, q⟩
              ≤ calculateExpectedPayoff matchingPennies 1 ⟨1 / 2, 1 / 2⟩)
      ∧ (∀ p1 p2 : ℚ, 0 ≤ p1 → p1 ≤ 1 → 0 ≤ p2 → p2 ≤ 1 →
          (∀ q : ℚ, 0 ≤ q → q ≤ 1 →
            calculateExpectedPayoff matchingPennies 0 ⟨q, p2⟩
                ≤ calculateExpectedPayoff matchingPennies 0 ⟨p1, p2⟩
              ∧ calculateExpectedPayoff matchingPennies 1 ⟨p1, q⟩
                ≤ calculateExpectedPayoff matchingPennies 1 ⟨p1, p2⟩) →
          p1 = 1 / 2 ∧ p2 = 1 / 2) := by
  have hall : ∀ game : Game2x2, findAllNashEquilibria game = findPureNashEquilibria game := by
    intro game
    simp [findAllNashEquilibria, findMixedNashEquilibria_nil]
  have hpay : ∀ (player : Int) (a b : ℚ), (player = 0 ∨ player = 1) →
      calculateExpectedPayoff matchingPennies player ⟨a, b⟩
        = (if player = 0 then 1 else -1) * ((2 * a - 1) * (2 * b - 1)) := by
    intro player a b hp
    rw [expectedPayoff_eq]
    rcases hp with rfl | rfl
    · rw [(by decide : matchingPennies.getPayoff 0 0 0 = 1),
        (by decide : matchingPennies.getPayoff 0 1 0 = -1),
        (by decide : matchingPennies.getPayoff 1 0 0 = -1),
        (by decide : matchingPennies.getPayoff 1 1 0 = 1)]
      simp only [if_true]
      ring
    · rw [(by decide : matchingPennies.getPayoff 0 0 1 = -1),
        (by decide : matchingPennies.getPayoff 0 1 1 = 1),
        (by decide : matchingPennies.getPayoff 1 0 1 = 1),
        (by decide : matchingPennies.getPayoff 1 1 1 = -1)]
      simp only [one_ne_zero, if_false]
      ring
  refine ⟨isNashEquilibrium_half, findMixedNashEquilibria_nil, hall, ?_, ?_, ?_⟩
  · rw [hall]
    decide
  · intro q _ _
    rw [hpay 0 _ _ (Or.inl rfl), hpay 0 _ _ (Or.inl rfl), hpay 1 _ _ (Or.inr rfl),
      hpay 1 _ _ (Or.inr rfl)]
    norm_num
  · intro p1 p2 h1 h1' h2 h2' hne
    have d0 := hne 0 (le_refl _) (by norm_num)
    have d1 := hne 1 (by norm_num) (le_refl _)
    rw [hpay 0 _ _ (Or.inl rfl), hpay 0 _ _ (Or.inl rfl), hpay 1 _ _ (Or.inr rfl),
      hpay 1 _ _ (Or.inr rfl)] at d0 d1
    norm_num at d0 d1
    obtain ⟨a0, b0⟩ := d0
    obtain ⟨a1, b1⟩ := d1
    constructor
    · by_contra hp
      rcases lt_or_gt_of_ne hp with hlt | hgt
      · nlinarith
      · nlinarith
    · by_contra hp
      rcases lt_or_gt_of_ne hp with hlt | hgt
      · nlinarith
      · nlinarith

/-- C27 at the profile `(0.5, 0.5)` of Matching Pennies, which is an
equilibrium in expected payoffs. -/
theorem mixed_equilibria_never_found_witness :
    (0 : ℚ) ≤ 1 / 2 ∧ (1 / 2 : ℚ) ≤ 1
      ∧ calculateExpectedPayoff matchingPennies 0 ⟨1 / 2, 1 / 2⟩
          ≤ calculateExpectedPayoff matchingPennies 0 ⟨1 / 2, 1 / 2⟩
      ∧ calculateExpectedPayoff matchingPennies 1 ⟨1 / 2, 1 / 2⟩
          ≤ calculateExpectedPayoff matchingPennies 1 ⟨1 / 2, 1 / 2⟩ :=
  ⟨by norm_num, by norm_num,
    mixed_equilibria_never_found.2.2.2.2.1 (1 / 2) (by norm_num) (by norm_num)⟩

/-! ### The product structure of the non-myopic equilibria -/

/-- Every block of `blockPositions` is canonical: two rows `r0 < r1` and two
columns `c0 < c1` of the 3x3 matrix. -/
theorem blockPositions_canonical (ps : List (Int × Int)) (hps : ps ∈ blockPositions) :
    ∃ r0 r1 c0 c1 : Int, ps = [(r0, c0), (r0, c1), (r1, c0), (r1, c1)]
      ∧ 0 ≤ r0 ∧ r0 < r1 ∧ r1 ≤ 2 ∧ 0 ≤ c0 ∧ c0 < c1 ∧ c1 ≤ 2 := by
  simp only [blockPositions, List.mem_cons, List.mem_nil_iff, or_false] at hps
  rcases hps with h | h | h | h | h | h | h | h | h <;> rw [h]
  · exact ⟨0, 1, 0, 1, rfl, by decide⟩
  · exact ⟨0, 2, 0, 1, rfl, by decide⟩
  · exact ⟨0, 1, 0, 2, rfl, by decide⟩
  · exact ⟨0, 2, 0, 2, rfl, by decide⟩
  · exact ⟨0, 1, 1, 2, rfl, by decide⟩
  · exact ⟨0, 2, 1, 2, rfl, by decide⟩
  · exact ⟨1, 2, 0, 1, rfl, by decide⟩
  · exact ⟨1, 2, 0, 2, rfl, by decide⟩
  · exact ⟨1, 2, 1, 2, rfl, by decide⟩

/-- C30: for every returned submatrix the sorted row and column lists
recomputed from its positions have exactly 2 elements, the lookups
`rows[p1_strategy]` and `cols[p2_strategy]` are in bounds, and the voted
outcome is the recorded position `positions[2*p1_strategy + p2_strategy]`,
with row and column in `0..2`. -/
theorem votedOutcome_in_bounds (g : Game3x3) (s : Submatrix2x2)
    (hs : s ∈ extractAll2x2Submatrices g) (nme : Equilibrium) :
    ((collectRowsCols s.positions).1.insertionSort (· ≤ ·)).length = 2
      ∧ ((collectRowsCols s.positions).2.insertionSort (· ≤ ·)).length = 2
      ∧ ((collectRowsCols s.positions).1.insertionSort (· ≤ ·))[
            if nme.profile.p1_strategy1_prob > 1 / 2 then 0 else 1]?
          = some (votedOutcome s.positions nme).1
      ∧ ((collectRowsCols s.positions).2.insertionSort (· ≤ ·))[
            if nme.profile.p2_strategy1_prob > 1 / 2 then 0 else 1]?
          = some (votedOutcome s.positions nme).2
      ∧ s.positions[2 * (if nme.profile.p1_strategy1_prob > 1 / 2 then 0 else 1)
            + (if nme.profile.p2_strategy1_prob > 1 / 2 then 0 else 1)]?
          = some (votedOutcome s.positions nme)
      ∧ votedOutcome s.positions nme ∈ s.positions
      ∧ 0 ≤ (votedOutcome s.positions nme).1 ∧ (votedOutcome s.positions nme).1 ≤ 2
      ∧ 0 ≤ (votedOutcome s.positions nme).2 ∧ (votedOutcome s.positions nme).2 ≤ 2 := by
  rw [extractAll2x2Submatrices_eq] at hs
  obtain ⟨ps, hps, rfl⟩ := List.mem_map.mp hs
  obtain ⟨r0, r1, c0, c1, rfl, h1, h2, h3, h4, h5, h6⟩ := blockPositions_canonical ps hps
  obtain ⟨hrows, hcols⟩ := collectRowsCols_canonical r0 r1 c0 c1 h2 h5
  simp only [votedOutcome, hrows, hcols]
  by_cases hp1 : nme.profile.p1_strategy1_prob > 1 / 2 <;>
    by_cases hp2 : nme.profile.p2_strategy1_prob > 1 / 2 <;>
    simp only [hp1, hp2, if_true, if_false] <;>
    refine ⟨rfl, rfl, rfl, rfl, rfl, by simp, ?_, ?_, ?_, ?_⟩ <;>
    simp only [List.getD_cons_zero, List.getD_cons_succ] <;> omega

/-- C30 at the fourth submatrix of the example game and the profile `(0, 0)`. -/
theorem votedOutcome_in_bounds_witness :
    (⟨fillGame getExample3x3Game [(0, 0), (0, 2), (2, 0), (2, 2)] Game2x2.new,
        [(0, 0), (0, 2), (2, 0), (2, 2)]⟩ : Submatrix2x2)
        ∈ extractAll2x2Submatrices getExample3x3Game
      ∧ votedOutcome [(0, 0), (0, 2), (2, 0), (2, 2)] ⟨⟨0, 0⟩, false⟩
          ∈ ([(0, 0), (0, 2), (2, 0), (2, 2)] : List (Int × Int)) :=
  have hmem : (⟨fillGame getExample3x3Game [(0, 0), (0, 2), (2, 0), (2, 2)] Game2x2.new,
      [(0, 0), (0, 2), (2, 0), (2, 2)]⟩ : Submatrix2x2)
      ∈ extractAll2x2Submatrices getExample3x3Game := by
    rw [extractAll2x2Submatrices_eq]
    exact List.mem_map.mpr ⟨_, by decide, rfl⟩
  ⟨hmem, (votedOutcome_in_bounds getExample3x3Game _ hmem ⟨⟨0, 0⟩, false⟩).2.2.2.2.2.1⟩

/-! ### The combinations of `generateCombinations` -/

/-- The members of `intRange lo hi` are the integers from `lo` to `hi`. -/
theorem mem_intRange (lo hi i : Int) : i ∈ intRange lo hi ↔ lo ≤ i ∧ i ≤ hi := by
  unfold intRange
  simp only [List.mem_map, List.mem_range]
  constructor
  · rintro ⟨t, ht, rfl⟩
    omega
  · rintro ⟨h1, h2⟩
    exact ⟨(i - lo).toNat, by omega, by omega⟩

/-- A non-empty range starts with its lower bound. -/
theorem intRange_cons (lo hi : Int) (h : lo ≤ hi) :
    intRange lo hi = lo :: intRange (lo + 1) hi := by
  unfold intRange
  have e : (hi + 1 - lo).toNat = (hi + 1 - (lo + 1)).toNat + 1 := by omega
  rw [e, List.range_succ_eq_map, List.map_cons, List.map_map]
  congr 1
  · simp
  · apply List.map_congr_left
    intro t _
    simp only [Function.comp, Nat.succ_eq_add_one]
    push_cast
    ring

/-- A range whose upper bound is below its lower bound is empty. -/
theorem intRange_nil (lo hi : Int) (h : hi < lo) : intRange lo hi = [] := by
  unfold intRange
  have e : (hi + 1 - lo).toNat = 0 := by omega
  rw [e]
  rfl

/-- The ranges of the loops are strictly increasing. -/
theorem intRange_pairwise (lo hi : Int) : (intRange lo hi).Pairwise (· < ·) := by
  unfold intRange
  rw [List.pairwise_map]
  exact (List.pairwise_lt_range _).imp (fun h => by omega)

/-- Writing position `d` leaves the first `d` entries as they are. -/
theorem take_set_self {α : Type} (a : α) :
    ∀ (l : List α) (d : ℕ), (l.set d a).take d = l.take d := by
  intro l
  induction l with
  | nil => intro d; simp
  | cons x l ih =>
    intro d
    cases d with
    | zero => simp
    | succ d => simp [ih d]

/-- After position `d` is written, the first `d + 1` entries are the first `d`
entries followed by the written value. -/
theorem take_succ_set {α : Type} (a : α) :
    ∀ (l : List α) (d : ℕ), d < l.length → (l.set d a).take (d + 1) = l.take d ++ [a] := by
  intro l
  induction l with
  | nil => intro d h; simp at h
  | cons x l ih =>
    intro d h
    cases d with
    | zero => simp
    | succ d =>
      have h2 : d < l.length := by simpa using h
      simp [ih d h2]

/-- The loop of `generateCombinationsHelper` at depth `d`, given what the
recursive calls at depth `d + 1` do. -/
theorem generateCombinationsHelper_loop (n : Int) (k fuel d r : ℕ) (hd : d < k)
    (base : List Int)
    (ih : ∀ (start : Int) (comb : List Int) (acc : List (List Int)), comb.length = k →
      ∃ comb2 : List Int, comb2.length = k ∧ comb2.take (d + 1) = comb.take (d + 1) ∧
        generateCombinationsHelper n k fuel start ((d : Int) + 1) (comb, acc)
          = (comb2, acc ++ (increasingTuples n r start).map (fun t => comb.take (d + 1) ++ t))) :
    ∀ (is : List Int) (comb : List Int) (acc : List (List Int)),
      comb.length = k → comb.take d = base →
      ∃ comb2 : List Int, comb2.length = k ∧ comb2.take d = base ∧
        is.foldl (fun st i =>
            generateCombinationsHelper n k fuel (i + 1) ((d : Int) + 1)
              (st.1.set (d : Int).toNat i, st.2)) (comb, acc)
          = (comb2, acc ++ is.flatMap (fun i =>
              (increasingTuples n r (i + 1)).map (fun t => base ++ i :: t))) := by
  intro is
  induction is with
  | nil =>
    intro comb acc hlen hbase
    exact ⟨comb, hlen, hbase, by simp⟩
  | cons i is ihl =>
    intro comb acc hlen hbase
    have hlen1 : (comb.set d i).length = k := by rw [List.length_set]; exact hlen
    obtain ⟨c1, hc1, ht1, he1⟩ := ih (i + 1) (comb.set d i) acc hlen1
    have htk : (comb.set d i).take (d + 1) = base ++ [i] := by
      rw [take_succ_set i comb d (by omega), hbase]
    have hb1 : c1.take d = base := by
      have h := congrArg (List.take d) ht1
      rw [List.take_take, List.take_take, Nat.min_eq_left (Nat.le_succ d), take_set_self] at h
      rw [h, hbase]
    obtain ⟨c2, hc2, ht2, he2⟩ := ihl c1 _ hc1 hb1
    refine ⟨c2, hc2, ht2, ?_⟩
    rw [List.foldl_cons]
    simp only [Int.toNat_ofNat]
    rw [he1]
    simp only [Int.toNat_ofNat] at he2
    rw [he2, htk, List.flatMap_cons, List.append_assoc]
    simp

/-- With fuel for the remaining depth, `generateCombinationsHelper` appends
the increasing tuples that extend the current prefix and keeps the prefix. -/
theorem generateCombinationsHelper_spec (n : Int) (k : ℕ) :
    ∀ (r d fuel : ℕ), d + r = k → r + 1 ≤ fuel →
      ∀ (start : Int) (comb : List Int) (acc : List (List Int)), comb.length = k →
        ∃ comb2 : List Int, comb2.length = k ∧ comb2.take d = comb.take d ∧
          generateCombinationsHelper n k fuel start (d : Int) (comb, acc)
            = (comb2, acc ++ (increasingTuples n r start).map (fun t => comb.take d ++ t)) := by
  intro r
  induction r with
  | zero =>
    intro d fuel hd hf start comb acc hlen
    obtain ⟨f, rfl⟩ : ∃ f, fuel = f + 1 := ⟨fuel - 1, by omega⟩
    have hdk : d = k := by omega
    subst hdk
    refine ⟨comb, hlen, rfl, ?_⟩
    rw [generateCombinationsHelper, if_pos rfl]
    simp [increasingTuples, ← hlen]
  | succ r ihr =>
    intro d fuel hd hf start comb acc hlen
    obtain ⟨f, rfl⟩ : ∃ f, fuel = f + 1 := ⟨fuel - 1, by omega⟩
    have hne : ¬ ((d : Int) = (k : Int)) := by omega
    have hbound : n - (k : Int) + (d : Int) = n - ((r : Int) + 1) := by omega
    have ih1 : ∀ (start : Int) (comb : List Int) (acc : List (List Int)), comb.length = k →
        ∃ comb2 : List Int, comb2.length = k ∧ comb2.take (d + 1) = comb.take (d + 1) ∧
          generateCombinationsHelper n k f start ((d : Int) + 1) (comb, acc)
            = (comb2, acc ++ (increasingTuples n r start).map
                (fun t => comb.take (d + 1) ++ t)) := by
      intro start comb acc hlen
      have h := ihr (d + 1) f (by omega) (by omega) start comb acc hlen
      rw [Nat.cast_add_one] at h
      exact h
    obtain ⟨c2, hc2, ht2, he2⟩ :=
      generateCombinationsHelper_loop n k f d r (by omega) (comb.take d) ih1
        (intRange start (n - ((r : Int) + 1))) comb acc hlen rfl
    refine ⟨c2, hc2, ht2, ?_⟩
    rw [generateCombinationsHelper, if_neg hne, hbound]
    rw [he2]
    simp [increasingTuples, List.map_flatMap, Function.comp_def]

/-- The result of `generateCombinations` is the list of increasing tuples, for
every amount of fuel that covers the recursion depth `k + 1`. -/
theorem generateCombinationsHelper_top (n : Int) (k fuel : ℕ) (hf : k + 1 ≤ fuel) :
    (generateCombinationsHelper n k fuel 0 0 (List.replicate k 0, [])).2
      = increasingTuples n k 0 := by
  obtain ⟨c2, _, _, he⟩ :=
    generateCombinationsHelper_spec n k k 0 fuel (by omega) hf 0 (List.replicate k 0) []
      (List.length_replicate _ _)
  rw [Nat.cast_zero] at he
  rw [he]
  simp

/-- The closed form of `generateCombinations`. -/
theorem generateCombinations_eq (n k : Int) (hk : 0 ≤ k) :
    generateCombinations n k = increasingTuples n k.toNat 0 := by
  obtain ⟨kn, rfl⟩ := Int.eq_ofNat_of_zero_le hk
  unfold generateCombinations
  simp only [Int.toNat_ofNat]
  exact generateCombinationsHelper_top n kn (kn + 1) le_rfl

/-- A strictly increasing list below `n` leaves room for its entries. -/
theorem increasing_bound (n : Int) :
    ∀ (t : List Int) (i : Int), (i :: t).Pairwise (· < ·) → (∀ x ∈ i :: t, x < n) →
      i + ((t.length : Int) + 1) ≤ n := by
  intro t
  induction t with
  | nil =>
    intro i _ hb
    have := hb i (List.mem_cons_self _ _)
    simp only [List.length_nil, Nat.cast_zero]
    omega
  | cons j t ih =>
    intro i hp hb
    rw [List.pairwise_cons] at hp
    have hij := hp.1 j (List.mem_cons_self _ _)
    have := ih j hp.2 (fun x hx => hb x (List.mem_cons_of_mem _ hx))
    simp only [List.length_cons, Nat.cast_add, Nat.cast_one]
    omega

/-- The members of `increasingTuples n r start` are the strictly increasing
lists of `r` integers from `start` to `n - 1`. -/
theorem mem_increasingTuples (n : Int) :
    ∀ (r : ℕ) (start : Int) (t : List Int),
      t ∈ increasingTuples n r start ↔
        t.length = r ∧ t.Pairwise (· < ·) ∧ ∀ x ∈ t, start ≤ x ∧ x < n := by
  intro r
  induction r with
  | zero =>
    intro start t
    simp only [increasingTuples, List.mem_singleton]
    constructor
    · rintro rfl
      simp
    · rintro ⟨h, _⟩
      exact List.length_eq_zero.mp h
  | succ r ih =>
    intro start t
    simp only [increasingTuples, List.mem_flatMap, List.mem_map, mem_intRange]
    constructor
    · rintro ⟨i, ⟨h1, h2⟩, t2, ht2, rfl⟩
      obtain ⟨hl, hp, hb⟩ := (ih (i + 1) t2).1 ht2
      refine ⟨by simp [hl], ?_, ?_⟩
      · rw [List.pairwise_cons]
        exact ⟨fun x hx => by have := (hb x hx).1; omega, hp⟩
      · intro x hx
        rcases List.mem_cons.1 hx with rfl | hx
        · constructor <;> omega
        · have := hb x hx
          constructor <;> omega
    · rintro ⟨hl, hp, hb⟩
      cases t with
      | nil => simp at hl
      | cons i t2 =>
        have hroom := increasing_bound n t2 i hp (fun x hx => (hb x hx).2)
        have hl2 : t2.length = r := by simpa using hl
        rw [List.pairwise_cons] at hp
        refine ⟨i, ⟨(hb i (List.mem_cons_self _ _)).1, by rw [hl2] at hroom; omega⟩, t2, ?_, rfl⟩
        refine (ih (i + 1) t2).2 ⟨hl2, hp.2, fun x hx => ⟨?_, (hb x (List.mem_cons_of_mem _ hx)).2⟩⟩
        have := hp.1 x hx
        omega

/-- The increasing tuples are listed in strictly increasing lexicographic
order. -/
theorem increasingTuples_lex (n : Int) :
    ∀ (r : ℕ) (start : Int),
      (increasingTuples n r start).Pairwise (List.Lex (fun a b : Int => a < b)) := by
  intro r
  induction r with
  | zero =>
    intro start
    simp [increasingTuples]
  | succ r ih =>
    intro start
    simp only [increasingTuples]
    rw [List.pairwise_flatMap]
    constructor
    · intro i _
      rw [List.pairwise_map]
      exact (ih (i + 1)).imp (fun h => List.Lex.cons h)
    · refine (intRange_pairwise start _).imp ?_
      intro i j hij x hx y hy
      obtain ⟨_, _, rfl⟩ := List.mem_map.1 hx
      obtain ⟨_, _, rfl⟩ := List.mem_map.1 hy
      exact List.Lex.rel hij

/-- Lists in strictly increasing lexicographic order are pairwise distinct. -/
theorem nodup_of_lex (l : List (List Int))
    (h : l.Pairwise (List.Lex (fun a b : Int => a < b))) : l.Nodup := by
  refine h.imp ?_
  intro a b hab
  exact List.Lex.to_ne (List.Lex.imp (fun _ _ h => ne_of_lt h) _ _ hab)

/-- The number of increasing tuples is a binomial coefficient. -/
theorem increasingTuples_length (n : Int) :
    ∀ (r : ℕ) (start : Int),
      (increasingTuples n r start).length = Nat.choose (n - start).toNat r := by
  intro r
  induction r with
  | zero =>
    intro start
    simp [increasingTuples]
  | succ r ihr =>
    have key : ∀ (m : ℕ) (start : Int), (n - start).toNat = m →
        (increasingTuples n (r + 1) start).length = Nat.choose m (r + 1) := by
      intro m
      induction m with
      | zero =>
        intro start hm
        simp only [increasingTuples]
        rw [intRange_nil _ _ (by omega)]
        simp
      | succ m ihm =>
        intro start hm
        by_cases hs : start ≤ n - ((r : Int) + 1)
        · have e : increasingTuples n (r + 1) start
              = (increasingTuples n r (start + 1)).map (fun t => start :: t)
                ++ increasingTuples n (r + 1) (start + 1) := by
            simp only [increasingTuples]
            rw [intRange_cons _ _ hs, List.flatMap_cons]
          rw [e, List.length_append, List.length_map, ihr (start + 1),
            ihm (start + 1) (by omega), Nat.choose_succ_succ]
          have e2 : (n - (start + 1)).toNat = m := by omega
          rw [e2]
        · simp only [increasingTuples]
          rw [intRange_nil _ _ (by omega)]
          simp only [List.flatMap_nil, List.length_nil]
          exact (Nat.choose_eq_zero_of_lt (by omega)).symm
    intro start
    exact key _ start rfl

/-- C25: for `0 ≤ k` (and any `n`, in particular `k ≤ n`) the recursion of
`generateCombinations n k` ends within depth `k + 1`, whatever larger fuel it
is given, and its result holds exactly the strictly increasing lists of `k`
integers of `0 .. n - 1`, each once, in strictly increasing lexicographic
order, `Nat.choose n k` of them; `generateCombinations 9 4` has 126 tuples,
each of 4 distinct entries in `0 .. 8`. -/
theorem generateCombinations_increasing_tuples (n k : Int) (hk : 0 ≤ k) (hkn : k ≤ n) :
    (∀ fuel : ℕ, k.toNat + 1 ≤ fuel →
        (generateCombinationsHelper n k fuel 0 0 (List.replicate k.toNat 0, [])).2
          = generateCombinations n k)
      ∧ (∀ t : List Int, t ∈ generateCombinations n k ↔
          t.length = k.toNat ∧ t.Pairwise (· < ·) ∧ ∀ x ∈ t, 0 ≤ x ∧ x < n)
      ∧ (generateCombinations n k).Nodup
      ∧ (generateCombinations n k).Pairwise (List.Lex (fun a b : Int => a < b))
      ∧ (generateCombinations n k).length = Nat.choose n.toNat k.toNat
      ∧ (generateCombinations 9 4).length = 126
      ∧ (∀ t ∈ generateCombinations 9 4,
          t.length = 4 ∧ t.Nodup ∧ ∀ x ∈ t, 0 ≤ x ∧ x ≤ 8) := by
  have h94 : generateCombinations 9 4 = increasingTuples 9 4 0 :=
    generateCombinations_eq 9 4 (by decide)
  refine ⟨?_, ?_, ?_, ?_, ?_, ?_, ?_⟩
  · intro fuel hf
    rw [generateCombinations_eq n k hk]
    obtain ⟨kn, rfl⟩ := Int.eq_ofNat_of_zero_le hk
    simp only [Int.toNat_ofNat] at hf ⊢
    exact generateCombinationsHelper_top n kn fuel hf
  · intro t
    rw [generateCombinations_eq n k hk]
    exact mem_increasingTuples n _ 0 t
  · rw [generateCombinations_eq n k hk]
    exact nodup_of_lex _ (increasingTuples_lex n _ 0)
  · rw [generateCombinations_eq n k hk]
    exact increasingTuples_lex n _ 0
  · rw [generateCombinations_eq n k hk, increasingTuples_length]
    simp
  · rw [h94, increasingTuples_length]
    decide
  · intro t ht
    rw [h94] at ht
    obtain ⟨hl, hp, hb⟩ := (mem_increasingTuples 9 4 0 t).1 ht
    refine ⟨hl, hp.imp (fun h => ne_of_lt h), fun x hx => ?_⟩
    have := hb x hx
    constructor <;> omega

/-- Witness for C25 at `n = 9`, `k = 4`, the call of
`extractAll2x2Submatrices`. -/
theorem generateCombinations_increasing_tuples_witness :
    (0 : Int) ≤ 4 ∧ (4 : Int) ≤ 9
      ∧ (generateCombinations 9 4).length = 126
      ∧ (generateCombinations 9 4).Nodup
      ∧ ([0, 1, 3, 4] : List Int) ∈ generateCombinations 9 4 :=
  ⟨by decide, by decide,
    (generateCombinations_increasing_tuples 9 4 (by decide) (by decide)).2.2.2.2.1,
    (generateCombinations_increasing_tuples 9 4 (by decide) (by decide)).2.2.1,
    ((generateCombinations_increasing_tuples 9 4 (by decide) (by decide)).2.1 [0, 1, 3, 4]).2
      (by decide)⟩
